import Mathlib

/-!
Verification of the Shamir secret-sharing implementation in `sss.py` and
`shsesh.py` against its specification.

The Python source is shallowly embedded: Python arbitrary-precision integers
become `Int`, the floor-division operators `//` and `%` become `Int.fdiv` and
`Int.fmod` (Python's `%`/`//` are floor-style, which for a positive modulus
agrees with `Int.emod`/`Int.ediv`), Python exceptions and the error-reporting
early return of `reconstruct_key` become `Except SSSError`, and the
cryptographically secure random source (`secrets.randbelow`) is modelled as an
explicit oracle argument supplying the drawn values.
-/

/-- Error conditions of the embedded code: `invalidModulus` models the
`ValueError('p is not prime')` raised by `SSS.__init__`; `noInverse` models
the `Exception('modular inverse does not exist')` raised by `SSS.modinv`;
`insufficientShares` models the "Not enough shares" report (message printed,
`None` returned) of `SSS.reconstruct_key`; `indexError` models a Python
`IndexError` from list/tuple subscripting; `attributeError` models a Python
`AttributeError` (attribute read before being set). -/
inductive SSSError where
  | invalidModulus
  | noInverse
  | insufficientShares
  | indexError
  | attributeError
deriving DecidableEq, Repr

/-- Bound used for the termination of `egcd`: a floor-style remainder is
strictly smaller in absolute value than the divisor. -/
theorem natAbs_fmod_lt (a b : Int) (hb : b ≠ 0) : (Int.fmod a b).natAbs < b.natAbs := by
  match b with
  | Int.ofNat 0 => exact absurd rfl hb
  | Int.ofNat (n+1) =>
      have hpos : (0 : Int) < Int.ofNat (n+1) := by
        rw [Int.ofNat_eq_coe]
        exact_mod_cast Nat.succ_pos n
      have h1 : 0 ≤ Int.fmod a (Int.ofNat (n+1)) := Int.fmod_nonneg' a hpos
      have h2 : Int.fmod a (Int.ofNat (n+1)) < Int.ofNat (n+1) := Int.fmod_lt_of_pos a hpos
      omega
  | Int.negSucc n =>
      match a with
      | Int.ofNat 0 =>
          have h0 : Int.fmod (Int.ofNat 0) (Int.negSucc n) = 0 := rfl
          rw [h0]
          simp [Int.natAbs_negSucc]
      | Int.ofNat (m+1) =>
          have h0 : Int.fmod (Int.ofNat (m+1)) (Int.negSucc n) =
              Int.subNatNat (m % (n+1)) n := rfl
          have hm : m % (n+1) < n + 1 := Nat.mod_lt m (Nat.succ_pos n)
          rw [h0, Int.subNatNat_eq_coe]
          simp only [Int.natAbs_negSucc]
          omega
      | Int.negSucc m =>
          have h0 : Int.fmod (Int.negSucc m) (Int.negSucc n) =
              -Int.ofNat ((m+1) % (n+1)) := rfl
          have hm : (m+1) % (n+1) < n + 1 := Nat.mod_lt (m+1) (Nat.succ_pos n)
          rw [h0]
          simpa only [Int.natAbs_negSucc, Int.natAbs_neg, Int.natAbs_ofNat] using hm

/-- Embedding of `SSS.egcd` (identical in `sss.py` and `shsesh.py`): the
recursive extended Euclidean algorithm.  Python's
`g, y, x = self.egcd(number2 % number1, number1); return g, x - (number2 // number1) * y, y`
becomes a recursion on `Int.fmod`/`Int.fdiv`; the returned triple `(g, y, x)`
of the recursive call is accessed positionally (`r.1 = g`, `r.2.1 = y`,
`r.2.2 = x`). -/
def egcd (number1 number2 : Int) : Int × Int × Int :=
  if h : number1 = 0 then (number2, 0, 1)
  else
    let r := egcd (Int.fmod number2 number1) number1
    (r.1, r.2.2 - Int.fdiv number2 number1 * r.2.1, r.2.1)
termination_by number1.natAbs
decreasing_by exact natAbs_fmod_lt number2 number1 h

/-- Embedding of `SSS.modinv` (identical in both files): runs `egcd number m`,
raises when the reported gcd is not `1`, and otherwise returns the Bezout
coefficient of `number` reduced with Python's `%` (floor mod). -/
def modinv (number m : Int) : Except SSSError Int :=
  let r := egcd number m
  if r.1 ≠ 1 then .error .noInverse
  else .ok (Int.fmod r.2.1 m)

/-- Loop body of `SSS.calculate_b` in `sss.py`: for each `element` distinct
from `x`, multiply the accumulator by `element` and by the modular inverse of
`element - x` (computed as the inverse of `p - |element - x|` when the
difference is negative). -/
def calcBStep (p x acc element : Int) : Except SSSError Int :=
  if element ≠ x then do
    let acc1 := acc * element
    let inverse ← if element - x ≥ 0 then modinv (element - x) p
      else modinv (p - |element - x|) p
    pure (acc1 * inverse)
  else pure acc

/-- Embedding of `SSS.calculate_b` in `sss.py` (simplified Lagrange basis
weight used at evaluation point `0`); the final `acc % self.p` is the trailing
`Int.fmod`. -/
def calculate_b (p x : Int) (x_values : List Int) : Except SSSError Int := do
  let acc ← x_values.foldlM (calcBStep p x) 1
  pure (Int.fmod acc p)

/-- Loop body of `SSS.calculate_b` in `shsesh.py`: the multiplication by
`element` is guarded by `element != x` and the multiplication by the inverse
by the separately stated `element - x != 0`. -/
def calcBStepShsesh (p x acc element : Int) : Except SSSError Int := do
  let acc1 := if element ≠ x then acc * element else acc
  if element - x ≠ 0 then do
    let inverse ← if element - x ≥ 0 then modinv (element - x) p
      else modinv (p - |element - x|) p
    pure (acc1 * inverse)
  else pure acc1

/-- Embedding of `SSS.calculate_b` in `shsesh.py`. -/
def calculate_b_shsesh (p x : Int) (x_values : List Int) : Except SSSError Int := do
  let acc ← x_values.foldlM (calcBStepShsesh p x) 1
  pure (Int.fmod acc p)

/-- Loop body of `SSS.calculate_b_full` in `sss.py`: as `calcBStep` but the
numerator factor is `root - element`. -/
def calcBFullStep (p root x acc element : Int) : Except SSSError Int :=
  if element ≠ x then do
    let acc1 := acc * (root - element)
    let inverse ← if element - x ≥ 0 then modinv (element - x) p
      else modinv (p - |element - x|) p
    pure (acc1 * inverse)
  else pure acc

/-- Embedding of `SSS.calculate_b_full` in `sss.py` (full Lagrange basis
weight at evaluation point `root`). -/
def calculate_b_full (p root x : Int) (x_values : List Int) : Except SSSError Int := do
  let acc ← x_values.foldlM (calcBFullStep p root x) 1
  pure (Int.fmod acc p)

/-- Python list subscription `l[i]`, raising `IndexError` out of range. -/
def getIdx {α : Type} (l : List α) (i : Nat) : Except SSSError α :=
  match l[i]? with
  | some v => .ok v
  | none => .error .indexError

/-- Embedding of `SSS.reconstruct_key` (identical in both files up to the
`calculate_b` helper, which is extensionally the same, see `C9`): when fewer
than `t` y-values are supplied the code prints "Not enough shares" and returns
`None`, modelled as the `insufficientShares` error; otherwise it sums
`b[index] * y[index]` over all indices of `y` (indexing into `x` can raise
`IndexError` when `x` is shorter than `y`) and reduces modulo `p`. -/
def reconstruct_key (p : Int) (t : Nat) (x y : List Int) : Except SSSError Int :=
  if y.length < t then .error .insufficientShares
  else do
    let k ← (List.range y.length).foldlM (fun k index => do
        let xi ← getIdx x index
        let bi ← calculate_b p xi x
        let yi ← getIdx y index
        pure (k + bi * yi)) 0
    pure (Int.fmod k p)

/-- Embedding of `SSS.calculate_y` in `sss.py`: full Lagrange interpolation of
the supplied points evaluated at `x`; note that unlike `reconstruct_key` it
has no minimum-share-count guard. -/
def calculate_y (p x : Int) (x_values y_values : List Int) : Except SSSError Int := do
  let y ← (List.range y_values.length).foldlM (fun y index => do
      let xvi ← getIdx x_values index
      let bi ← calculate_b_full p x xvi x_values
      let yvi ← getIdx y_values index
      pure (y + bi * yvi)) 0
  pure (Int.fmod y p)

deriving instance DecidableEq for Except

/-- Bezout identity for `egcd`: the two coefficients returned combine the
inputs into the reported gcd, for all integer inputs. -/
theorem egcd_bezout (a b : Int) :
    a * (egcd a b).2.1 + b * (egcd a b).2.2 = (egcd a b).1 := by
  induction a, b using egcd.induct with
  | case1 b =>
      rw [egcd]
      simp
  | case2 a b h ih =>
      rw [egcd]
      simp only [h, dite_false]
      have hfm : Int.fmod b a = b - a * Int.fdiv b a := Int.fmod_def b a
      set r := egcd (Int.fmod b a) a with hr
      rw [hfm] at ih
      linear_combination ih

/-- For nonnegative inputs, the first component returned by `egcd` is the gcd
of the inputs. -/
theorem egcd_fst_eq_gcd (a b : Int) (ha : 0 ≤ a) (hb : 0 ≤ b) :
    (egcd a b).1 = Int.gcd a b := by
  induction a, b using egcd.induct with
  | case1 b =>
      rw [egcd]
      simp only [dite_true]
      rw [Int.gcd_zero_left, Int.natAbs_of_nonneg hb]
  | case2 a b h ih =>
      have ha' : 0 < a := lt_of_le_of_ne ha (Ne.symm h)
      have hfm : Int.fmod b a = b % a := Int.fmod_eq_emod b ha
      rw [egcd]
      simp only [h, dite_false]
      have h1 : 0 ≤ Int.fmod b a := by
        rw [hfm]; exact Int.emod_nonneg b (by omega)
      have h2 := ih h1 ha
      rw [h2, hfm]
      obtain ⟨an, rfl⟩ := Int.eq_ofNat_of_zero_le ha
      obtain ⟨bn, rfl⟩ := Int.eq_ofNat_of_zero_le hb
      have hcast : (bn : Int) % (an : Int) = ((bn % an : Nat) : Int) :=
        (Int.ofNat_emod bn an).symm
      rw [hcast]
      have hgcd : Int.gcd ((bn % an : Nat) : Int) (an : Int) = Int.gcd (an : Int) (bn : Int) := by
        simp only [Int.gcd, Int.natAbs_ofNat]
        exact (Nat.gcd_rec an bn).symm
      exact congrArg Nat.cast hgcd

/-- When `modinv` succeeds, the returned value is a modular inverse. -/
theorem modinv_ok_mul_emod (a m v : Int) (h : modinv a m = .ok v) :
    (a * v) % m = 1 % m := by
  unfold modinv at h
  by_cases hg : (egcd a m).1 ≠ 1
  · simp [hg] at h
  · simp only [hg, if_false, Except.ok.injEq] at h
    push_neg at hg
    have hbez := egcd_bezout a m
    rw [hg] at hbez
    have hv : v = (egcd a m).2.1 - m * Int.fdiv (egcd a m).2.1 m := by
      rw [← h, Int.fmod_def]
    apply Int.ModEq.symm
    rw [Int.ModEq]
    apply (Int.modEq_iff_dvd.mpr _).symm
    refine ⟨(egcd a m).2.2 + a * Int.fdiv (egcd a m).2.1 m, ?_⟩
    rw [hv]
    linear_combination -hbez

/-- When `modinv` succeeds with a positive modulus, the returned value is
normalized into `[0, m)`. -/
theorem modinv_ok_range (a m v : Int) (hm : 0 < m) (h : modinv a m = .ok v) :
    0 ≤ v ∧ v < m := by
  unfold modinv at h
  by_cases hg : (egcd a m).1 ≠ 1
  · simp [hg] at h
  · simp only [hg, if_false, Except.ok.injEq] at h
    subst h
    exact ⟨Int.fmod_nonneg' _ hm, Int.fmod_lt_of_pos _ hm⟩

/-- When the inputs are nonnegative and coprime, `modinv` succeeds. -/
theorem modinv_isOk (a m : Int) (ha : 0 ≤ a) (hm : 0 ≤ m) (hg : Int.gcd a m = 1) :
    ∃ v, modinv a m = .ok v := by
  refine ⟨Int.fmod (egcd a m).2.1 m, ?_⟩
  unfold modinv
  have h1 : (egcd a m).1 = 1 := by
    rw [egcd_fst_eq_gcd a m ha hm, hg]
    rfl
  simp [h1]

/-- Helper for C3: a prime modulus is coprime to any smaller positive integer. -/
theorem gcd_eq_one_of_prime (a m : Int) (hp : m.natAbs.Prime) (ha : 1 ≤ a) (ham : a < m) :
    Int.gcd a m = 1 := by
  have hm : 0 < m := by omega
  have h1 : 1 ≤ a.natAbs := by omega
  have h2 : a.natAbs < m.natAbs := by omega
  have hnd : ¬ m.natAbs ∣ a.natAbs := Nat.not_dvd_of_pos_of_lt (by omega) h2
  have := (Nat.Prime.coprime_iff_not_dvd hp).mpr hnd
  unfold Int.gcd
  exact Nat.Coprime.gcd_eq_one (Nat.Coprime.symm this)

/-- C3 (corrected): for `1 ≤ a`, whenever `gcd(a, m) = 1` and `m > 1` (in
particular for `m` prime and `a ∈ [1, m)`), `modinv a m` returns a `b` with
`0 ≤ b < m` and `(a * b) % m = 1`, normalized into `[0, m)` regardless of the
sign of the raw Bezout coefficient.  The restriction `1 ≤ a` is forced by
`modinv_neg_counterexample`: on negative `a` the recursion works on Python
floor-mod remainders of negative sign and `egcd` reports `-1` as the gcd. -/
theorem modinv_correct_amended (a m : Int) (hm : 1 < m)
    (h : (1 ≤ a ∧ Int.gcd a m = 1) ∨ (m.natAbs.Prime ∧ 1 ≤ a ∧ a < m)) :
    ∃ b, modinv a m = .ok b ∧ 0 ≤ b ∧ b < m ∧ (a * b) % m = 1 := by
  have hg : 1 ≤ a ∧ Int.gcd a m = 1 := by
    rcases h with h | ⟨hp, ha, ham⟩
    · exact h
    · exact ⟨ha, gcd_eq_one_of_prime a m hp ha ham⟩
  obtain ⟨v, hv⟩ := modinv_isOk a m (by omega) (by omega) hg.2
  refine ⟨v, hv, (modinv_ok_range a m v (by omega) hv).1, (modinv_ok_range a m v (by omega) hv).2, ?_⟩
  have := modinv_ok_mul_emod a m v hv
  rwa [Int.emod_eq_of_lt (by omega) hm] at this

unseal egcd in
/-- C3 counterexample: `gcd(-5, 7) = 1` and `7 > 1`, yet `modinv (-5) 7`
raises instead of returning an inverse, refuting the claim's unrestricted
"whenever gcd(a, m) = 1 with m > 1" clause. -/
theorem modinv_neg_counterexample :
    Int.gcd (-5) 7 = 1 ∧ (1 : Int) < 7 ∧ modinv (-5) 7 = .error .noInverse := by
  decide

unseal egcd in
/-- C3 witness: the amended theorem applied at `a = 3`, `m = 7`. -/
theorem modinv_correct_witness :
    (1 : Int) < 7 ∧ ∃ b, modinv 3 7 = .ok b ∧ 0 ≤ b ∧ b < 7 ∧ (3 * b) % 7 = 1 :=
  ⟨by decide, modinv_correct_amended 3 7 (by decide) (Or.inl ⟨by decide, by decide⟩)⟩

unseal egcd in
example : modinv 3 7 = .ok 5 := rfl

unseal egcd in
example : reconstruct_key 17 3 [1, 3, 5] [8, 10, 11] = .ok 13 := rfl

set_option maxRecDepth 4000 in
unseal egcd in
example : reconstruct_key 1613 3 [1, 2, 3] [1494, 329, 965] = .ok 1234 := rfl

/-- Propagation helper: a bind cannot introduce an error neither side can
produce. -/
theorem bind_ne_error {e : SSSError} {ma : Except SSSError Int}
    {f : Int → Except SSSError Int} (ha : ma ≠ .error e) (hf : ∀ a, f a ≠ .error e) :
    ma >>= f ≠ .error e := by
  cases ma with
  | error e' =>
      intro hcon
      exact ha hcon
  | ok a => exact hf a

/-- Propagation helper: a fold cannot introduce an error its step function
cannot produce. -/
theorem foldlM_ne_error {e : SSSError} {α : Type} (step : Int → α → Except SSSError Int)
    (hstep : ∀ acc x, step acc x ≠ .error e) :
    ∀ (l : List α) (acc : Int), l.foldlM step acc ≠ .error e := by
  intro l
  induction l with
  | nil =>
      intro acc hcon
      exact Except.noConfusion hcon
  | cons hd tl ih =>
      intro acc
      rw [List.foldlM_cons]
      exact bind_ne_error (hstep acc hd) ih

/-- The inverse routine never reports an insufficient-share condition. -/
theorem modinv_ne_insufficient (a m : Int) :
    modinv a m ≠ .error .insufficientShares := by
  unfold modinv
  by_cases hg : (egcd a m).1 ≠ 1 <;> simp [hg]

/-- The basis-weight routine of `sss.py` never reports an insufficient-share
condition. -/
theorem calculate_b_ne_insufficient (p x : Int) (xs : List Int) :
    calculate_b p x xs ≠ .error .insufficientShares := by
  unfold calculate_b
  apply bind_ne_error
  · apply foldlM_ne_error
    intro acc e
    unfold calcBStep
    by_cases hne : e ≠ x
    · rw [if_pos hne]
      by_cases hge : e - x ≥ 0
      · rw [if_pos hge]
        apply bind_ne_error (modinv_ne_insufficient _ _)
        intro a hcon
        exact Except.noConfusion hcon
      · rw [if_neg hge]
        apply bind_ne_error (modinv_ne_insufficient _ _)
        intro a hcon
        exact Except.noConfusion hcon
    · rw [if_neg hne]
      intro hcon
      exact Except.noConfusion hcon
  · intro a hcon
    exact Except.noConfusion hcon

/-- List subscription never reports an insufficient-share condition. -/
theorem getIdx_ne_insufficient (l : List Int) (i : Nat) :
    getIdx l i ≠ .error .insufficientShares := by
  unfold getIdx
  cases l[i]? <;> simp

/-- C4: with fewer than `t` y-values, `reconstruct_key` reports
`insufficientShares` (the code prints the failure and returns `None` instead
of a secret); with at least `t` y-values it never reports this error (though
it may fail differently, e.g. with an `IndexError` on mismatched lists).  The
first part is stated under the weaker hypothesis `y.length < t`, which the
claim's "both coordinate lists shorter than `t`" implies. -/
theorem reconstruct_key_insufficient (p : Int) (t : Nat) (xs ys : List Int) :
    (ys.length < t → reconstruct_key p t xs ys = .error .insufficientShares) ∧
    (t ≤ ys.length → reconstruct_key p t xs ys ≠ .error .insufficientShares) := by
  constructor
  · intro hlt
    unfold reconstruct_key
    simp [hlt]
  · intro hge
    unfold reconstruct_key
    rw [if_neg (by omega)]
    apply bind_ne_error
    · apply foldlM_ne_error
      intro acc i
      apply bind_ne_error (getIdx_ne_insufficient xs i)
      intro xi
      apply bind_ne_error (calculate_b_ne_insufficient p xi xs)
      intro bi
      apply bind_ne_error (getIdx_ne_insufficient ys i)
      intro yi hcon
      exact Except.noConfusion hcon
    · intro a hcon
      exact Except.noConfusion hcon

unseal egcd in
/-- C4 witness: the theorem applied to a concrete undersized and a concrete
adequate share list for the scheme `p = 17`, `t = 3`. -/
theorem reconstruct_key_insufficient_witness :
    ([(8:Int)].length < 3 ∧ reconstruct_key 17 3 [1] [8] = .error .insufficientShares) ∧
    (3 ≤ [(8:Int), 10, 11].length ∧
      reconstruct_key 17 3 [1, 3, 5] [8, 10, 11] ≠ .error .insufficientShares) :=
  ⟨⟨by decide, (reconstruct_key_insufficient 17 3 [1] [8]).1 (by decide)⟩,
   ⟨by decide, (reconstruct_key_insufficient 17 3 [1, 3, 5] [8, 10, 11]).2 (by decide)⟩⟩

/-- Mutable state of a Python `SSS` object: the constructor arguments `k`,
`p`, `w`, `t` plus the attributes `a`, `x`, `y` that `choose_a`, `choose_x`
and `generate_shares` assign later (`none` models an attribute that has not
been set; reading it raises `AttributeError`).  The Python share and
threshold counts are list lengths/`range` bounds, modelled as `Nat`. -/
structure SSSObj where
  k : Int
  p : Int
  w : Nat
  t : Nat
  a : Option (List Int)
  x : Option (List Int)
  y : Option (List Int)
deriving DecidableEq, Repr

/-- Embedding of `SSS.__init__`: `sympy.isprime` is the primality oracle of
the spec, true exactly on positive primes; a composite modulus raises
`ValueError('p is not prime')`, modelled as `invalidModulus`.  No other
argument is validated. -/
def SSS_init (k p : Int) (w t : Nat) : Except SSSError SSSObj :=
  if ¬ (0 < p ∧ p.natAbs.Prime) then .error .invalidModulus
  else .ok ⟨k, p, w, t, none, none, none⟩

/-- Embedding of `SSS.choose_a`: draws `t - 1` values below `p` from the
secure random source — modelled by the oracle argument `draws`, assumed of
length `t - 1` where a claim needs it — stores them in `self.a` and returns
them. -/
def choose_a (s : SSSObj) (draws : List Int) : SSSObj × List Int :=
  ({ s with a := some draws }, draws)

/-- Embedding of `np.polyval(poly, x)` on exact `object`-dtype integers:
Horner evaluation with the highest-degree coefficient first. -/
def polyval (coeffs : List Int) (x : Int) : Int :=
  coeffs.foldl (fun acc c => acc * x + c) 0

/-- Embedding of `SSS.generate_shares` in `sss.py`: calls `choose_a` (which
stores the fresh random coefficients in `self.a`), then for each
`idx < self.w` evaluates the polynomial `self.a + [self.k]` at `self.x[idx]`
modulo `p`; reading `self.x` before `choose_x` ran raises `AttributeError`,
an out-of-range `idx` raises `IndexError`.  The resulting list is stored in
`self.y` and returned. -/
def generate_shares (s : SSSObj) (draws : List Int) : Except SSSError (SSSObj × List Int) :=
  let s1 := (choose_a s draws).1
  match s1.x with
  | none => .error .attributeError
  | some xs => do
      let y ← (List.range s1.w).mapM (fun idx => do
          let xi ← getIdx xs idx
          pure (Int.fmod (polyval ((choose_a s draws).2 ++ [s1.k]) xi) s1.p))
      pure ({ s1 with y := some y }, y)

/-- C6 counterexample: a scheme with `t = 100 > w = 5` (violating
`1 < t ≤ w < p`) is constructed without error, refuting the claim that
construction fails whenever the invariant is violated. -/
theorem init_no_invariant_check :
    SSS_init 13 17 5 100 = .ok ⟨13, 17, 5, 100, none, none, none⟩ ∧ ¬ (100 ≤ 5) := by
  constructor
  · rw [SSS_init, if_neg]
    simp only [not_not]
    exact ⟨by decide, by decide⟩
  · decide

/-- C6 (amended): construction checks exactly primality of the modulus — it
fails with `invalidModulus` when `p` is not a (positive) prime and otherwise
succeeds storing the parameters unchanged, regardless of whether
`1 < t ≤ w < p` holds. -/
theorem init_amended (k p : Int) (w t : Nat) :
    (¬ (0 < p ∧ p.natAbs.Prime) → SSS_init k p w t = .error .invalidModulus) ∧
    (0 < p ∧ p.natAbs.Prime → SSS_init k p w t = .ok ⟨k, p, w, t, none, none, none⟩) := by
  constructor
  · intro h
    rw [SSS_init, if_pos h]
  · intro h
    rw [SSS_init, if_neg (not_not_intro h)]

/-- C6 witness: the amended theorem applied at the composite modulus `18` and
at the prime modulus `17`. -/
theorem init_amended_witness :
    (¬ ((0:Int) < 18 ∧ (18:Int).natAbs.Prime) ∧
      SSS_init 13 18 5 3 = .error .invalidModulus) ∧
    (((0:Int) < 17 ∧ (17:Int).natAbs.Prime) ∧
      SSS_init 13 17 5 3 = .ok ⟨13, 17, 5, 3, none, none, none⟩) :=
  ⟨⟨by decide, (init_amended 13 18 5 3).1 (by decide)⟩,
   ⟨by decide, (init_amended 13 17 5 3).2 (by decide)⟩⟩

/-- C7: contrary to the claim that `generate_shares` retains nothing, the
call stores the freshly drawn polynomial coefficients in the object's `a`
attribute (and the shares in `y`): after a successful call on the concrete
scheme `k = 13, p = 17, w = 5, t = 3` with `x = [1, 2, 3, 4, 5]` and drawn
coefficients `[7, 11]`, the returned object state retains `a = some [7, 11]`. -/
theorem generate_shares_retains_coefficients :
    (generate_shares ⟨13, 17, 5, 3, none, some [1, 2, 3, 4, 5], none⟩ [7, 11]).map
        (fun r => (r.1.a, r.1.y)) =
      .ok (some [7, 11], some [14, 12, 7, 16, 5]) := by
  decide

/-- Per-element agreement of the two loop bodies: `element != x` and
`element - x != 0` are equivalent guards, so the `shsesh.py` body (two
separately stated conditions) and the `sss.py` body (one condition) coincide. -/
theorem calcBStepShsesh_eq (p x : Int) : calcBStepShsesh p x = calcBStep p x := by
  funext acc e
  unfold calcBStepShsesh calcBStep
  by_cases hne : e ≠ x
  · have hsub : e - x ≠ 0 := sub_ne_zero_of_ne hne
    simp only [if_pos hne, if_pos hsub]
  · have hsub : ¬ (e - x ≠ 0) := by
      push_neg at hne ⊢
      omega
    simp only [if_neg hne, if_neg hsub]

/-- Agreement of the two `calculate_b` variants on every input. -/
theorem calculate_b_agree (p x : Int) (xs : List Int) :
    calculate_b_shsesh p x xs = calculate_b p x xs := by
  unfold calculate_b_shsesh calculate_b
  rw [calcBStepShsesh_eq]

/-- C9 counterexample (negation of the claim): there is no input on which the
`shsesh.py` and `sss.py` versions of `calculate_b` return different results. -/
theorem calculate_b_variants_never_disagree :
    ¬ ∃ p x xs, calculate_b_shsesh p x xs ≠ calculate_b p x xs := by
  push_neg
  intro p x xs
  exact calculate_b_agree p x xs

/-- C9 (amended): the two source variants' Lagrange basis-weight computations
agree on every input — in `shsesh.py` the excluded term's factor is likewise
multiplied only under `element != x`, and its separate guard
`element - x != 0` is equivalent to it, so no edge-case disagreement exists. -/
theorem calculate_b_variants_agree (p x : Int) (xs : List Int) :
    calculate_b_shsesh p x xs = calculate_b p x xs :=
  calculate_b_agree p x xs

/-- Embedding of `itertools.combinations(l, t)`: all size-`t` subsequences of
`l` in the order Python generates them (tuples modelled as lists). -/
def combos {α : Type} : Nat → List α → List (List α)
  | 0, _ => [[]]
  | _ + 1, [] => []
  | t + 1, x :: xs => (combos t xs).map (fun c => x :: c) ++ combos (t + 1) xs

/-- Number of entries of `array_of_keys` carrying the key `k`: embedding of
`sum(x.count(element[1]) for x in array_of_keys)`, where each `x` is the
two-element list `[x_tuple, key]` and a tuple never equals an integer, so
only the key slot can contribute to the count. -/
def keyCount (entries : List (List Int × Int)) (k : Int) : Nat :=
  (entries.map (fun e => e.2)).count k

/-- Stable insertion of an element into a count-descending sorted list:
earlier elements with the same count stay in front, mirroring the stability
of Python's `sorted(..., key=lambda x: x[1], reverse=True)`. -/
def insertDesc (e : Int × Nat) : List (Int × Nat) → List (Int × Nat)
  | [] => [e]
  | h :: t => if h.2 > e.2 then h :: insertDesc e t else e :: h :: t

/-- Stable descending sort by occurrence count, modelling Python's stable
`sorted(array_count, key=lambda x: x[1], reverse=True)`. -/
def sortDesc : List (Int × Nat) → List (Int × Nat)
  | [] => []
  | h :: t => insertDesc h (sortDesc t)

/-- Loop of `SSS.validate_shares`: compare each subset's reconstructed key to
the first subset's and return `False` at the first mismatch.  The source
calls `sss.reconstruct_key` on the module-level global `sss`; at its only
call site that global is the object the method is invoked on, so the loop is
modelled with the scheme's own `p` and `t`. -/
def validateLoop (p : Int) (t : Nat) (comb_x comb_y : List (List Int)) (key : Int) :
    List Nat → Except SSSError Bool
  | [] => .ok true
  | index :: rest => do
      let cx ← getIdx comb_x index
      let cy ← getIdx comb_y index
      let next_key ← reconstruct_key p t cx cy
      if ¬ (next_key = key) then .ok false
      else validateLoop p t comb_x comb_y key rest

/-- Embedding of `SSS.validate_shares` in `sss.py`: reconstruct the secret
from every size-`t` subset (index-aligned combinations of the x- and y-lists)
and report whether all agree with the first subset's result. -/
def validate_shares (p : Int) (t : Nat) (x_values y_values : List Int) :
    Except SSSError Bool := do
  let comb_x := combos t x_values
  let comb_y := combos t y_values
  let cx0 ← getIdx comb_x 0
  let cy0 ← getIdx comb_y 0
  let key ← reconstruct_key p t cx0 cy0
  validateLoop p t comb_x comb_y key (List.range comb_x.length)

/-- Embedding of `SSS.find_defective_share` in `sss.py` (as in
`validate_shares`, the source's read of the global `sss` is modelled by the
scheme's own `p` and `t`): reconstruct every size-`t` subset, count how often
each reconstructed key occurs, take the first key of the stable
count-descending sort as the likely key, collect the x-tuples of the subsets
that disagree, and return "the" element of their intersection via
`list(set(array_of_x[0]).intersection(*array_of_x))[0]`.  Python's set
iteration order is unspecified; the intersection is modelled as the first
tuple deduplicated and filtered by membership in every disagreeing tuple,
which agrees with CPython whenever the intersection is a singleton (the only
case in which any theorem below evaluates it). -/
def find_defective_share (p : Int) (t : Nat) (x_values y_values : List Int) :
    Except SSSError Int := do
  let comb_x := combos t x_values
  let comb_y := combos t y_values
  let array_of_keys ← (List.range comb_x.length).foldlM (fun acc index => do
      let cx ← getIdx comb_x index
      let cy ← getIdx comb_y index
      let key ← reconstruct_key p t cx cy
      pure (acc ++ [(cx, key)])) ([] : List (List Int × Int))
  let array_count := array_of_keys.map (fun e => (e.2, keyCount array_of_keys e.2))
  let first ← getIdx (sortDesc array_count) 0
  let likely_key := first.1
  let array_of_x := (array_of_keys.filter (fun e => e.2 ≠ likely_key)).map (fun e => e.1)
  let first_x ← getIdx array_of_x 0
  let result := first_x.dedup.filter (fun v => array_of_x.all (fun l => v ∈ l))
  getIdx result 0

unseal egcd in
/-- C8: the error type of the source contains no ambiguity error at all, and
on a share set whose per-subset secrets are pairwise distinct (a three-way
tie in the majority vote — exactly the situation the claim says must be
surfaced as `AmbiguousDefectiveShare`), `find_defective_share` silently
returns the evaluation point `3` instead of failing: with `p = 5`, `t = 2`,
shares `(1,1), (2,2), (3,0)`, the three 2-subsets reconstruct to the three
different secrets `0`, `4` and `1`, yet the call returns `.ok 3`. -/
theorem find_defective_ambiguous_returns_point :
    reconstruct_key 5 2 [1, 2] [1, 2] = .ok 0 ∧
    reconstruct_key 5 2 [1, 3] [1, 0] = .ok 4 ∧
    reconstruct_key 5 2 [2, 3] [2, 0] = .ok 1 ∧
    validate_shares 5 2 [1, 2, 3] [1, 2, 0] = .ok false ∧
    find_defective_share 5 2 [1, 2, 3] [1, 2, 0] = .ok 3 := by
  decide

unseal egcd in
/-- C2 counterexample: with the prime `p = 17`, threshold `t = 3` and the
four consistent shares `(1,1), (2,2), (3,1), (4,1)` of the constant
polynomial `1`, evaluating the interpolating polynomial at `0` via
`calculate_y` gives `16 = -1 mod 17` while `reconstruct_key` gives the
secret `1`: with an even number of shares the two disagree by the sign
`(-1)^(n-1)`. -/
theorem calculate_y_zero_ne_reconstruct :
    calculate_y 17 0 [1, 2, 3, 4] [1, 1, 1, 1] = .ok 16 ∧
    reconstruct_key 17 3 [1, 2, 3, 4] [1, 1, 1, 1] = .ok 1 ∧
    calculate_y 17 0 [1, 2, 3, 4] [1, 1, 1, 1] ≠
      reconstruct_key 17 3 [1, 2, 3, 4] [1, 1, 1, 1] := by
  decide

/-- Reducing with Python's `%` by a natural modulus does not change the value
in `ZMod P`. -/
theorem intCast_fmod_zmod (P : ℕ) (v : Int) :
    ((Int.fmod v (P : Int) : Int) : ZMod P) = (v : ZMod P) := by
  rw [Int.fmod_eq_emod v (by positivity)]
  rw [ZMod.intCast_eq_intCast_iff]
  exact Int.emod_emod_of_dvd v dvd_rfl

/-- Integers in `[0, P)` are determined by their residue in `ZMod P`. -/
theorem int_eq_of_zmod_eq {P : ℕ} {a b : Int} (ha : 0 ≤ a ∧ a < ↑P) (hb : 0 ≤ b ∧ b < ↑P)
    (h : (a : ZMod P) = (b : ZMod P)) : a = b := by
  rw [ZMod.intCast_eq_intCast_iff' a b P] at h
  rwa [Int.emod_eq_of_lt ha.1 ha.2, Int.emod_eq_of_lt hb.1 hb.2] at h

/-- A successful `modinv` call produces a multiplicative inverse in `ZMod P`. -/
theorem modinv_zmod {P : ℕ} {a v : Int} (h : modinv a (P : Int) = .ok v) :
    (a : ZMod P) * (v : ZMod P) = 1 := by
  have hme : (a * v) % (P : Int) = 1 % (P : Int) := modinv_ok_mul_emod a _ v h
  have hcast := (ZMod.intCast_eq_intCast_iff (a * v) 1 P).mpr hme
  push_cast at hcast
  exact hcast

/-- The inverse-taking branch of the basis-weight loops: for a nonzero
difference `d` in `(-P, P)` with `P` prime, the branch succeeds and returns
the inverse of `d` in `ZMod P` (whether `d` itself or `P - |d|` was passed). -/
theorem modinv_branch (P : ℕ) (hp : P.Prime) (d : Int) (hd0 : d ≠ 0)
    (hdlt : d < ↑P) (hdgt : -↑P < d) :
    ∃ v, (if d ≥ 0 then modinv d ↑P else modinv (↑P - |d|) ↑P) = .ok v ∧
      (v : ZMod P) = ((d : Int) : ZMod P)⁻¹ := by
  haveI : Fact P.Prime := ⟨hp⟩
  have hP2 : 2 ≤ P := hp.two_le
  have hPprime : ((P : Int)).natAbs.Prime := by
    rwa [Int.natAbs_ofNat]
  by_cases hge : d ≥ 0
  · rw [if_pos hge]
    obtain ⟨v, hv⟩ := modinv_isOk d ↑P (by omega) (by positivity)
      (gcd_eq_one_of_prime d ↑P hPprime (by omega) hdlt)
    refine ⟨v, hv, ?_⟩
    exact (inv_eq_of_mul_eq_one_right (modinv_zmod hv)).symm
  · rw [if_neg hge]
    have habs : |d| = -d := abs_of_neg (by omega)
    have harg1 : 1 ≤ (P : Int) - |d| := by omega
    have harg2 : (P : Int) - |d| < ↑P := by omega
    obtain ⟨v, hv⟩ := modinv_isOk ((P : Int) - |d|) ↑P (by omega) (by positivity)
      (gcd_eq_one_of_prime _ ↑P hPprime harg1 harg2)
    refine ⟨v, hv, ?_⟩
    have hmul := modinv_zmod hv
    have hcast : (((P : Int) - |d| : Int) : ZMod P) = ((d : Int) : ZMod P) := by
      rw [habs]
      push_cast
      rw [ZMod.natCast_self]
      ring
    rw [hcast] at hmul
    exact (inv_eq_of_mul_eq_one_right hmul).symm

/-- The Lagrange basis weight of `calculate_b`, read in `ZMod P`: the product
over all supplied evaluation points other than `x` of `e / (e - x)`. -/
def lagWeight (P : ℕ) (x : Int) (xs : List Int) : ZMod P :=
  ((xs.filter (fun e => e ≠ x)).map
    (fun (e : Int) => (e : ZMod P) * ((e : ZMod P) - (x : ZMod P))⁻¹)).prod

/-- Unfolding of the `calcBStep` body on a distinct element. -/
theorem calcBStep_eq_of_ne (p x acc e : Int) (hex : e ≠ x) :
    calcBStep p x acc e =
      (if e - x ≥ 0 then modinv (e - x) p else modinv (p - |e - x|) p) >>= fun inverse =>
        pure (acc * e * inverse) := by
  unfold calcBStep
  rw [if_pos hex]
  by_cases hge : e - x ≥ 0
  · rw [if_pos hge, if_pos hge]
  · rw [if_neg hge, if_neg hge]

/-- The accumulator loop of `calculate_b` succeeds on in-range points and
multiplies the accumulator by the basis-weight product. -/
theorem foldCalcB (P : ℕ) (hp : P.Prime) (x : Int) (hx : 0 < x ∧ x < ↑P) :
    ∀ (xs : List Int) (acc : Int), (∀ e ∈ xs, 0 < e ∧ e < ↑P) →
    ∃ v, xs.foldlM (calcBStep ↑P x) acc = .ok v ∧
      (v : ZMod P) = (acc : ZMod P) * lagWeight P x xs := by
  intro xs
  induction xs with
  | nil =>
      intro acc _
      exact ⟨acc, rfl, by simp [lagWeight]⟩
  | cons e tl ih =>
      intro acc hr
      have he := hr e (by simp)
      have htl : ∀ e ∈ tl, 0 < e ∧ e < ↑P := fun a ha => hr a (by simp [ha])
      rw [List.foldlM_cons]
      by_cases hex : e = x
      · have hstep : calcBStep ↑P x acc e = pure acc := by
          unfold calcBStep
          rw [if_neg (by simpa using hex)]
        rw [hstep]
        obtain ⟨v, hv, hcast⟩ := ih acc htl
        refine ⟨v, hv, ?_⟩
        rw [hcast]
        unfold lagWeight
        have hfil : (e :: tl).filter (fun e => e ≠ x) = tl.filter (fun e => e ≠ x) := by
          simp [List.filter_cons, hex]
        rw [hfil]
      · obtain ⟨w, hw, hwcast⟩ := modinv_branch P hp (e - x) (by omega)
          (by omega) (by omega)
        have hstep : calcBStep ↑P x acc e = .ok (acc * e * w) := by
          rw [calcBStep_eq_of_ne ↑P x acc e hex, hw]
          rfl
        rw [hstep]
        obtain ⟨v, hv, hcast⟩ := ih (acc * e * w) htl
        refine ⟨v, hv, ?_⟩
        rw [hcast]
        unfold lagWeight
        have hfil : (e :: tl).filter (fun e => e ≠ x) =
            e :: tl.filter (fun e => e ≠ x) := by
          simp [List.filter_cons, hex]
        rw [hfil, List.map_cons, List.prod_cons]
        have hwc : (w : ZMod P) = ((e : ZMod P) - (x : ZMod P))⁻¹ := by
          rw [hwcast]
          push_cast
          ring_nf
        push_cast
        rw [hwc]
        ring

/-- Specification of `calculate_b`: on a prime modulus and in-range points it
succeeds, returns a value in `[0, P)`, and computes the Lagrange basis weight
`lagWeight` in `ZMod P`. -/
theorem calculate_b_spec (P : ℕ) (hp : P.Prime) (x : Int) (hx : 0 < x ∧ x < ↑P)
    (xs : List Int) (hr : ∀ e ∈ xs, 0 < e ∧ e < ↑P) :
    ∃ b, calculate_b ↑P x xs = .ok b ∧ 0 ≤ b ∧ b < ↑P ∧
      (b : ZMod P) = lagWeight P x xs := by
  obtain ⟨v, hv, hcast⟩ := foldCalcB P hp x hx xs 1 hr
  have hP0 : (0 : Int) < ↑P := by
    have := hp.two_le
    omega
  refine ⟨Int.fmod v ↑P, ?_, Int.fmod_nonneg' v hP0, Int.fmod_lt_of_pos v hP0, ?_⟩
  · unfold calculate_b
    rw [hv]
    rfl
  · rw [intCast_fmod_zmod, hcast]
    simp

/-- Generic fold evaluation: when the step at each listed index adds the
fixed amount `c i` to the accumulator, the fold succeeds with the summed
total. -/
theorem foldlM_add_const (step : Int → Nat → Except SSSError Int) (c : Nat → Int) :
    ∀ (l : List Nat), (∀ i ∈ l, ∀ k, step k i = .ok (k + c i)) →
    ∀ acc, l.foldlM step acc = .ok (acc + (l.map c).sum) := by
  intro l
  induction l with
  | nil =>
      intro _ acc
      show Except.ok acc = _
      simp
  | cons i tl ih =>
      intro hstep acc
      rw [List.foldlM_cons, hstep i (by simp) acc]
      show tl.foldlM step (acc + c i) = _
      rw [ih (fun j hj k => hstep j (by simp [hj]) k) (acc + c i)]
      simp [add_assoc]

/-- A `Finset.range` sum is the corresponding list sum. -/
theorem finsetSum_eq_listSum {M : Type} [AddCommMonoid M] (n : ℕ) (g : ℕ → M) :
    ∑ i ∈ Finset.range n, g i = ((List.range n).map g).sum := by
  induction n with
  | zero => simp
  | succ m ih => rw [Finset.sum_range_succ, List.range_succ, ih]; simp

/-- Specification of `reconstruct_key` on well-formed inputs: with a prime
modulus, equally long coordinate lists of at least `t` in-range points, it
succeeds with a value in `[0, P)` whose residue is the Lagrange sum
`Σ_i lagWeight(x_i) * y_i`. -/
theorem reconstruct_spec (P : ℕ) (hp : P.Prime) (t : Nat) (xs ys : List Int)
    (hlen : xs.length = ys.length) (ht : t ≤ ys.length)
    (hr : ∀ e ∈ xs, 0 < e ∧ e < ↑P) :
    ∃ r, reconstruct_key ↑P t xs ys = .ok r ∧ 0 ≤ r ∧ r < ↑P ∧
      (r : ZMod P) = ∑ i ∈ Finset.range ys.length,
        lagWeight P (xs.getD i 0) xs * ((ys.getD i 0 : Int) : ZMod P) := by
  have hP0 : (0 : Int) < ↑P := by
    have := hp.two_le
    omega
  set c : Nat → Int := fun i =>
    ((calculate_b ↑P (xs.getD i 0) xs).toOption.getD 0) * ys.getD i 0 with hc
  have hbspec : ∀ i < ys.length, ∃ b, calculate_b ↑P (xs.getD i 0) xs = .ok b ∧
      0 ≤ b ∧ b < ↑P ∧ (b : ZMod P) = lagWeight P (xs.getD i 0) xs := by
    intro i hi
    have hix : i < xs.length := by omega
    have hmem : xs.getD i 0 ∈ xs := by
      rw [List.getD_eq_getElem?_getD, List.getElem?_eq_getElem hix]
      exact List.getElem_mem hix
    exact calculate_b_spec P hp _ (hr _ hmem) xs hr
  have hstep : ∀ i ∈ List.range ys.length, ∀ k,
      (fun k index => do
        let xi ← getIdx xs index
        let bi ← calculate_b ↑P xi xs
        let yi ← getIdx ys index
        pure (k + bi * yi)) k i = .ok (k + c i) := by
    intro i hi k
    have hiy : i < ys.length := List.mem_range.mp hi
    have hix : i < xs.length := by omega
    obtain ⟨b, hb, _, _, _⟩ := hbspec i hiy
    have hgx : getIdx xs i = .ok (xs.getD i 0) := by
      unfold getIdx
      rw [List.getElem?_eq_getElem hix, List.getD_eq_getElem?_getD,
        List.getElem?_eq_getElem hix]
      rfl
    have hgy : getIdx ys i = .ok (ys.getD i 0) := by
      unfold getIdx
      rw [List.getElem?_eq_getElem hiy, List.getD_eq_getElem?_getD,
        List.getElem?_eq_getElem hiy]
      rfl
    show (getIdx xs i >>= fun xi => calculate_b ↑P xi xs >>= fun bi =>
      getIdx ys i >>= fun yi => pure (k + bi * yi)) = Except.ok (k + c i)
    rw [hgx]
    show (calculate_b ↑P (xs.getD i 0) xs >>= fun bi =>
      getIdx ys i >>= fun yi => pure (k + bi * yi)) = _
    rw [hb]
    show (getIdx ys i >>= fun yi => pure (k + b * yi)) = _
    rw [hgy]
    show Except.ok (k + b * ys.getD i 0) = _
    have hci : c i = b * ys.getD i 0 := by
      rw [hc]
      simp only
      rw [show (calculate_b ↑P (xs.getD i 0) xs).toOption.getD 0 = b from by rw [hb]; rfl]
    rw [hci]
  have hfold := foldlM_add_const _ c (List.range ys.length) hstep 0
  refine ⟨Int.fmod (0 + ((List.range ys.length).map c).sum) ↑P, ?_,
    Int.fmod_nonneg' _ hP0, Int.fmod_lt_of_pos _ hP0, ?_⟩
  · unfold reconstruct_key
    rw [if_neg (by omega)]
    rw [hfold]
    rfl
  · rw [intCast_fmod_zmod, zero_add, Int.cast_list_sum, List.map_map,
      finsetSum_eq_listSum]
    congr 1
    apply List.map_congr_left
    intro i hi
    have hiy : i < ys.length := List.mem_range.mp hi
    obtain ⟨b, hb, _, _, hbc⟩ := hbspec i hiy
    show ((c i : Int) : ZMod P) = _
    rw [hc]
    simp only
    rw [show (calculate_b ↑P (xs.getD i 0) xs).toOption.getD 0 = b by rw [hb]; rfl]
    push_cast
    rw [hbc]

/-- Value-level Lagrange weight at `0` for the node set `S`: the product over
the other nodes `u` of `u / (u - z)`. -/
def wZ (P : ℕ) (S : Finset (ZMod P)) (z : ZMod P) : ZMod P :=
  ∏ u ∈ S.erase z, u * (u - z)⁻¹

/-- Casting a duplicate-free list of integers in `[0, P)` into `ZMod P`
preserves distinctness. -/
theorem castList_nodup (P : ℕ) (xs : List Int) (hnd : xs.Nodup)
    (hr : ∀ e ∈ xs, 0 ≤ e ∧ e < ↑P) :
    (xs.map (fun (e : Int) => (e : ZMod P))).Nodup := by
  apply List.Nodup.map_on _ hnd
  intro a ha b hb hab
  exact int_eq_of_zmod_eq (hr a ha) (hr b hb) hab

/-- On distinct in-range points, `calculate_b`'s weight is the value-level
Lagrange weight over the node set. -/
theorem lagWeight_eq_wZ (P : ℕ) (x : Int) (xs : List Int) (hnd : xs.Nodup)
    (hr : ∀ e ∈ xs, 0 ≤ e ∧ e < ↑P) (hx : x ∈ xs) :
    lagWeight P x xs =
      wZ P (xs.map (fun (e : Int) => (e : ZMod P))).toFinset (x : ZMod P) := by
  set cast : Int → ZMod P := fun (e : Int) => (e : ZMod P) with hcast
  set xsZ := xs.map cast with hxsZ
  set gZ : ZMod P → ZMod P := fun z => z * (z - (x : ZMod P))⁻¹ with hgZ
  have hfil : (xs.filter (fun e => e ≠ x)).map cast =
      xsZ.filter (fun z => z ≠ (x : ZMod P)) := by
    rw [hxsZ, List.filter_map]
    congr 1
    apply List.filter_congr
    intro e he
    show decide (e ≠ x) = decide (cast e ≠ cast x)
    apply decide_eq_decide.mpr
    constructor
    · intro h1 h2
      exact h1 (int_eq_of_zmod_eq (hr e he) (hr x hx) h2)
    · intro h1 h2
      exact h1 (by rw [h2])
  have hlhs : lagWeight P x xs = ((xsZ.filter (fun z => z ≠ (x : ZMod P))).map gZ).prod := by
    rw [lagWeight, ← hfil, List.map_map]
    rfl
  rw [hlhs]
  have hndZ : xsZ.Nodup := castList_nodup P xs hnd hr
  have hndF : (xsZ.filter (fun z => z ≠ (x : ZMod P))).Nodup := hndZ.filter _
  rw [← List.prod_toFinset gZ hndF]
  have hsets : (xsZ.filter (fun z => z ≠ (x : ZMod P))).toFinset =
      xsZ.toFinset.erase (x : ZMod P) := by
    apply Finset.ext
    intro z
    simp only [List.mem_toFinset, List.mem_filter, Finset.mem_erase, decide_eq_true_eq]
    tauto
  rw [hsets]
  rfl

/-- Enumerating a list by positions with a default is just the list. -/
theorem map_getD_range {α β : Type} (l : List α) (H : α → β) (d : α) :
    (List.range l.length).map (fun i => H (l.getD i d)) = l.map H := by
  induction l with
  | nil => simp
  | cons a tl ih =>
      simp only [List.length_cons, List.range_succ_eq_map, List.map_cons,
        List.map_map, Function.comp_def, List.getD_cons_zero, List.getD_cons_succ]
      rw [ih]

/-- A positional sum of a value function of the points equals the sum over
the node set. -/
theorem sum_range_toFinset (P : ℕ) (xs : List Int) (hnd : xs.Nodup)
    (hr : ∀ e ∈ xs, 0 ≤ e ∧ e < ↑P) (H : ZMod P → ZMod P) :
    ∑ i ∈ Finset.range xs.length, H ((xs.getD i 0 : Int) : ZMod P) =
      ∑ z ∈ (xs.map (fun (e : Int) => (e : ZMod P))).toFinset, H z := by
  rw [finsetSum_eq_listSum]
  rw [map_getD_range xs (fun e => H ((e : Int) : ZMod P)) 0]
  rw [List.sum_toFinset H (castList_nodup P xs hnd hr)]
  rw [List.map_map]
  rfl

/-- Lagrange interpolation at `0`: for a polynomial of degree below the size
of the node set, the weighted sum of its values recovers its value at `0`. -/
theorem lagrange_sum_eval_zero (P : ℕ) (hp : P.Prime) (S : Finset (ZMod P))
    (f : Polynomial (ZMod P)) (hdeg : f.degree < S.card) :
    ∑ z ∈ S, wZ P S z * f.eval z = f.eval 0 := by
  haveI : Fact P.Prime := ⟨hp⟩
  have hinj : Set.InjOn id (S : Set (ZMod P)) := fun a _ b _ h => h
  have heq := Lagrange.eq_interpolate hinj hdeg
  have heval : f.eval 0 = ∑ i ∈ S, f.eval i * (Lagrange.basis S id i).eval 0 := by
    conv_lhs => rw [heq]
    rw [Lagrange.interpolate_apply, Polynomial.eval_finset_sum]
    apply Finset.sum_congr rfl
    intro i _
    rw [Polynomial.eval_mul, Polynomial.eval_C]
    rfl
  rw [heval]
  apply Finset.sum_congr rfl
  intro z _
  have hbasis : (Lagrange.basis S id z).eval 0 = wZ P S z := by
    rw [Lagrange.basis, Polynomial.eval_prod, wZ]
    apply Finset.prod_congr rfl
    intro u _
    rw [Lagrange.basisDivisor, Polynomial.eval_mul, Polynomial.eval_C,
      Polynomial.eval_sub, Polynomial.eval_X, Polynomial.eval_C]
    show (z - u)⁻¹ * (0 - u) = u * (u - z)⁻¹
    rw [show (u - z) = -(z - u) by ring, inv_neg]
    ring
  rw [hbasis]
  ring

/-- Master reconstruction lemma: on a prime modulus, distinct in-range
points, and y-values that deviate from a polynomial `f` of degree below the
number of shares by a value-level perturbation `D`, `reconstruct_key`
succeeds and returns `f(0)` plus the weighted perturbations. -/
theorem reconstruct_perturbed (P : ℕ) (hp : P.Prime) (t : Nat) (xs ys : List Int)
    (hlen : xs.length = ys.length) (ht : t ≤ ys.length)
    (hnd : xs.Nodup) (hr : ∀ e ∈ xs, 0 < e ∧ e < ↑P)
    (f : Polynomial (ZMod P)) (hdeg : f.degree < xs.length)
    (D : ZMod P → ZMod P)
    (hys : ∀ i < ys.length, ((ys.getD i 0 : Int) : ZMod P) =
      f.eval ((xs.getD i 0 : Int) : ZMod P) + D ((xs.getD i 0 : Int) : ZMod P)) :
    ∃ r, reconstruct_key ↑P t xs ys = .ok r ∧ 0 ≤ r ∧ r < ↑P ∧
      (r : ZMod P) = f.eval 0 +
        ∑ z ∈ (xs.map (fun (e : Int) => (e : ZMod P))).toFinset,
          wZ P (xs.map (fun (e : Int) => (e : ZMod P))).toFinset z * D z := by
  obtain ⟨r, hok, hr0, hrP, hcast⟩ := reconstruct_spec P hp t xs ys hlen ht hr
  refine ⟨r, hok, hr0, hrP, ?_⟩
  rw [hcast]
  set S := (xs.map (fun (e : Int) => (e : ZMod P))).toFinset with hS
  have hr' : ∀ e ∈ xs, 0 ≤ e ∧ e < ↑P := by
    intro e he
    have := hr e he
    omega
  have hcard : S.card = xs.length := by
    rw [hS, List.toFinset_card_of_nodup (castList_nodup P xs hnd hr')]
    rw [List.length_map]
  have hstep : ∀ i < ys.length,
      lagWeight P (xs.getD i 0) xs * ((ys.getD i 0 : Int) : ZMod P) =
      wZ P S ((xs.getD i 0 : Int) : ZMod P) *
        (f.eval ((xs.getD i 0 : Int) : ZMod P) + D ((xs.getD i 0 : Int) : ZMod P)) := by
    intro i hi
    have hix : i < xs.length := by omega
    have hmem : xs.getD i 0 ∈ xs := by
      rw [List.getD_eq_getElem?_getD, List.getElem?_eq_getElem hix]
      exact List.getElem_mem hix
    rw [lagWeight_eq_wZ P _ xs hnd hr' hmem, hys i hi]
  have hsum : ∑ i ∈ Finset.range ys.length,
      lagWeight P (xs.getD i 0) xs * ((ys.getD i 0 : Int) : ZMod P) =
      ∑ i ∈ Finset.range xs.length,
        (fun z => wZ P S z * (f.eval z + D z)) ((xs.getD i 0 : Int) : ZMod P) := by
    rw [← hlen] at *
    apply Finset.sum_congr rfl
    intro i hi
    exact hstep i (by simpa using hi)
  rw [hsum, sum_range_toFinset P xs hnd hr' (fun z => wZ P S z * (f.eval z + D z)), ← hS]
  have hsplit : ∑ z ∈ S, wZ P S z * (f.eval z + D z) =
      (∑ z ∈ S, wZ P S z * f.eval z) + ∑ z ∈ S, wZ P S z * D z := by
    rw [← Finset.sum_add_distrib]
    apply Finset.sum_congr rfl
    intro z _
    ring
  rw [hsplit, lagrange_sum_eval_zero P hp S f (by rw [hcard]; exact hdeg)]

/-- Value of the polynomial described by an integer coefficient list
(highest coefficient first, as `np.polyval` takes it) at a point of
`ZMod P`: the Horner recurrence on the casts of the coefficients. -/
def hornerZ (P : ℕ) (cs : List Int) (z : ZMod P) : ZMod P :=
  cs.foldl (fun (acc : ZMod P) (c : Int) => acc * z + (c : ZMod P)) 0

/-- The polynomial itself, used in the interpolation argument. -/
noncomputable def hornerPoly (P : ℕ) (cs : List Int) : Polynomial (ZMod P) :=
  cs.foldl (fun (q : Polynomial (ZMod P)) (c : Int) =>
    q * Polynomial.X + Polynomial.C (c : ZMod P)) 0

/-- Evaluating the Horner-built polynomial is the Horner recurrence on the
values. -/
theorem hornerPoly_eval_aux (P : ℕ) (cs : List Int) :
    ∀ (q : Polynomial (ZMod P)) (z : ZMod P),
    (cs.foldl (fun (q : Polynomial (ZMod P)) (c : Int) =>
        q * Polynomial.X + Polynomial.C (c : ZMod P)) q).eval z =
      cs.foldl (fun (acc : ZMod P) (c : Int) => acc * z + (c : ZMod P)) (q.eval z) := by
  induction cs with
  | nil => intro q z; rfl
  | cons c tl ih =>
      intro q z
      rw [List.foldl_cons, List.foldl_cons, ih]
      congr 1
      rw [Polynomial.eval_add, Polynomial.eval_mul, Polynomial.eval_X, Polynomial.eval_C]

/-- Evaluation of `hornerPoly` is `hornerZ`. -/
theorem hornerPoly_eval (P : ℕ) (cs : List Int) (z : ZMod P) :
    (hornerPoly P cs).eval z = hornerZ P cs z := by
  rw [hornerPoly, hornerZ, hornerPoly_eval_aux]
  congr 1
  rw [Polynomial.eval_zero]

/-- `np.polyval` reduced mod `P` is the Horner value of the embedded
polynomial. -/
theorem cast_polyval (P : ℕ) (cs : List Int) (x : Int) :
    ((polyval cs x : Int) : ZMod P) = hornerZ P cs (x : ZMod P) := by
  rw [hornerZ, polyval]
  have haux : ∀ (l : List Int) (a : Int),
      ((l.foldl (fun (acc : Int) (c : Int) => acc * x + c) a : Int) : ZMod P) =
        l.foldl (fun (acc : ZMod P) (c : Int) => acc * (x : ZMod P) + (c : ZMod P))
          ((a : Int) : ZMod P) := by
    intro l
    induction l with
    | nil => intro a; rfl
    | cons c tl ih =>
        intro a
        rw [List.foldl_cons, List.foldl_cons, ih]
        push_cast
        rfl
  rw [haux]
  simp

/-- Degree bound for the Horner fold. -/
theorem hornerPoly_degree_aux (P : ℕ) (cs : List Int) :
    ∀ (q : Polynomial (ZMod P)) (n : ℕ), q.degree < (n : WithBot ℕ) →
    (cs.foldl (fun (q : Polynomial (ZMod P)) (c : Int) =>
        q * Polynomial.X + Polynomial.C (c : ZMod P)) q).degree <
      ((n + cs.length : ℕ) : WithBot ℕ) := by
  induction cs with
  | nil =>
      intro q n hq
      simpa using hq
  | cons c tl ih =>
      intro q n hq
      rw [List.foldl_cons]
      have hstep : (q * Polynomial.X + Polynomial.C (c : ZMod P)).degree <
          ((n + 1 : ℕ) : WithBot ℕ) := by
        apply lt_of_le_of_lt (Polynomial.degree_add_le _ _)
        apply max_lt
        · apply lt_of_le_of_lt (Polynomial.degree_mul_le _ _)
          apply lt_of_le_of_lt (add_le_add_left Polynomial.degree_X_le _)
          cases hdq : q.degree with
          | bot =>
              show (⊥ : WithBot ℕ) + 1 < _
              rw [WithBot.bot_add]
              exact WithBot.bot_lt_coe _
          | coe m =>
              have hmn : m < n := by
                rw [hdq, Nat.cast_withBot] at hq
                exact WithBot.coe_lt_coe.mp hq
              show ((m : WithBot ℕ)) + 1 < ((n + 1 : ℕ) : WithBot ℕ)
              rw [show ((m : WithBot ℕ)) + 1 = ((m + 1 : ℕ) : WithBot ℕ) by push_cast; rfl]
              exact_mod_cast Nat.succ_lt_succ hmn
        · apply lt_of_le_of_lt Polynomial.degree_C_le
          exact_mod_cast WithBot.coe_lt_coe.mpr (by omega)
      have hih := ih _ (n + 1) hstep
      rwa [show n + 1 + tl.length = n + (tl.length + 1) by omega] at hih

/-- The Horner polynomial of a coefficient list has degree below the list
length. -/
theorem hornerPoly_degree (P : ℕ) (cs : List Int) :
    (hornerPoly P cs).degree < ((cs.length : ℕ) : WithBot ℕ) := by
  have h0 := hornerPoly_degree_aux P cs 0 0 (by
    rw [Polynomial.degree_zero]
    exact WithBot.bot_lt_coe _)
  simpa using h0

/-- An integer in `[0, P)` equals the `val` of its residue. -/
theorem val_intCast_eq {P : ℕ} (hP : 0 < P) {r : Int} (h0 : 0 ≤ r) (hlt : r < ↑P) :
    (((r : ZMod P).val : ℕ) : Int) = r := by
  haveI : NeZero P := ⟨by omega⟩
  obtain ⟨n, rfl⟩ := Int.eq_ofNat_of_zero_le h0
  rw [Int.cast_natCast, ZMod.val_natCast_of_lt (by exact_mod_cast hlt)]

/-- C10: `reconstruct_key` interpolates through every supplied share, and on
a consistent oversupplied set — `t ≤ n` shares with pairwise-distinct
non-zero in-range points all lying on one polynomial (coefficient list `cs`,
highest first, so degree `< t` when `cs.length ≤ t`) — it returns exactly
that polynomial's value at `0`, the secret, even when `n > t`. -/
theorem reconstruct_oversupplied (P : ℕ) (hp : P.Prime) (t : Nat) (xs ys : List Int)
    (hlen : xs.length = ys.length) (ht : t ≤ ys.length)
    (hnd : xs.Nodup) (hr : ∀ e ∈ xs, 0 < e ∧ e < ↑P)
    (cs : List Int) (hcs : cs.length ≤ t)
    (hys : ∀ i < ys.length, ((ys.getD i 0 : Int) : ZMod P) =
      hornerZ P cs ((xs.getD i 0 : Int) : ZMod P)) :
    reconstruct_key ↑P t xs ys = .ok (((hornerZ P cs 0).val : ℕ) : Int) := by
  have hdeg : (hornerPoly P cs).degree < ((xs.length : ℕ) : WithBot ℕ) := by
    apply lt_of_lt_of_le (hornerPoly_degree P cs)
    rw [Nat.cast_withBot, Nat.cast_withBot]
    exact WithBot.coe_le_coe.mpr (by omega)
  obtain ⟨r, hok, h0, hltP, hcast⟩ := reconstruct_perturbed P hp t xs ys hlen ht hnd hr
    (hornerPoly P cs) hdeg (fun z => 0)
    (by
      intro i hi
      rw [hornerPoly_eval, hys i hi]
      ring)
  have hcast' : (r : ZMod P) = hornerZ P cs 0 := by
    rw [hcast, hornerPoly_eval]
    simp
  have hval : (((hornerZ P cs 0).val : ℕ) : Int) = r := by
    have hv := val_intCast_eq (show 0 < P by have := hp.two_le; omega) h0 hltP
    rw [hcast'] at hv
    exact hv
  rw [hok, hval]

unseal egcd in
/-- C10 witness: the theorem at the scheme `p = 5`, `t = 2` with the three
consistent shares `(1,3), (2,3), (3,3)` of the constant polynomial `3` — an
oversupplied set (`n = 3 > t`) whose reconstruction returns the secret `3`. -/
theorem reconstruct_oversupplied_witness :
    reconstruct_key ((5 : ℕ) : Int) 2 [1, 2, 3] [3, 3, 3] =
      .ok (((hornerZ 5 [3] 0).val : ℕ) : Int) :=
  reconstruct_oversupplied 5 (by decide) 2 [1, 2, 3] [3, 3, 3] (by decide) (by decide)
    (by decide) (by decide) [3] (by decide) (by decide)

/-- Indexed `mapM` over a list with in-range subscripts is a plain map. -/
theorem mapM_getIdx_range (l : List Int) (g : Int → Int) :
    (List.range l.length).mapM (fun idx => do
        let xi ← getIdx l idx
        pure (g xi)) = (Except.ok (l.map g) : Except SSSError (List Int)) := by
  have haux : ∀ (idxs : List Nat), (∀ i ∈ idxs, i < l.length) →
      idxs.mapM (fun idx => do
        let xi ← getIdx l idx
        pure (g xi)) =
      (Except.ok (idxs.map (fun idx => g (l.getD idx 0))) : Except SSSError (List Int)) := by
    intro idxs
    induction idxs with
    | nil => intro _; rfl
    | cons i tl ih =>
        intro hmem
        have hil : i < l.length := hmem i (by simp)
        rw [List.mapM_cons]
        have hgx : getIdx l i = .ok (l.getD i 0) := by
          unfold getIdx
          rw [List.getElem?_eq_getElem hil, List.getD_eq_getElem?_getD,
            List.getElem?_eq_getElem hil]
          rfl
        rw [hgx, ih (fun j hj => hmem j (by simp [hj]))]
        rfl
  rw [haux (List.range l.length) (fun i hi => List.mem_range.mp hi),
    map_getD_range l g 0]

/-- Evaluation of `generate_shares` when the evaluation points have been
chosen: the shares are the polynomial values mod `p`, and the state retains
the coefficients in `a` and the shares in `y`. -/
theorem generate_shares_eq (s : SSSObj) (draws xs : List Int) (hx : s.x = some xs)
    (hw : s.w = xs.length) :
    generate_shares s draws =
      .ok ({ { s with a := some draws } with
             y := some (xs.map (fun x => Int.fmod (polyval (draws ++ [s.k]) x) s.p)) },
           xs.map (fun x => Int.fmod (polyval (draws ++ [s.k]) x) s.p)) := by
  obtain ⟨k0, p0, w0, t0, a0, x0, y0⟩ := s
  simp only at hx hw ⊢
  subst hx
  subst hw
  simp only [generate_shares, choose_a]
  rw [mapM_getIdx_range xs (fun x => Int.fmod (polyval (draws ++ [k0]) x) p0)]
  rfl

/-- C1 round-trip: for a scheme with prime `p` and `1 < t ≤ w < p`, a secret
`k ∈ [0, p)`, any `w` pairwise-distinct non-zero in-range evaluation points,
and any `t - 1` random coefficients in `[0, p)`, reconstructing from any
`t`-element subset (any length-`t` sublist, covering all `C(w, t)` subsets)
of the shares produced by `generate_shares` returns exactly `k`. -/
theorem roundtrip_subsets (P : ℕ) (hp : P.Prime) (t w : Nat) (k : Int)
    (a xs ys : List Int) (s' : SSSObj)
    (ht1 : 1 < t) (htw : t ≤ w) (hwP : w < P)
    (hk : 0 ≤ k ∧ k < ↑P) (hlx : xs.length = w) (hnd : xs.Nodup)
    (hxr : ∀ x ∈ xs, 0 < x ∧ x < ↑P) (hla : a.length = t - 1)
    (har : ∀ c ∈ a, 0 ≤ c ∧ c < ↑P)
    (hgen : generate_shares ⟨k, ↑P, w, t, none, some xs, none⟩ a = .ok (s', ys))
    (sub : List (Int × Int)) (hsub : sub.Sublist (xs.zip ys)) (hlent : sub.length = t) :
    reconstruct_key ↑P t (sub.map Prod.fst) (sub.map Prod.snd) = .ok k := by
  have hP0 : 0 < P := by
    have := hp.two_le
    omega
  set gen : Int → Int := fun x => Int.fmod (polyval (a ++ [k]) x) ↑P with hgen_def
  have heq := generate_shares_eq ⟨k, ↑P, w, t, none, some xs, none⟩ a xs rfl
    (by simpa using hlx.symm)
  rw [heq] at hgen
  have hys : ys = xs.map gen := by
    have := (Except.ok.injEq _ _).mp hgen
    exact (congrArg Prod.snd this).symm
  have hzip : xs.zip ys = xs.map (fun x => (x, gen x)) := by
    calc xs.zip ys = (xs.map id).zip (xs.map gen) := by rw [List.map_id, hys]
    _ = xs.map (fun x => (id x, gen x)) := List.zip_map' id gen xs
    _ = xs.map (fun x => (x, gen x)) := rfl
  have hmem_snd : ∀ q ∈ sub, q.2 = gen q.1 := by
    intro q hq
    have hq2 : q ∈ xs.zip ys := hsub.subset hq
    rw [hzip] at hq2
    obtain ⟨x0, _, hx0⟩ := List.mem_map.mp hq2
    rw [← hx0]
  have hsubxs : (sub.map Prod.fst).Sublist xs := by
    have h1 := hsub.map Prod.fst
    rwa [List.map_fst_zip xs ys (by rw [hys, List.length_map])] at h1
  have hnd' : (sub.map Prod.fst).Nodup := hnd.sublist hsubxs
  have hxr' : ∀ e ∈ sub.map Prod.fst, 0 < e ∧ e < ↑P := fun e he =>
    hxr e (hsubxs.subset he)
  have hlen' : (sub.map Prod.fst).length = (sub.map Prod.snd).length := by
    rw [List.length_map, List.length_map]
  have ht' : t ≤ (sub.map Prod.snd).length := by
    rw [List.length_map, hlent]
  have hcs : (a ++ [k]).length ≤ t := by
    rw [List.length_append, hla]
    simp
    omega
  have hys' : ∀ i < (sub.map Prod.snd).length,
      (((sub.map Prod.snd).getD i 0 : Int) : ZMod P) =
        hornerZ P (a ++ [k]) (((sub.map Prod.fst).getD i 0 : Int) : ZMod P) := by
    intro i hi
    have hisub : i < sub.length := by
      rw [List.length_map] at hi
      exact hi
    have hfst : (sub.map Prod.fst).getD i 0 = sub[i].1 := by
      rw [List.getD_eq_getElem?_getD, List.getElem?_eq_getElem (by simpa using hisub)]
      simp
    have hsnd : (sub.map Prod.snd).getD i 0 = sub[i].2 := by
      rw [List.getD_eq_getElem?_getD, List.getElem?_eq_getElem (by simpa using hisub)]
      simp
    rw [hfst, hsnd, hmem_snd sub[i] (List.getElem_mem hisub)]
    rw [hgen_def]
    simp only
    rw [intCast_fmod_zmod, cast_polyval]
  have hres := reconstruct_oversupplied P hp t (sub.map Prod.fst) (sub.map Prod.snd)
    hlen' ht' hnd' hxr' (a ++ [k]) hcs hys'
  have hz : hornerZ P (a ++ [k]) 0 = ((k : Int) : ZMod P) := by
    rw [hornerZ, List.foldl_append]
    simp
  rw [hres, hz]
  congr 1
  exact val_intCast_eq hP0 hk.1 hk.2

unseal egcd in
/-- C1 witness: the round-trip theorem applied to the scheme `p = 17`,
`t = 2`, `w = 3` with secret `13`, points `[1, 2, 3]`, coefficient list `[0]`
(shares `[13, 13, 13]`), and the 2-subset made of the first two shares. -/
theorem roundtrip_subsets_witness :
    reconstruct_key ((17 : ℕ) : Int) 2
      ([((1 : Int), (13 : Int)), (2, 13)].map Prod.fst)
      ([((1 : Int), (13 : Int)), (2, 13)].map Prod.snd) = .ok 13 :=
  roundtrip_subsets 17 (by decide) 2 3 13 [0] [1, 2, 3] [13, 13, 13]
    ⟨13, ((17 : ℕ) : Int), 3, 2, some [0], some [1, 2, 3], some [13, 13, 13]⟩
    (by decide) (by decide) (by decide) (by decide) (by decide) (by decide)
    (by decide) (by decide) (by decide) (by rfl)
    [(1, 13), (2, 13)] (by decide) (by decide)

/-- Unfolding of the `calcBFullStep` body on a distinct element. -/
theorem calcBFullStep_eq_of_ne (p root x acc e : Int) (hex : e ≠ x) :
    calcBFullStep p root x acc e =
      (if e - x ≥ 0 then modinv (e - x) p else modinv (p - |e - x|) p) >>= fun inverse =>
        pure (acc * (root - e) * inverse) := by
  unfold calcBFullStep
  rw [if_pos hex]
  by_cases hge : e - x ≥ 0
  · rw [if_pos hge, if_pos hge]
  · rw [if_neg hge, if_neg hge]

/-- The full Lagrange basis weight of `calculate_b_full` at evaluation point
`root`, read in `ZMod P`. -/
def lagWeightFull (P : ℕ) (root x : Int) (xs : List Int) : ZMod P :=
  ((xs.filter (fun e => e ≠ x)).map
    (fun (e : Int) => ((root : ZMod P) - (e : ZMod P)) *
      ((e : ZMod P) - (x : ZMod P))⁻¹)).prod

/-- The accumulator loop of `calculate_b_full` succeeds on in-range points
and multiplies the accumulator by the full basis-weight product. -/
theorem foldCalcBFull (P : ℕ) (hp : P.Prime) (root x : Int) (hx : 0 < x ∧ x < ↑P) :
    ∀ (xs : List Int) (acc : Int), (∀ e ∈ xs, 0 < e ∧ e < ↑P) →
    ∃ v, xs.foldlM (calcBFullStep ↑P root x) acc = .ok v ∧
      (v : ZMod P) = (acc : ZMod P) * lagWeightFull P root x xs := by
  intro xs
  induction xs with
  | nil =>
      intro acc _
      exact ⟨acc, rfl, by simp [lagWeightFull]⟩
  | cons e tl ih =>
      intro acc hr
      have he := hr e (by simp)
      have htl : ∀ e ∈ tl, 0 < e ∧ e < ↑P := fun a ha => hr a (by simp [ha])
      rw [List.foldlM_cons]
      by_cases hex : e = x
      · have hstep : calcBFullStep ↑P root x acc e = pure acc := by
          unfold calcBFullStep
          rw [if_neg (by simpa using hex)]
        rw [hstep]
        obtain ⟨v, hv, hcast⟩ := ih acc htl
        refine ⟨v, hv, ?_⟩
        rw [hcast]
        unfold lagWeightFull
        have hfil : (e :: tl).filter (fun e => e ≠ x) = tl.filter (fun e => e ≠ x) := by
          simp [List.filter_cons, hex]
        rw [hfil]
      · obtain ⟨w, hw, hwcast⟩ := modinv_branch P hp (e - x) (by omega)
          (by omega) (by omega)
        have hstep : calcBFullStep ↑P root x acc e = .ok (acc * (root - e) * w) := by
          rw [calcBFullStep_eq_of_ne ↑P root x acc e hex, hw]
          rfl
        rw [hstep]
        obtain ⟨v, hv, hcast⟩ := ih (acc * (root - e) * w) htl
        refine ⟨v, hv, ?_⟩
        rw [hcast]
        unfold lagWeightFull
        have hfil : (e :: tl).filter (fun e => e ≠ x) =
            e :: tl.filter (fun e => e ≠ x) := by
          simp [List.filter_cons, hex]
        rw [hfil, List.map_cons, List.prod_cons]
        have hwc : (w : ZMod P) = ((e : ZMod P) - (x : ZMod P))⁻¹ := by
          rw [hwcast]
          push_cast
          ring_nf
        push_cast
        rw [hwc]
        ring

/-- Specification of `calculate_b_full`. -/
theorem calculate_b_full_spec (P : ℕ) (hp : P.Prime) (root x : Int)
    (hx : 0 < x ∧ x < ↑P) (xs : List Int) (hr : ∀ e ∈ xs, 0 < e ∧ e < ↑P) :
    ∃ b, calculate_b_full ↑P root x xs = .ok b ∧ 0 ≤ b ∧ b < ↑P ∧
      (b : ZMod P) = lagWeightFull P root x xs := by
  obtain ⟨v, hv, hcast⟩ := foldCalcBFull P hp root x hx xs 1 hr
  have hP0 : (0 : Int) < ↑P := by
    have := hp.two_le
    omega
  refine ⟨Int.fmod v ↑P, ?_, Int.fmod_nonneg' v hP0, Int.fmod_lt_of_pos v hP0, ?_⟩
  · unfold calculate_b_full
    rw [hv]
    rfl
  · rw [intCast_fmod_zmod, hcast]
    simp

/-- Specification of `calculate_y` on well-formed inputs: it succeeds with a
value in `[0, P)` whose residue is the full Lagrange sum at `root`. -/
theorem calculate_y_spec (P : ℕ) (hp : P.Prime) (root : Int) (xs ys : List Int)
    (hlen : xs.length = ys.length)
    (hr : ∀ e ∈ xs, 0 < e ∧ e < ↑P) :
    ∃ r, calculate_y ↑P root xs ys = .ok r ∧ 0 ≤ r ∧ r < ↑P ∧
      (r : ZMod P) = ∑ i ∈ Finset.range ys.length,
        lagWeightFull P root (xs.getD i 0) xs * ((ys.getD i 0 : Int) : ZMod P) := by
  have hP0 : (0 : Int) < ↑P := by
    have := hp.two_le
    omega
  set c : Nat → Int := fun i =>
    ((calculate_b_full ↑P root (xs.getD i 0) xs).toOption.getD 0) * ys.getD i 0 with hc
  have hbspec : ∀ i < ys.length, ∃ b, calculate_b_full ↑P root (xs.getD i 0) xs = .ok b ∧
      0 ≤ b ∧ b < ↑P ∧ (b : ZMod P) = lagWeightFull P root (xs.getD i 0) xs := by
    intro i hi
    have hix : i < xs.length := by omega
    have hmem : xs.getD i 0 ∈ xs := by
      rw [List.getD_eq_getElem?_getD, List.getElem?_eq_getElem hix]
      exact List.getElem_mem hix
    exact calculate_b_full_spec P hp root _ (hr _ hmem) xs hr
  have hstep : ∀ i ∈ List.range ys.length, ∀ k,
      (fun y index => do
        let xvi ← getIdx xs index
        let bi ← calculate_b_full ↑P root xvi xs
        let yvi ← getIdx ys index
        pure (y + bi * yvi)) k i = .ok (k + c i) := by
    intro i hi k
    have hiy : i < ys.length := List.mem_range.mp hi
    have hix : i < xs.length := by omega
    obtain ⟨b, hb, _, _, _⟩ := hbspec i hiy
    have hgx : getIdx xs i = .ok (xs.getD i 0) := by
      unfold getIdx
      rw [List.getElem?_eq_getElem hix, List.getD_eq_getElem?_getD,
        List.getElem?_eq_getElem hix]
      rfl
    have hgy : getIdx ys i = .ok (ys.getD i 0) := by
      unfold getIdx
      rw [List.getElem?_eq_getElem hiy, List.getD_eq_getElem?_getD,
        List.getElem?_eq_getElem hiy]
      rfl
    show (getIdx xs i >>= fun xvi => calculate_b_full ↑P root xvi xs >>= fun bi =>
      getIdx ys i >>= fun yvi => pure (k + bi * yvi)) = Except.ok (k + c i)
    rw [hgx]
    show (calculate_b_full ↑P root (xs.getD i 0) xs >>= fun bi =>
      getIdx ys i >>= fun yvi => pure (k + bi * yvi)) = _
    rw [hb]
    show (getIdx ys i >>= fun yvi => pure (k + b * yvi)) = _
    rw [hgy]
    show Except.ok (k + b * ys.getD i 0) = _
    have hci : c i = b * ys.getD i 0 := by
      rw [hc]
      simp only
      rw [show (calculate_b_full ↑P root (xs.getD i 0) xs).toOption.getD 0 = b from by
        rw [hb]; rfl]
    rw [hci]
  have hfold := foldlM_add_const _ c (List.range ys.length) hstep 0
  refine ⟨Int.fmod (0 + ((List.range ys.length).map c).sum) ↑P, ?_,
    Int.fmod_nonneg' _ hP0, Int.fmod_lt_of_pos _ hP0, ?_⟩
  · unfold calculate_y
    rw [hfold]
    rfl
  · rw [intCast_fmod_zmod, zero_add, Int.cast_list_sum, List.map_map,
      finsetSum_eq_listSum]
    congr 1
    apply List.map_congr_left
    intro i hi
    have hiy : i < ys.length := List.mem_range.mp hi
    obtain ⟨b, hb, _, _, hbc⟩ := hbspec i hiy
    show ((c i : Int) : ZMod P) = _
    rw [hc]
    simp only
    rw [show (calculate_b_full ↑P root (xs.getD i 0) xs).toOption.getD 0 = b from by
      rw [hb]; rfl]
    push_cast
    rw [hbc]

/-- Pulling a negation out of every factor of a product. -/
theorem prod_neg_factor (P : ℕ) (l : List Int) (g h : Int → ZMod P) :
    (l.map (fun e => -g e * h e)).prod =
      (-1) ^ l.length * (l.map (fun e => g e * h e)).prod := by
  induction l with
  | nil => simp
  | cons a tl ih =>
      rw [List.map_cons, List.prod_cons, List.map_cons, List.prod_cons, ih,
        List.length_cons, pow_succ]
      ring

/-- On a duplicate-free list, filtering out one member drops exactly one
element. -/
theorem length_filter_ne (x : Int) : ∀ (l : List Int), l.Nodup → x ∈ l →
    (l.filter (fun e => e ≠ x)).length = l.length - 1 := by
  intro l
  induction l with
  | nil => intro _ h; cases h
  | cons a tl ih =>
      intro hnd hmem
      rcases List.mem_cons.mp hmem with rfl | hmemtl
      · have hnotin : x ∉ tl := (List.nodup_cons.mp hnd).1
        have hall : tl.filter (fun e => e ≠ x) = tl := by
          apply List.filter_eq_self.mpr
          intro e he
          simp only [decide_eq_true_eq]
          intro hcon
          exact hnotin (hcon ▸ he)
        simp [List.filter_cons, hall]
        intro a ha hcon
        exact hnotin (hcon ▸ ha)
      · have hax : a ≠ x := by
          intro hcon
          exact (List.nodup_cons.mp hnd).1 (hcon ▸ hmemtl)
        have htlne : tl ≠ [] := by
          intro hcon
          rw [hcon] at hmemtl
          cases hmemtl
        have hlen := ih (List.nodup_cons.mp hnd).2 hmemtl
        have hpos : 0 < tl.length := List.length_pos.mpr htlne
        simp only [List.filter_cons, hax, decide_eq_true_eq, if_pos, List.length_cons]
        rw [if_pos hax, List.length_cons, hlen]
        omega

/-- At evaluation point `0`, the full basis weight is `(-1)^(n-1)` times the
simplified weight. -/
theorem lagWeightFull_zero (P : ℕ) (x : Int) (xs : List Int) (hnd : xs.Nodup)
    (hx : x ∈ xs) :
    lagWeightFull P 0 x xs = (-1) ^ (xs.length - 1) * lagWeight P x xs := by
  rw [lagWeightFull, lagWeight]
  have hcong : ((xs.filter (fun e => e ≠ x)).map
      (fun (e : Int) => (((0 : Int) : ZMod P) - (e : ZMod P)) *
        ((e : ZMod P) - (x : ZMod P))⁻¹)) =
      ((xs.filter (fun e => e ≠ x)).map
      (fun (e : Int) => -((e : ZMod P)) * ((e : ZMod P) - (x : ZMod P))⁻¹)) := by
    apply List.map_congr_left
    intro e _
    push_cast
    ring_nf
  rw [hcong, prod_neg_factor P _ (fun (e : Int) => (e : ZMod P))
    (fun (e : Int) => ((e : ZMod P) - (x : ZMod P))⁻¹)]
  rw [length_filter_ne x xs hnd hx]

/-- C2 (amended): evaluating the interpolating polynomial at `0` via
`calculate_y` agrees with secret recovery via `reconstruct_key` for every
scheme with prime `p` and every list of `n ≥ t` shares with pairwise-distinct
non-zero in-range points, provided the number of shares `n` is odd.  (For
even `n` the two differ by the factor `(-1)^(n-1)`; see the counterexample.) -/
theorem calculate_y_zero_eq_reconstruct (P : ℕ) (hp : P.Prime) (t : Nat)
    (xs ys : List Int) (hlen : xs.length = ys.length) (ht : t ≤ ys.length)
    (hodd : ys.length % 2 = 1) (hnd : xs.Nodup)
    (hr : ∀ e ∈ xs, 0 < e ∧ e < ↑P) :
    calculate_y ↑P 0 xs ys = reconstruct_key ↑P t xs ys := by
  obtain ⟨r1, hok1, h01, hP1, hc1⟩ := calculate_y_spec P hp 0 xs ys hlen hr
  obtain ⟨r2, hok2, h02, hP2, hc2⟩ := reconstruct_spec P hp t xs ys hlen ht hr
  rw [hok1, hok2]
  congr 1
  apply int_eq_of_zmod_eq ⟨h01, hP1⟩ ⟨h02, hP2⟩
  rw [hc1, hc2]
  apply Finset.sum_congr rfl
  intro i hi
  have hiy : i < ys.length := Finset.mem_range.mp hi
  have hix : i < xs.length := by omega
  have hmem : xs.getD i 0 ∈ xs := by
    rw [List.getD_eq_getElem?_getD, List.getElem?_eq_getElem hix]
    exact List.getElem_mem hix
  rw [lagWeightFull_zero P _ xs hnd hmem]
  have heven : Even (xs.length - 1) := by
    rw [hlen]
    exact Nat.even_iff.mpr (by omega)
  rw [Even.neg_one_pow heven, one_mul]

unseal egcd in
/-- C2 witness: the amended theorem applied to the scheme `p = 17`, `t = 3`
with the three shares `(1,8), (3,10), (5,11)` (an odd-sized set), together
with the concrete common value `13` of both sides. -/
theorem calculate_y_zero_eq_reconstruct_witness :
    calculate_y ((17 : ℕ) : Int) 0 [1, 3, 5] [8, 10, 11] =
      reconstruct_key ((17 : ℕ) : Int) 3 [1, 3, 5] [8, 10, 11] ∧
    reconstruct_key ((17 : ℕ) : Int) 3 [1, 3, 5] [8, 10, 11] = .ok 13 :=
  ⟨calculate_y_zero_eq_reconstruct 17 (by decide) 3 [1, 3, 5] [8, 10, 11]
      (by decide) (by decide) (by decide) (by decide) (by decide),
   by decide⟩

/-- Reconstruction of a share list that deviates from the polynomial `cs` at
(at most) the single evaluation point `xbad`: the result is the secret plus
`wZ(xbad) * δ` when `xbad` is among the supplied points. -/
theorem reconstruct_one_corrupted (P : ℕ) (hp : P.Prime) (t : Nat) (xs ys : List Int)
    (hlen : xs.length = ys.length) (ht : t ≤ ys.length)
    (hnd : xs.Nodup) (hr : ∀ e ∈ xs, 0 < e ∧ e < ↑P)
    (cs : List Int) (hcs : cs.length ≤ t) (xbad : Int) (d : ZMod P)
    (hys : ∀ i < ys.length, ((ys.getD i 0 : Int) : ZMod P) =
      hornerZ P cs ((xs.getD i 0 : Int) : ZMod P) +
        (if ((xs.getD i 0 : Int) : ZMod P) = ((xbad : Int) : ZMod P) then d else 0)) :
    ∃ r, reconstruct_key ↑P t xs ys = .ok r ∧ 0 ≤ r ∧ r < ↑P ∧
      (r : ZMod P) = hornerZ P cs 0 +
        (if ((xbad : Int) : ZMod P) ∈ (xs.map (fun (e : Int) => (e : ZMod P))).toFinset
         then wZ P (xs.map (fun (e : Int) => (e : ZMod P))).toFinset ((xbad : Int) : ZMod P) * d
         else 0) := by
  have hdeg : (hornerPoly P cs).degree < ((xs.length : ℕ) : WithBot ℕ) := by
    apply lt_of_lt_of_le (hornerPoly_degree P cs)
    rw [Nat.cast_withBot, Nat.cast_withBot]
    exact WithBot.coe_le_coe.mpr (by omega)
  obtain ⟨r, hok, h0, hltP, hcast⟩ := reconstruct_perturbed P hp t xs ys hlen ht hnd hr
    (hornerPoly P cs) hdeg
    (fun z => if z = ((xbad : Int) : ZMod P) then d else 0)
    (by
      intro i hi
      rw [hornerPoly_eval]
      exact hys i hi)
  refine ⟨r, hok, h0, hltP, ?_⟩
  rw [hcast, hornerPoly_eval]
  congr 1
  set S := (xs.map (fun (e : Int) => (e : ZMod P))).toFinset
  have hsummand : ∀ z ∈ S,
      wZ P S z * (if z = ((xbad : Int) : ZMod P) then d else 0) =
      (if z = ((xbad : Int) : ZMod P) then wZ P S z * d else 0) := by
    intro z _
    by_cases hz : z = ((xbad : Int) : ZMod P) <;> simp [hz]
  rw [Finset.sum_congr rfl hsummand, Finset.sum_ite_eq' S _ (fun z => wZ P S z * d)]

/-- Weight of a three-node set at its first node. -/
theorem wZ_triple (P : ℕ) (a b c : ZMod P) (hab : a ≠ b) (hac : a ≠ c) (hbc : b ≠ c) :
    wZ P {a, b, c} a = b * (b - a)⁻¹ * (c * (c - a)⁻¹) := by
  rw [wZ]
  have herase : ({a, b, c} : Finset (ZMod P)).erase a = {b, c} := by
    rw [show ({a, b, c} : Finset (ZMod P)) = insert a {b, c} from rfl]
    apply Finset.erase_insert
    simp only [Finset.mem_insert, Finset.mem_singleton]
    push_neg
    exact ⟨hab, hac⟩
  rw [herase]
  exact Finset.prod_pair hbc

/-- Unordered triples: moving the middle node to the front. -/
theorem triple_comm_mid {F : Type} [DecidableEq F] (a b c : F) :
    ({a, b, c} : Finset F) = {b, a, c} := by
  rw [show ({a, b, c} : Finset F) = insert a (insert b {c}) from rfl,
    Finset.Insert.comm]

/-- Unordered triples: moving the last node to the front. -/
theorem triple_comm_last {F : Type} [DecidableEq F] (a b c : F) :
    ({a, b, c} : Finset F) = {c, a, b} := by
  rw [show ({a, b, c} : Finset F) = insert a (insert b {c}) from rfl,
    Finset.pair_comm b c, Finset.Insert.comm]

/-- The per-point factor `x / (x - xbad)` is nonzero for nonzero `x ≠ xbad`
in a prime field. -/
theorem cfun_ne_zero (P : ℕ) (hp : P.Prime) (x xbad : ZMod P) (hx : x ≠ 0)
    (hne : x ≠ xbad) : x * (x - xbad)⁻¹ ≠ 0 := by
  haveI : Fact P.Prime := ⟨hp⟩
  apply mul_ne_zero hx
  apply inv_ne_zero
  exact sub_ne_zero_of_ne hne

/-- The map `x ↦ x / (x - xbad)` is injective on nonzero points distinct
from a nonzero `xbad`. -/
theorem cfun_inj (P : ℕ) (hp : P.Prime) (xbad x y : ZMod P) (hbad0 : xbad ≠ 0)
    (hx : x ≠ xbad) (hy : y ≠ xbad)
    (h : x * (x - xbad)⁻¹ = y * (y - xbad)⁻¹) : x = y := by
  haveI : Fact P.Prime := ⟨hp⟩
  have hx' : x - xbad ≠ 0 := sub_ne_zero_of_ne hx
  have hy' : y - xbad ≠ 0 := sub_ne_zero_of_ne hy
  have hmul : x * (y - xbad) = y * (x - xbad) := by
    field_simp at h
    linear_combination h
  have : x * xbad = y * xbad := by linear_combination -hmul
  exact mul_right_cancel₀ hbad0 this

/-- The head of the stable descending sort is an element of maximal count. -/
theorem sortDesc_head_max : ∀ (l : List (Int × Nat)), l ≠ [] →
    ∃ hd rest, sortDesc l = hd :: rest ∧ hd ∈ l ∧ ∀ e ∈ l, e.2 ≤ hd.2 := by
  intro l
  induction l with
  | nil => intro h; exact absurd rfl h
  | cons a tl ih =>
      intro _
      by_cases htl : tl = []
      · subst htl
        exact ⟨a, [], rfl, by simp, by simp⟩
      · obtain ⟨hd, rest, hsort, hmem, hmax⟩ := ih htl
        rw [show sortDesc (a :: tl) = insertDesc a (sortDesc tl) from rfl, hsort]
        by_cases hgt : hd.2 > a.2
        · refine ⟨hd, insertDesc a rest, ?_, by simp [hmem], ?_⟩
          · rw [show insertDesc a (hd :: rest) =
              if hd.2 > a.2 then hd :: insertDesc a rest else a :: hd :: rest from rfl,
              if_pos hgt]
          · intro e he
            rcases List.mem_cons.mp he with rfl | hetl
            · omega
            · exact hmax e hetl
        · refine ⟨a, hd :: rest, ?_, by simp, ?_⟩
          · rw [show insertDesc a (hd :: rest) =
              if hd.2 > a.2 then hd :: insertDesc a rest else a :: hd :: rest from rfl,
              if_neg hgt]
          · intro e he
            rcases List.mem_cons.mp he with rfl | hetl
            · omega
            · have := hmax e hetl
              omega

/-- Evaluation of the `validate_shares` loop when every subset reconstructs:
the loop returns whether every listed subset's key matches the reference. -/
theorem validateLoop_eval (p : Int) (t : Nat) (cxs cys : List (List Int))
    (K : Nat → Int) (hlen : cys.length = cxs.length)
    (hK : ∀ i < cxs.length, reconstruct_key p t (cxs.getD i []) (cys.getD i []) = .ok (K i)) :
    ∀ (idxs : List Nat), (∀ i ∈ idxs, i < cxs.length) → ∀ key,
    validateLoop p t cxs cys key idxs = .ok (decide (∀ i ∈ idxs, K i = key)) := by
  intro idxs
  induction idxs with
  | nil =>
      intro _ key
      simp [validateLoop]
  | cons i tl ih =>
      intro hmem key
      have hix : i < cxs.length := hmem i (by simp)
      have hiy : i < cys.length := by omega
      have hgx : getIdx cxs i = .ok (cxs.getD i []) := by
        unfold getIdx
        rw [List.getElem?_eq_getElem hix, List.getD_eq_getElem?_getD,
          List.getElem?_eq_getElem hix]
        rfl
      have hgy : getIdx cys i = .ok (cys.getD i []) := by
        unfold getIdx
        rw [List.getElem?_eq_getElem hiy, List.getD_eq_getElem?_getD,
          List.getElem?_eq_getElem hiy]
        rfl
      show (getIdx cxs i >>= fun cx => getIdx cys i >>= fun cy =>
        reconstruct_key p t cx cy >>= fun next_key =>
          if ¬ (next_key = key) then .ok false
          else validateLoop p t cxs cys key tl) = _
      rw [hgx]
      show (getIdx cys i >>= fun cy =>
        reconstruct_key p t (cxs.getD i []) cy >>= fun next_key =>
          if ¬ (next_key = key) then .ok false
          else validateLoop p t cxs cys key tl) = _
      rw [hgy]
      show (reconstruct_key p t (cxs.getD i []) (cys.getD i []) >>= fun next_key =>
          if ¬ (next_key = key) then .ok false
          else validateLoop p t cxs cys key tl) = _
      rw [hK i hix]
      show (if ¬ (K i = key) then Except.ok false
          else validateLoop p t cxs cys key tl) = _
      by_cases hkey : K i = key
      · rw [if_neg (not_not_intro hkey), ih (fun j hj => hmem j (by simp [hj])) key]
        congr 1
        apply decide_eq_decide.mpr
        constructor
        · intro hall j hj
          rcases List.mem_cons.mp hj with rfl | hjtl
          · exact hkey
          · exact hall j hjtl
        · intro hall j hj
          exact hall j (by simp [hj])
      · rw [if_pos hkey]
        have : ¬ (∀ j ∈ i :: tl, K j = key) := by
          intro hall
          exact hkey (hall i (by simp))
        rw [decide_eq_false this]

/-- Evaluation of the key-collection fold of `find_defective_share` when
every subset reconstructs. -/
theorem foldlM_entries (p : Int) (t : Nat) (cxs cys : List (List Int))
    (K : Nat → Int) (hlen : cys.length = cxs.length)
    (hK : ∀ i < cxs.length, reconstruct_key p t (cxs.getD i []) (cys.getD i []) = .ok (K i)) :
    ∀ (idxs : List Nat), (∀ i ∈ idxs, i < cxs.length) →
    ∀ (acc : List (List Int × Int)),
    idxs.foldlM (fun acc index => do
        let cx ← getIdx cxs index
        let cy ← getIdx cys index
        let key ← reconstruct_key p t cx cy
        pure (acc ++ [(cx, key)])) acc =
      .ok (acc ++ idxs.map (fun i => (cxs.getD i [], K i))) := by
  intro idxs
  induction idxs with
  | nil =>
      intro _ acc
      show Except.ok acc = _
      simp
  | cons i tl ih =>
      intro hmem acc
      have hix : i < cxs.length := hmem i (by simp)
      have hiy : i < cys.length := by omega
      have hgx : getIdx cxs i = .ok (cxs.getD i []) := by
        unfold getIdx
        rw [List.getElem?_eq_getElem hix, List.getD_eq_getElem?_getD,
          List.getElem?_eq_getElem hix]
        rfl
      have hgy : getIdx cys i = .ok (cys.getD i []) := by
        unfold getIdx
        rw [List.getElem?_eq_getElem hiy, List.getD_eq_getElem?_getD,
          List.getElem?_eq_getElem hiy]
        rfl
      rw [List.foldlM_cons]
      show ((getIdx cxs i >>= fun cx => getIdx cys i >>= fun cy =>
        reconstruct_key p t cx cy >>= fun key => pure (acc ++ [(cx, key)])) >>= _) = _
      rw [hgx]
      show ((getIdx cys i >>= fun cy =>
        reconstruct_key p t (cxs.getD i []) cy >>= fun key =>
          pure (acc ++ [(cxs.getD i [], key)])) >>= _) = _
      rw [hgy]
      show ((reconstruct_key p t (cxs.getD i []) (cys.getD i []) >>= fun key =>
        pure (acc ++ [(cxs.getD i [], key)])) >>= _) = _
      rw [hK i hix]
      show tl.foldlM _ (acc ++ [(cxs.getD i [], K i)]) = _
      rw [ih (fun j hj => hmem j (by simp [hj])) (acc ++ [(cxs.getD i [], K i)])]
      simp

/-- Key reconstructed from a 3-share subset in which at most the point
`xbad` carries a corrupted value. -/
theorem key_of_triple (P : ℕ) (hp : P.Prime) (u v w yu yv yw : Int)
    (hu : 0 < u ∧ u < ↑P) (hv : 0 < v ∧ v < ↑P) (hw : 0 < w ∧ w < ↑P)
    (huv : u ≠ v) (huw : u ≠ w) (hvw : v ≠ w)
    (cs : List Int) (hcs : cs.length ≤ 3) (xbad : Int) (d : ZMod P)
    (hyu : ((yu : Int) : ZMod P) = hornerZ P cs ((u : Int) : ZMod P) +
      (if ((u : Int) : ZMod P) = ((xbad : Int) : ZMod P) then d else 0))
    (hyv : ((yv : Int) : ZMod P) = hornerZ P cs ((v : Int) : ZMod P) +
      (if ((v : Int) : ZMod P) = ((xbad : Int) : ZMod P) then d else 0))
    (hyw : ((yw : Int) : ZMod P) = hornerZ P cs ((w : Int) : ZMod P) +
      (if ((w : Int) : ZMod P) = ((xbad : Int) : ZMod P) then d else 0)) :
    ∃ r, reconstruct_key ↑P 3 [u, v, w] [yu, yv, yw] = .ok r ∧ 0 ≤ r ∧ r < ↑P ∧
      (r : ZMod P) = hornerZ P cs 0 +
        (if ((xbad : Int) : ZMod P) ∈
            ({((u : Int) : ZMod P), ((v : Int) : ZMod P), ((w : Int) : ZMod P)} :
              Finset (ZMod P))
         then wZ P {((u : Int) : ZMod P), ((v : Int) : ZMod P), ((w : Int) : ZMod P)}
            ((xbad : Int) : ZMod P) * d
         else 0) := by
  have hset : (([u, v, w].map (fun (e : Int) => (e : ZMod P))).toFinset :
      Finset (ZMod P)) =
      {((u : Int) : ZMod P), ((v : Int) : ZMod P), ((w : Int) : ZMod P)} := by
    simp
  obtain ⟨r, hok, h0, hP, hcast⟩ := reconstruct_one_corrupted P hp 3 [u, v, w] [yu, yv, yw]
    rfl (le_refl 3)
    (by simp [huv, huw, hvw])
    (by
      intro e he
      rcases List.mem_cons.mp he with rfl | he
      · exact hu
      rcases List.mem_cons.mp he with rfl | he
      · exact hv
      rcases List.mem_cons.mp he with rfl | he
      · exact hw
      cases he)
    cs hcs xbad d
    (by
      intro i hi
      simp only [List.length_cons, List.length_nil] at hi
      interval_cases i
      · simpa using hyu
      · simpa using hyv
      · simpa using hyw)
  refine ⟨r, hok, h0, hP, ?_⟩
  rw [hcast, hset]

/-- The number of `t`-combinations depends only on the list length. -/
theorem combos_length {α : Type} : ∀ (t : Nat) (l : List α),
    (combos t l).length = l.length.choose t := by
  intro t
  induction t with
  | zero => intro l; simp [combos]
  | succ t iht =>
      intro l
      induction l with
      | nil => simp [combos]
      | cons a tl ihl =>
          rw [combos, List.length_append, List.length_map, iht tl, ihl,
            List.length_cons, Nat.choose_succ_succ']

/-- Evaluation of `validate_shares` when every subset reconstructs: the
result states whether every subset's key equals the first subset's. -/
theorem validate_shares_eval (p : Int) (t : Nat) (xv yv : List Int) (K : Nat → Int)
    (hlen : yv.length = xv.length) (hpos : 0 < (combos t xv).length)
    (hK : ∀ i < (combos t xv).length,
      reconstruct_key p t ((combos t xv).getD i []) ((combos t yv).getD i []) = .ok (K i)) :
    validate_shares p t xv yv =
      .ok (decide (∀ i ∈ List.range (combos t xv).length, K i = K 0)) := by
  have hcl : (combos t yv).length = (combos t xv).length := by
    rw [combos_length, combos_length, hlen]
  have hgx : getIdx (combos t xv) 0 = .ok ((combos t xv).getD 0 []) := by
    unfold getIdx
    rw [List.getElem?_eq_getElem hpos, List.getD_eq_getElem?_getD,
      List.getElem?_eq_getElem hpos]
    rfl
  have hgy : getIdx (combos t yv) 0 = .ok ((combos t yv).getD 0 []) := by
    unfold getIdx
    rw [List.getElem?_eq_getElem (by omega), List.getD_eq_getElem?_getD,
      List.getElem?_eq_getElem (by omega)]
    rfl
  show (getIdx (combos t xv) 0 >>= fun cx0 => getIdx (combos t yv) 0 >>= fun cy0 =>
    reconstruct_key p t cx0 cy0 >>= fun key =>
      validateLoop p t (combos t xv) (combos t yv) key
        (List.range (combos t xv).length)) = _
  rw [hgx]
  show (getIdx (combos t yv) 0 >>= fun cy0 =>
    reconstruct_key p t ((combos t xv).getD 0 []) cy0 >>= fun key =>
      validateLoop p t (combos t xv) (combos t yv) key
        (List.range (combos t xv).length)) = _
  rw [hgy]
  show (reconstruct_key p t ((combos t xv).getD 0 []) ((combos t yv).getD 0 []) >>=
    fun key => validateLoop p t (combos t xv) (combos t yv) key
      (List.range (combos t xv).length)) = _
  rw [hK 0 hpos]
  show validateLoop p t (combos t xv) (combos t yv) (K 0)
      (List.range (combos t xv).length) = _
  rw [validateLoop_eval p t (combos t xv) (combos t yv) K hcl hK
    (List.range (combos t xv).length) (fun i hi => List.mem_range.mp hi) (K 0)]

/-- The subset/key entry list that `find_defective_share`'s collection fold
produces when each subset `i` reconstructs to `K i`. -/
def entriesOf (t : Nat) (xv : List Int) (K : Nat → Int) : List (List Int × Int) :=
  (List.range (combos t xv).length).map (fun i => ((combos t xv).getD i [], K i))

/-- Evaluation of `find_defective_share` down to its pure pipeline, once
every subset reconstructs. -/
theorem find_defective_eval (p : Int) (t : Nat) (xv yv : List Int) (K : Nat → Int)
    (hlen : yv.length = xv.length)
    (hK : ∀ i < (combos t xv).length,
      reconstruct_key p t ((combos t xv).getD i []) ((combos t yv).getD i []) = .ok (K i)) :
    find_defective_share p t xv yv =
      (do
        let first ← getIdx (sortDesc ((entriesOf t xv K).map
          (fun e => (e.2, keyCount (entriesOf t xv K) e.2)))) 0
        let first_x ← getIdx (((entriesOf t xv K).filter
          (fun e => e.2 ≠ first.1)).map (fun e => e.1)) 0
        getIdx (first_x.dedup.filter (fun v => (((entriesOf t xv K).filter
          (fun e => e.2 ≠ first.1)).map (fun e => e.1)).all (fun l => v ∈ l))) 0) := by
  have hcl : (combos t yv).length = (combos t xv).length := by
    rw [combos_length, combos_length, hlen]
  show ((List.range (combos t xv).length).foldlM (fun acc index => do
      let cx ← getIdx (combos t xv) index
      let cy ← getIdx (combos t yv) index
      let key ← reconstruct_key p t cx cy
      pure (acc ++ [(cx, key)])) ([] : List (List Int × Int)) >>= _) = _
  rw [foldlM_entries p t (combos t xv) (combos t yv) K hcl hK
    (List.range (combos t xv).length) (fun i hi => List.mem_range.mp hi) []]
  rfl

/-- The stable descending sort of the count-tagged entries starts with the
strict-majority key. -/
theorem sort_head_likely (entries : List (List Int × Int)) (κ : Int)
    (hmem : ∃ e ∈ entries, e.2 = κ)
    (hmax : ∀ e ∈ entries, e.2 ≠ κ → keyCount entries e.2 < keyCount entries κ) :
    ∃ rest, sortDesc (entries.map (fun e => (e.2, keyCount entries e.2))) =
      (κ, keyCount entries κ) :: rest := by
  obtain ⟨e0, he0, he0k⟩ := hmem
  have hne : entries.map (fun e => (e.2, keyCount entries e.2)) ≠ [] := by
    intro hcon
    rw [List.map_eq_nil_iff] at hcon
    rw [hcon] at he0
    cases he0
  obtain ⟨hd, rest, hsort, hhd, hmaxcnt⟩ := sortDesc_head_max _ hne
  obtain ⟨e1, he1, he1eq⟩ := List.mem_map.mp hhd
  have hkpair : (κ, keyCount entries κ) ∈ entries.map (fun e => (e.2, keyCount entries e.2)) := by
    apply List.mem_map.mpr
    exact ⟨e0, he0, by rw [he0k]⟩
  have hle := hmaxcnt _ hkpair
  have he1k : e1.2 = κ := by
    by_contra hcon
    have hlt := hmax e1 he1 hcon
    rw [← he1eq] at hle
    simp only at hle
    omega
  refine ⟨rest, ?_⟩
  rw [hsort, ← he1eq, he1k]

/-- Resolution of `find_defective_share`: when every subset reconstructs,
the key `κ` is a strict majority, and the intersection of the disagreeing
subsets' point tuples is exactly `[xbad]`, the function returns `xbad`. -/
theorem find_defective_resolves (p : Int) (t : Nat) (xv yv : List Int) (K : Nat → Int)
    (hlen : yv.length = xv.length)
    (hK : ∀ i < (combos t xv).length,
      reconstruct_key p t ((combos t xv).getD i []) ((combos t yv).getD i []) = .ok (K i))
    (κ xbad : Int) (aoxList : List (List Int)) (fx : List Int)
    (hmem : ∃ e ∈ entriesOf t xv K, e.2 = κ)
    (hmax : ∀ e ∈ entriesOf t xv K, e.2 ≠ κ →
      keyCount (entriesOf t xv K) e.2 < keyCount (entriesOf t xv K) κ)
    (haox : ((entriesOf t xv K).filter (fun e => e.2 ≠ κ)).map (fun e => e.1) = aoxList)
    (hpos : 0 < aoxList.length) (hfx : aoxList.getD 0 [] = fx)
    (hfilter : fx.dedup.filter (fun v => aoxList.all (fun l => v ∈ l)) = [xbad]) :
    find_defective_share p t xv yv = .ok xbad := by
  rw [find_defective_eval p t xv yv K hlen hK]
  obtain ⟨rest, hsort⟩ := sort_head_likely (entriesOf t xv K) κ hmem hmax
  rw [hsort]
  have h1 : getIdx ((κ, keyCount (entriesOf t xv K) κ) :: rest) 0 =
      pure (κ, keyCount (entriesOf t xv K) κ) := by
    unfold getIdx
    rw [List.getElem?_cons_zero]
    rfl
  rw [h1, pure_bind]
  show (getIdx (((entriesOf t xv K).filter
      (fun e => e.2 ≠ κ)).map (fun e => e.1)) 0 >>= fun first_x =>
    getIdx (first_x.dedup.filter (fun v => (((entriesOf t xv K).filter
      (fun e => e.2 ≠ κ)).map (fun e => e.1)).all (fun l => v ∈ l))) 0) = _
  rw [haox]
  have hgfx : getIdx aoxList 0 = .ok fx := by
    unfold getIdx
    rw [List.getElem?_eq_getElem hpos]
    rw [← hfx, List.getD_eq_getElem?_getD, List.getElem?_eq_getElem hpos]
    rfl
  rw [hgfx]
  show getIdx (fx.dedup.filter (fun v => aoxList.all (fun l => v ∈ l))) 0 = _
  rw [hfilter]
  rfl

/-!
## C5: defective-share detection for the p = 17, t = 3, w = 5 scheme
-/

set_option maxHeartbeats 16000000 in
/-- C5: for the scheme p = 17, t = 3, w = 5, for every set of 5 shares
generated from secret 13 over distinct non-zero in-range x-values, in which
exactly one y-value is replaced by a different value mod p, `validate_shares`
returns false and `find_defective_share` returns exactly the x-coordinate of
the corrupted share. -/
theorem defective_share_detection
    (xs a ys : List Int) (s' : SSSObj)
    (hlx : xs.length = 5) (hnd : xs.Nodup) (hxr : ∀ x ∈ xs, 0 < x ∧ x < 17)
    (hla : a.length = 2)
    (hgen : generate_shares ⟨13, 17, 5, 3, none, some xs, none⟩ a = .ok (s', ys))
    (pos : Nat) (hpos : pos < 5) (y2 : Int) (hy2 : 0 ≤ y2 ∧ y2 < 17)
    (hne : y2 ≠ ys.getD pos 0) :
    validate_shares 17 3 xs (ys.set pos y2) = .ok false ∧
    find_defective_share 17 3 xs (ys.set pos y2) = .ok (xs.getD pos 0) := by
  rcases xs with _ | ⟨x0, _ | ⟨x1, _ | ⟨x2, _ | ⟨x3, _ | ⟨x4, _ | ⟨x5, rest⟩⟩⟩⟩⟩⟩ <;>
    simp only [List.length_cons, List.length_nil] at hlx
  pick_goal 6
  swap
  · omega
  swap
  · omega
  swap
  · omega
  swap
  · omega
  swap
  · omega
  swap
  · omega
  -- main case
  set g : Int → Int := fun x => Int.fmod (polyval (a ++ [13]) x) 17 with hgdef
  have heq := generate_shares_eq ⟨13, 17, 5, 3, none, some [x0, x1, x2, x3, x4], none⟩
    a [x0, x1, x2, x3, x4] rfl (by simp)
  rw [heq] at hgen
  have hys : ys = [g x0, g x1, g x2, g x3, g x4] := by
    have h2 := (Except.ok.injEq _ _).mp hgen
    exact (congrArg Prod.snd h2).symm
  subst hys
  simp only [List.nodup_cons, List.mem_cons, List.mem_singleton, List.not_mem_nil,
    or_false, not_or] at hnd
  obtain ⟨⟨h01, h02, h03, h04⟩, ⟨h12, h13, h14⟩, ⟨h23, h24⟩, h34, -⟩ := hnd
  have hp17 : Nat.Prime 17 := by norm_num
  haveI : Fact (Nat.Prime 17) := ⟨hp17⟩
  have h17 : ((17 : ℕ) : Int) = 17 := by norm_num
  have hr0 := hxr x0 (by simp)
  have hr1 := hxr x1 (by simp)
  have hr2 := hxr x2 (by simp)
  have hr3 := hxr x3 (by simp)
  have hr4 := hxr x4 (by simp)
  have hr0' : 0 < x0 ∧ x0 < ((17 : ℕ) : Int) := by rw [h17]; exact hr0
  have hr1' : 0 < x1 ∧ x1 < ((17 : ℕ) : Int) := by rw [h17]; exact hr1
  have hr2' : 0 < x2 ∧ x2 < ((17 : ℕ) : Int) := by rw [h17]; exact hr2
  have hr3' : 0 < x3 ∧ x3 < ((17 : ℕ) : Int) := by rw [h17]; exact hr3
  have hr4' : 0 < x4 ∧ x4 < ((17 : ℕ) : Int) := by rw [h17]; exact hr4
  set cs : List Int := a ++ [13] with hcsdef
  have hcs3 : cs.length ≤ 3 := by
    rw [hcsdef, List.length_append, hla]
    simp
  have hcg : ∀ z : Int, ((g z : Int) : ZMod 17) = hornerZ 17 cs ((z : Int) : ZMod 17) := by
    intro z
    rw [hgdef]
    simp only
    rw [show (17 : Int) = ((17 : ℕ) : Int) from by norm_num]
    rw [intCast_fmod_zmod 17 (polyval cs z), cast_polyval]
  have hgrange : ∀ z : Int, 0 ≤ g z ∧ g z < 17 := by
    intro z
    rw [hgdef]
    exact ⟨Int.fmod_nonneg' _ (by norm_num), Int.fmod_lt_of_pos _ (by norm_num)⟩
  have h13cast : hornerZ 17 cs 0 = ((13 : Int) : ZMod 17) := by
    rw [hcsdef, hornerZ, List.foldl_append]
    simp
  have hXne : ∀ (u v : Int), 0 < u ∧ u < 17 → 0 < v ∧ v < 17 → ¬ u = v →
      ((u : Int) : ZMod 17) ≠ ((v : Int) : ZMod 17) := by
    intro u v hu hv huv hcon
    exact huv (int_eq_of_zmod_eq ⟨by omega, by rw [h17]; omega⟩ ⟨by omega, by rw [h17]; omega⟩ hcon)
  have hX0 : ∀ (u : Int), 0 < u ∧ u < 17 → ((u : Int) : ZMod 17) ≠ 0 := by
    intro u hu hcon
    have h0 : u = (0 : Int) := by
      apply int_eq_of_zmod_eq ⟨by omega, by rw [h17]; omega⟩
        ⟨by norm_num, by rw [h17]; norm_num⟩
      rw [hcon]
      simp
    omega
  have hkey13 : ∀ (r : Int), 0 ≤ r → r < ((17 : ℕ) : Int) →
      ((r : Int) : ZMod 17) = ((13 : Int) : ZMod 17) → r = 13 := by
    intro r hge hlt hc
    exact int_eq_of_zmod_eq ⟨hge, hlt⟩ ⟨by norm_num, by rw [h17]; norm_num⟩ hc
  have h10 : ¬ x1 = x0 := fun hc => h01 hc.symm
  have h20 : ¬ x2 = x0 := fun hc => h02 hc.symm
  have h30 : ¬ x3 = x0 := fun hc => h03 hc.symm
  have h40 : ¬ x4 = x0 := fun hc => h04 hc.symm
  have h21 : ¬ x2 = x1 := fun hc => h12 hc.symm
  have h31 : ¬ x3 = x1 := fun hc => h13 hc.symm
  have h41 : ¬ x4 = x1 := fun hc => h14 hc.symm
  have h32 : ¬ x3 = x2 := fun hc => h23 hc.symm
  have h42 : ¬ x4 = x2 := fun hc => h24 hc.symm
  have h43 : ¬ x4 = x3 := fun hc => h34 hc.symm
  interval_cases pos
  · -- pos = 0
    rw [show ([g x0, g x1, g x2, g x3, g x4].set 0 y2) = [y2, g x1, g x2, g x3, g x4] from rfl]
    rw [show ([x0, x1, x2, x3, x4].getD 0 0) = x0 from rfl]
    have hnegx : y2 ≠ g x0 := by simpa using hne
    set d : ZMod 17 := ((y2 : Int) : ZMod 17) - hornerZ 17 cs ((x0 : Int) : ZMod 17) with hddef
    have hdy : ((y2 : Int) : ZMod 17) = hornerZ 17 cs ((x0 : Int) : ZMod 17) +
        (if ((x0 : Int) : ZMod 17) = ((x0 : Int) : ZMod 17) then d else 0) := by
      rw [if_pos rfl, hddef]
      ring
    have hdne : d ≠ 0 := by
      rw [hddef]
      apply sub_ne_zero_of_ne
      intro hcon
      apply hnegx
      apply int_eq_of_zmod_eq ⟨hy2.1, by rw [h17]; exact hy2.2⟩
        ⟨(hgrange x0).1, by rw [h17]; exact (hgrange x0).2⟩
      rw [hcon, hcg x0]
    have hygood : ∀ (z : Int), 0 < z ∧ z < 17 → ¬ z = x0 →
        ((g z : Int) : ZMod 17) = hornerZ 17 cs ((z : Int) : ZMod 17) +
          (if ((z : Int) : ZMod 17) = ((x0 : Int) : ZMod 17) then d else 0) := by
      intro z hz hzx
      rw [if_neg (hXne z x0 hz hr0 hzx), hcg, add_zero]
    obtain ⟨r0, hok0, hge0, hlt0, hc0⟩ := key_of_triple 17 hp17 x0 x1 x2 y2 (g x1) (g x2)
      hr0' hr1' hr2' h01 h02 h12 cs hcs3 x0 d hdy (hygood x1 hr1 h10) (hygood x2 hr2 h20)
    obtain ⟨r1, hok1, hge1, hlt1, hc1⟩ := key_of_triple 17 hp17 x0 x1 x3 y2 (g x1) (g x3)
      hr0' hr1' hr3' h01 h03 h13 cs hcs3 x0 d hdy (hygood x1 hr1 h10) (hygood x3 hr3 h30)
    obtain ⟨r2, hok2, hge2, hlt2, hc2⟩ := key_of_triple 17 hp17 x0 x1 x4 y2 (g x1) (g x4)
      hr0' hr1' hr4' h01 h04 h14 cs hcs3 x0 d hdy (hygood x1 hr1 h10) (hygood x4 hr4 h40)
    obtain ⟨r3, hok3, hge3, hlt3, hc3⟩ := key_of_triple 17 hp17 x0 x2 x3 y2 (g x2) (g x3)
      hr0' hr2' hr3' h02 h03 h23 cs hcs3 x0 d hdy (hygood x2 hr2 h20) (hygood x3 hr3 h30)
    obtain ⟨r4, hok4, hge4, hlt4, hc4⟩ := key_of_triple 17 hp17 x0 x2 x4 y2 (g x2) (g x4)
      hr0' hr2' hr4' h02 h04 h24 cs hcs3 x0 d hdy (hygood x2 hr2 h20) (hygood x4 hr4 h40)
    obtain ⟨r5, hok5, hge5, hlt5, hc5⟩ := key_of_triple 17 hp17 x0 x3 x4 y2 (g x3) (g x4)
      hr0' hr3' hr4' h03 h04 h34 cs hcs3 x0 d hdy (hygood x3 hr3 h30) (hygood x4 hr4 h40)
    obtain ⟨r6, hok6, hge6, hlt6, hc6⟩ := key_of_triple 17 hp17 x1 x2 x3 (g x1) (g x2) (g x3)
      hr1' hr2' hr3' h12 h13 h23 cs hcs3 x0 d
      (hygood x1 hr1 h10) (hygood x2 hr2 h20) (hygood x3 hr3 h30)
    obtain ⟨r7, hok7, hge7, hlt7, hc7⟩ := key_of_triple 17 hp17 x1 x2 x4 (g x1) (g x2) (g x4)
      hr1' hr2' hr4' h12 h14 h24 cs hcs3 x0 d
      (hygood x1 hr1 h10) (hygood x2 hr2 h20) (hygood x4 hr4 h40)
    obtain ⟨r8, hok8, hge8, hlt8, hc8⟩ := key_of_triple 17 hp17 x1 x3 x4 (g x1) (g x3) (g x4)
      hr1' hr3' hr4' h13 h14 h34 cs hcs3 x0 d
      (hygood x1 hr1 h10) (hygood x3 hr3 h30) (hygood x4 hr4 h40)
    obtain ⟨r9, hok9, hge9, hlt9, hc9⟩ := key_of_triple 17 hp17 x2 x3 x4 (g x2) (g x3) (g x4)
      hr2' hr3' hr4' h23 h24 h34 cs hcs3 x0 d
      (hygood x2 hr2 h20) (hygood x3 hr3 h30) (hygood x4 hr4 h40)
    -- evaluate the membership conditionals
    rw [if_pos (by simp), wZ_triple 17 _ _ _ (hXne x0 x1 hr0 hr1 h01)
      (hXne x0 x2 hr0 hr2 h02) (hXne x1 x2 hr1 hr2 h12), h13cast] at hc0
    rw [if_pos (by simp), wZ_triple 17 _ _ _ (hXne x0 x1 hr0 hr1 h01)
      (hXne x0 x3 hr0 hr3 h03) (hXne x1 x3 hr1 hr3 h13), h13cast] at hc1
    rw [if_pos (by simp), wZ_triple 17 _ _ _ (hXne x0 x1 hr0 hr1 h01)
      (hXne x0 x4 hr0 hr4 h04) (hXne x1 x4 hr1 hr4 h14), h13cast] at hc2
    rw [if_pos (by simp), wZ_triple 17 _ _ _ (hXne x0 x2 hr0 hr2 h02)
      (hXne x0 x3 hr0 hr3 h03) (hXne x2 x3 hr2 hr3 h23), h13cast] at hc3
    rw [if_pos (by simp), wZ_triple 17 _ _ _ (hXne x0 x2 hr0 hr2 h02)
      (hXne x0 x4 hr0 hr4 h04) (hXne x2 x4 hr2 hr4 h24), h13cast] at hc4
    rw [if_pos (by simp), wZ_triple 17 _ _ _ (hXne x0 x3 hr0 hr3 h03)
      (hXne x0 x4 hr0 hr4 h04) (hXne x3 x4 hr3 hr4 h34), h13cast] at hc5
    rw [if_neg (by simp [hXne x0 x1 hr0 hr1 h01, hXne x0 x2 hr0 hr2 h02,
      hXne x0 x3 hr0 hr3 h03]), add_zero, h13cast] at hc6
    rw [if_neg (by simp [hXne x0 x1 hr0 hr1 h01, hXne x0 x2 hr0 hr2 h02,
      hXne x0 x4 hr0 hr4 h04]), add_zero, h13cast] at hc7
    rw [if_neg (by simp [hXne x0 x1 hr0 hr1 h01, hXne x0 x3 hr0 hr3 h03,
      hXne x0 x4 hr0 hr4 h04]), add_zero, h13cast] at hc8
    rw [if_neg (by simp [hXne x0 x2 hr0 hr2 h02, hXne x0 x3 hr0 hr3 h03,
      hXne x0 x4 hr0 hr4 h04]), add_zero, h13cast] at hc9
    have he6 : r6 = 13 := hkey13 r6 hge6 hlt6 hc6
    have he7 : r7 = 13 := hkey13 r7 hge7 hlt7 hc7
    have he8 : r8 = 13 := hkey13 r8 hge8 hlt8 hc8
    have he9 : r9 = 13 := hkey13 r9 hge9 hlt9 hc9
    subst he6 he7 he8 he9
    set c1 : ZMod 17 := ((x1 : Int) : ZMod 17) *
      (((x1 : Int) : ZMod 17) - ((x0 : Int) : ZMod 17))⁻¹ with hc1def
    set c2 : ZMod 17 := ((x2 : Int) : ZMod 17) *
      (((x2 : Int) : ZMod 17) - ((x0 : Int) : ZMod 17))⁻¹ with hc2def
    set c3 : ZMod 17 := ((x3 : Int) : ZMod 17) *
      (((x3 : Int) : ZMod 17) - ((x0 : Int) : ZMod 17))⁻¹ with hc3def
    set c4 : ZMod 17 := ((x4 : Int) : ZMod 17) *
      (((x4 : Int) : ZMod 17) - ((x0 : Int) : ZMod 17))⁻¹ with hc4def
    have hcnz1 : c1 ≠ 0 := by
      rw [hc1def]; exact cfun_ne_zero 17 hp17 _ _ (hX0 x1 hr1) (hXne x1 x0 hr1 hr0 h10)
    have hcnz2 : c2 ≠ 0 := by
      rw [hc2def]; exact cfun_ne_zero 17 hp17 _ _ (hX0 x2 hr2) (hXne x2 x0 hr2 hr0 h20)
    have hcnz3 : c3 ≠ 0 := by
      rw [hc3def]; exact cfun_ne_zero 17 hp17 _ _ (hX0 x3 hr3) (hXne x3 x0 hr3 hr0 h30)
    have hcnz4 : c4 ≠ 0 := by
      rw [hc4def]; exact cfun_ne_zero 17 hp17 _ _ (hX0 x4 hr4) (hXne x4 x0 hr4 hr0 h40)
    have hcne12 : c1 ≠ c2 := by
      rw [hc1def, hc2def]
      intro hcon
      exact (hXne x1 x2 hr1 hr2 h12) (cfun_inj 17 hp17 _ _ _ (hX0 x0 hr0)
        (hXne x1 x0 hr1 hr0 h10) (hXne x2 x0 hr2 hr0 h20) hcon)
    have hcne13 : c1 ≠ c3 := by
      rw [hc1def, hc3def]
      intro hcon
      exact (hXne x1 x3 hr1 hr3 h13) (cfun_inj 17 hp17 _ _ _ (hX0 x0 hr0)
        (hXne x1 x0 hr1 hr0 h10) (hXne x3 x0 hr3 hr0 h30) hcon)
    have hcne14 : c1 ≠ c4 := by
      rw [hc1def, hc4def]
      intro hcon
      exact (hXne x1 x4 hr1 hr4 h14) (cfun_inj 17 hp17 _ _ _ (hX0 x0 hr0)
        (hXne x1 x0 hr1 hr0 h10) (hXne x4 x0 hr4 hr0 h40) hcon)
    have hcne23 : c2 ≠ c3 := by
      rw [hc2def, hc3def]
      intro hcon
      exact (hXne x2 x3 hr2 hr3 h23) (cfun_inj 17 hp17 _ _ _ (hX0 x0 hr0)
        (hXne x2 x0 hr2 hr0 h20) (hXne x3 x0 hr3 hr0 h30) hcon)
    have hcne24 : c2 ≠ c4 := by
      rw [hc2def, hc4def]
      intro hcon
      exact (hXne x2 x4 hr2 hr4 h24) (cfun_inj 17 hp17 _ _ _ (hX0 x0 hr0)
        (hXne x2 x0 hr2 hr0 h20) (hXne x4 x0 hr4 hr0 h40) hcon)
    have hcne34 : c3 ≠ c4 := by
      rw [hc3def, hc4def]
      intro hcon
      exact (hXne x3 x4 hr3 hr4 h34) (cfun_inj 17 hp17 _ _ _ (hX0 x0 hr0)
        (hXne x3 x0 hr3 hr0 h30) (hXne x4 x0 hr4 hr0 h40) hcon)
    have hmul_12_13 : c1 * c2 ≠ c1 * c3 := fun hcon => hcne23 (mul_left_cancel₀ hcnz1 hcon)
    have hmul_12_14 : c1 * c2 ≠ c1 * c4 := fun hcon => hcne24 (mul_left_cancel₀ hcnz1 hcon)
    have hmul_12_23 : c1 * c2 ≠ c2 * c3 := by
      rw [mul_comm c1 c2]; exact fun hcon => hcne13 (mul_left_cancel₀ hcnz2 hcon)
    have hmul_12_24 : c1 * c2 ≠ c2 * c4 := by
      rw [mul_comm c1 c2]; exact fun hcon => hcne14 (mul_left_cancel₀ hcnz2 hcon)
    have hmul_13_14 : c1 * c3 ≠ c1 * c4 := fun hcon => hcne34 (mul_left_cancel₀ hcnz1 hcon)
    have hmul_13_23 : c1 * c3 ≠ c2 * c3 := fun hcon => hcne12 (mul_right_cancel₀ hcnz3 hcon)
    have hmul_13_34 : c1 * c3 ≠ c3 * c4 := by
      rw [mul_comm c1 c3]; exact fun hcon => hcne14 (mul_left_cancel₀ hcnz3 hcon)
    have hmul_14_24 : c1 * c4 ≠ c2 * c4 := fun hcon => hcne12 (mul_right_cancel₀ hcnz4 hcon)
    have hmul_14_34 : c1 * c4 ≠ c3 * c4 := fun hcon => hcne13 (mul_right_cancel₀ hcnz4 hcon)
    have hmul_23_24 : c2 * c3 ≠ c2 * c4 := fun hcon => hcne34 (mul_left_cancel₀ hcnz2 hcon)
    have hmul_23_34 : c2 * c3 ≠ c3 * c4 := by
      rw [mul_comm c2 c3]; exact fun hcon => hcne24 (mul_left_cancel₀ hcnz3 hcon)
    have hmul_24_34 : c2 * c4 ≠ c3 * c4 := fun hcon => hcne23 (mul_right_cancel₀ hcnz4 hcon)
    have hkne : ∀ (ra rb : Int) (qa qb : ZMod 17),
        ((ra : Int) : ZMod 17) = ((13 : Int) : ZMod 17) + qa * d →
        ((rb : Int) : ZMod 17) = ((13 : Int) : ZMod 17) + qb * d → qa ≠ qb →
        ¬ ra = rb ∧ ¬ rb = ra := by
      intro ra rb qa qb ha hb hq
      have hne1 : ¬ ra = rb := by
        intro hcon
        apply hq
        apply mul_right_cancel₀ hdne
        have h2 : ((ra : Int) : ZMod 17) = ((rb : Int) : ZMod 17) := by rw [hcon]
        rw [ha, hb] at h2
        exact add_left_cancel h2
      exact ⟨hne1, fun hcon => hne1 hcon.symm⟩
    have hb13 : ∀ (r : Int) (q1 q2 : ZMod 17),
        ((r : Int) : ZMod 17) = ((13 : Int) : ZMod 17) + q1 * q2 * d →
        q1 ≠ 0 → q2 ≠ 0 → ¬ r = 13 ∧ ¬ (13 : Int) = r := by
      intro r q1 q2 hr hq1 hq2
      have hne1 : ¬ r = 13 := by
        intro hcon
        rw [hcon] at hr
        exact (mul_ne_zero (mul_ne_zero hq1 hq2) hdne) (self_eq_add_right.mp hr)
      exact ⟨hne1, fun hcon => hne1 hcon.symm⟩
    have hk01 := hkne r0 r1 (c1 * c2) (c1 * c3) hc0 hc1 hmul_12_13
    have hk02 := hkne r0 r2 (c1 * c2) (c1 * c4) hc0 hc2 hmul_12_14
    have hk03 := hkne r0 r3 (c1 * c2) (c2 * c3) hc0 hc3 hmul_12_23
    have hk04 := hkne r0 r4 (c1 * c2) (c2 * c4) hc0 hc4 hmul_12_24
    have hk12 := hkne r1 r2 (c1 * c3) (c1 * c4) hc1 hc2 hmul_13_14
    have hk13 := hkne r1 r3 (c1 * c3) (c2 * c3) hc1 hc3 hmul_13_23
    have hk15 := hkne r1 r5 (c1 * c3) (c3 * c4) hc1 hc5 hmul_13_34
    have hk24 := hkne r2 r4 (c1 * c4) (c2 * c4) hc2 hc4 hmul_14_24
    have hk25 := hkne r2 r5 (c1 * c4) (c3 * c4) hc2 hc5 hmul_14_34
    have hk34 := hkne r3 r4 (c2 * c3) (c2 * c4) hc3 hc4 hmul_23_24
    have hk35 := hkne r3 r5 (c2 * c3) (c3 * c4) hc3 hc5 hmul_23_34
    have hk45 := hkne r4 r5 (c2 * c4) (c3 * c4) hc4 hc5 hmul_24_34
    have hb0 := hb13 r0 c1 c2 hc0 hcnz1 hcnz2
    have hb1 := hb13 r1 c1 c3 hc1 hcnz1 hcnz3
    have hb2 := hb13 r2 c1 c4 hc2 hcnz1 hcnz4
    have hb3 := hb13 r3 c2 c3 hc3 hcnz2 hcnz3
    have hb4 := hb13 r4 c2 c4 hc4 hcnz2 hcnz4
    have hb5 := hb13 r5 c3 c4 hc5 hcnz3 hcnz4
    rw [h17] at hok0 hok1 hok2 hok3 hok4 hok5 hok6 hok7 hok8 hok9
    have hlen10 : (combos 3 [x0, x1, x2, x3, x4]).length = 10 := rfl
    have hcx : combos 3 [x0, x1, x2, x3, x4] =
        [[x0, x1, x2], [x0, x1, x3], [x0, x1, x4], [x0, x2, x3], [x0, x2, x4],
         [x0, x3, x4], [x1, x2, x3], [x1, x2, x4], [x1, x3, x4], [x2, x3, x4]] := rfl
    have hcy : combos 3 [y2, g x1, g x2, g x3, g x4] =
        [[y2, g x1, g x2], [y2, g x1, g x3], [y2, g x1, g x4], [y2, g x2, g x3],
         [y2, g x2, g x4], [y2, g x3, g x4], [g x1, g x2, g x3], [g x1, g x2, g x4],
         [g x1, g x3, g x4], [g x2, g x3, g x4]] := rfl
    have hK : ∀ i < (combos 3 [x0, x1, x2, x3, x4]).length,
        reconstruct_key 17 3 ((combos 3 [x0, x1, x2, x3, x4]).getD i [])
          ((combos 3 [y2, g x1, g x2, g x3, g x4]).getD i []) =
        .ok ([r0, r1, r2, r3, r4, r5, 13, 13, 13, 13].getD i 0) := by
      intro i hi
      rw [hlen10] at hi
      rw [hcx, hcy]
      interval_cases i
      · exact hok0
      · exact hok1
      · exact hok2
      · exact hok3
      · exact hok4
      · exact hok5
      · exact hok6
      · exact hok7
      · exact hok8
      · exact hok9
    have hE : entriesOf 3 [x0, x1, x2, x3, x4]
        (fun j => [r0, r1, r2, r3, r4, r5, 13, 13, 13, 13].getD j 0) =
        [([x0, x1, x2], r0), ([x0, x1, x3], r1), ([x0, x1, x4], r2),
         ([x0, x2, x3], r3), ([x0, x2, x4], r4), ([x0, x3, x4], r5),
         ([x1, x2, x3], 13), ([x1, x2, x4], 13), ([x1, x3, x4], 13),
         ([x2, x3, x4], 13)] := rfl
    refine ⟨?_, ?_⟩
    · rw [validate_shares_eval 17 3 [x0, x1, x2, x3, x4] [y2, g x1, g x2, g x3, g x4]
        (fun j => [r0, r1, r2, r3, r4, r5, 13, 13, 13, 13].getD j 0) rfl
        (by rw [hlen10]; norm_num) hK]
      have hdec : decide (∀ i ∈ List.range (combos 3 [x0, x1, x2, x3, x4]).length,
          [r0, r1, r2, r3, r4, r5, (13 : Int), 13, 13, 13].getD i 0 =
          [r0, r1, r2, r3, r4, r5, (13 : Int), 13, 13, 13].getD 0 0) = false := by
        apply decide_eq_false
        intro hall
        have h6 := hall 6 (List.mem_range.mpr (by rw [hlen10]; norm_num))
        exact hb0.2 h6
      exact congrArg Except.ok hdec
    · apply find_defective_resolves 17 3 [x0, x1, x2, x3, x4] [y2, g x1, g x2, g x3, g x4]
        (fun j => [r0, r1, r2, r3, r4, r5, 13, 13, 13, 13].getD j 0) rfl hK 13 x0
        [[x0, x1, x2], [x0, x1, x3], [x0, x1, x4], [x0, x2, x3], [x0, x2, x4], [x0, x3, x4]]
        [x0, x1, x2]
      · rw [hE]
        exact ⟨([x1, x2, x3], 13), by simp, rfl⟩
      · rw [hE]
        have hcnt13 : keyCount
            [([x0, x1, x2], r0), ([x0, x1, x3], r1), ([x0, x1, x4], r2),
             ([x0, x2, x3], r3), ([x0, x2, x4], r4), ([x0, x3, x4], r5),
             ([x1, x2, x3], (13 : Int)), ([x1, x2, x4], 13), ([x1, x3, x4], 13),
             ([x2, x3, x4], 13)] 13 = 4 := by
          simp [keyCount, List.count_cons, hb0.1, hb1.1, hb2.1, hb3.1, hb4.1, hb5.1]
        intro e he hne13
        rw [hcnt13]
        simp only [List.mem_cons, List.not_mem_nil, or_false] at he
        rcases he with rfl | rfl | rfl | rfl | rfl | rfl | rfl | rfl | rfl | rfl
        · simp only [keyCount, List.map_cons, List.map_nil, List.count_cons, List.count_nil,
            beq_iff_eq]
          simp [hk01.2, hk02.2, hk03.2, hk04.2, hb0.2]
          split_ifs <;> omega
        · simp only [keyCount, List.map_cons, List.map_nil, List.count_cons, List.count_nil,
            beq_iff_eq]
          simp [hk01.1, hk12.2, hk13.2, hk15.2, hb1.2]
          split_ifs <;> omega
        · simp only [keyCount, List.map_cons, List.map_nil, List.count_cons, List.count_nil,
            beq_iff_eq]
          simp [hk02.1, hk12.1, hk24.2, hk25.2, hb2.2]
          split_ifs <;> omega
        · simp only [keyCount, List.map_cons, List.map_nil, List.count_cons, List.count_nil,
            beq_iff_eq]
          simp [hk03.1, hk13.1, hk34.2, hk35.2, hb3.2]
          split_ifs <;> omega
        · simp only [keyCount, List.map_cons, List.map_nil, List.count_cons, List.count_nil,
            beq_iff_eq]
          simp [hk04.1, hk24.1, hk34.1, hk45.2, hb4.2]
          split_ifs <;> omega
        · simp only [keyCount, List.map_cons, List.map_nil, List.count_cons, List.count_nil,
            beq_iff_eq]
          simp [hk15.1, hk25.1, hk35.1, hk45.1, hb5.2]
          split_ifs <;> omega
        · exact absurd rfl hne13
        · exact absurd rfl hne13
        · exact absurd rfl hne13
        · exact absurd rfl hne13
      · rw [hE]
        simp [List.filter_cons, hb0.1, hb1.1, hb2.1, hb3.1, hb4.1, hb5.1]
      · simp
      · rfl
      · have hded : ([x0, x1, x2] : List Int).dedup = [x0, x1, x2] := by
          rw [List.dedup_cons_of_not_mem (by simp [h01, h02]),
            List.dedup_cons_of_not_mem (by simp [h12])]
          simp
        rw [hded]
        simp only [List.filter_cons, List.filter_nil, List.all_cons, List.all_nil,
          List.mem_cons, List.not_mem_nil]
        simp [h10, h12, h13, h20, h21, h23]
  · -- pos = 1
    rw [show ([g x0, g x1, g x2, g x3, g x4].set 1 y2) = [g x0, y2, g x2, g x3, g x4] from rfl]
    rw [show ([x0, x1, x2, x3, x4].getD 1 0) = x1 from rfl]
    have hnegx : y2 ≠ g x1 := by simpa using hne
    set d : ZMod 17 := ((y2 : Int) : ZMod 17) - hornerZ 17 cs ((x1 : Int) : ZMod 17) with hddef
    have hdy : ((y2 : Int) : ZMod 17) = hornerZ 17 cs ((x1 : Int) : ZMod 17) +
        (if ((x1 : Int) : ZMod 17) = ((x1 : Int) : ZMod 17) then d else 0) := by
      rw [if_pos rfl, hddef]
      ring
    have hdne : d ≠ 0 := by
      rw [hddef]
      apply sub_ne_zero_of_ne
      intro hcon
      apply hnegx
      apply int_eq_of_zmod_eq ⟨hy2.1, by rw [h17]; exact hy2.2⟩
        ⟨(hgrange x1).1, by rw [h17]; exact (hgrange x1).2⟩
      rw [hcon, hcg x1]
    have hygood : ∀ (z : Int), 0 < z ∧ z < 17 → ¬ z = x1 →
        ((g z : Int) : ZMod 17) = hornerZ 17 cs ((z : Int) : ZMod 17) +
          (if ((z : Int) : ZMod 17) = ((x1 : Int) : ZMod 17) then d else 0) := by
      intro z hz hzx
      rw [if_neg (hXne z x1 hz hr1 hzx), hcg, add_zero]
    obtain ⟨r0, hok0, hge0, hlt0, hc0⟩ := key_of_triple 17 hp17 x0 x1 x2 (g x0) y2 (g x2)
      hr0' hr1' hr2' h01 h02 h12 cs hcs3 x1 d
      (hygood x0 hr0 h01) hdy (hygood x2 hr2 h21)
    obtain ⟨r1, hok1, hge1, hlt1, hc1⟩ := key_of_triple 17 hp17 x0 x1 x3 (g x0) y2 (g x3)
      hr0' hr1' hr3' h01 h03 h13 cs hcs3 x1 d
      (hygood x0 hr0 h01) hdy (hygood x3 hr3 h31)
    obtain ⟨r2, hok2, hge2, hlt2, hc2⟩ := key_of_triple 17 hp17 x0 x1 x4 (g x0) y2 (g x4)
      hr0' hr1' hr4' h01 h04 h14 cs hcs3 x1 d
      (hygood x0 hr0 h01) hdy (hygood x4 hr4 h41)
    obtain ⟨r3, hok3, hge3, hlt3, hc3⟩ := key_of_triple 17 hp17 x0 x2 x3 (g x0) (g x2) (g x3)
      hr0' hr2' hr3' h02 h03 h23 cs hcs3 x1 d
      (hygood x0 hr0 h01) (hygood x2 hr2 h21) (hygood x3 hr3 h31)
    obtain ⟨r4, hok4, hge4, hlt4, hc4⟩ := key_of_triple 17 hp17 x0 x2 x4 (g x0) (g x2) (g x4)
      hr0' hr2' hr4' h02 h04 h24 cs hcs3 x1 d
      (hygood x0 hr0 h01) (hygood x2 hr2 h21) (hygood x4 hr4 h41)
    obtain ⟨r5, hok5, hge5, hlt5, hc5⟩ := key_of_triple 17 hp17 x0 x3 x4 (g x0) (g x3) (g x4)
      hr0' hr3' hr4' h03 h04 h34 cs hcs3 x1 d
      (hygood x0 hr0 h01) (hygood x3 hr3 h31) (hygood x4 hr4 h41)
    obtain ⟨r6, hok6, hge6, hlt6, hc6⟩ := key_of_triple 17 hp17 x1 x2 x3 y2 (g x2) (g x3)
      hr1' hr2' hr3' h12 h13 h23 cs hcs3 x1 d
      hdy (hygood x2 hr2 h21) (hygood x3 hr3 h31)
    obtain ⟨r7, hok7, hge7, hlt7, hc7⟩ := key_of_triple 17 hp17 x1 x2 x4 y2 (g x2) (g x4)
      hr1' hr2' hr4' h12 h14 h24 cs hcs3 x1 d
      hdy (hygood x2 hr2 h21) (hygood x4 hr4 h41)
    obtain ⟨r8, hok8, hge8, hlt8, hc8⟩ := key_of_triple 17 hp17 x1 x3 x4 y2 (g x3) (g x4)
      hr1' hr3' hr4' h13 h14 h34 cs hcs3 x1 d
      hdy (hygood x3 hr3 h31) (hygood x4 hr4 h41)
    obtain ⟨r9, hok9, hge9, hlt9, hc9⟩ := key_of_triple 17 hp17 x2 x3 x4 (g x2) (g x3) (g x4)
      hr2' hr3' hr4' h23 h24 h34 cs hcs3 x1 d
      (hygood x2 hr2 h21) (hygood x3 hr3 h31) (hygood x4 hr4 h41)
    rw [if_pos (by simp), triple_comm_mid ((x0 : Int) : ZMod 17) ((x1 : Int) : ZMod 17) ((x2 : Int) : ZMod 17),
      wZ_triple 17 _ _ _ (hXne x1 x0 hr1 hr0 h10)
      (hXne x1 x2 hr1 hr2 h12) (hXne x0 x2 hr0 hr2 h02), h13cast] at hc0
    rw [if_pos (by simp), triple_comm_mid ((x0 : Int) : ZMod 17) ((x1 : Int) : ZMod 17) ((x3 : Int) : ZMod 17),
      wZ_triple 17 _ _ _ (hXne x1 x0 hr1 hr0 h10)
      (hXne x1 x3 hr1 hr3 h13) (hXne x0 x3 hr0 hr3 h03), h13cast] at hc1
    rw [if_pos (by simp), triple_comm_mid ((x0 : Int) : ZMod 17) ((x1 : Int) : ZMod 17) ((x4 : Int) : ZMod 17),
      wZ_triple 17 _ _ _ (hXne x1 x0 hr1 hr0 h10)
      (hXne x1 x4 hr1 hr4 h14) (hXne x0 x4 hr0 hr4 h04), h13cast] at hc2
    rw [if_neg (by simp [hXne x1 x0 hr1 hr0 h10, hXne x1 x2 hr1 hr2 h12,
      hXne x1 x3 hr1 hr3 h13]), add_zero, h13cast] at hc3
    rw [if_neg (by simp [hXne x1 x0 hr1 hr0 h10, hXne x1 x2 hr1 hr2 h12,
      hXne x1 x4 hr1 hr4 h14]), add_zero, h13cast] at hc4
    rw [if_neg (by simp [hXne x1 x0 hr1 hr0 h10, hXne x1 x3 hr1 hr3 h13,
      hXne x1 x4 hr1 hr4 h14]), add_zero, h13cast] at hc5
    rw [if_pos (by simp), wZ_triple 17 _ _ _ (hXne x1 x2 hr1 hr2 h12)
      (hXne x1 x3 hr1 hr3 h13) (hXne x2 x3 hr2 hr3 h23), h13cast] at hc6
    rw [if_pos (by simp), wZ_triple 17 _ _ _ (hXne x1 x2 hr1 hr2 h12)
      (hXne x1 x4 hr1 hr4 h14) (hXne x2 x4 hr2 hr4 h24), h13cast] at hc7
    rw [if_pos (by simp), wZ_triple 17 _ _ _ (hXne x1 x3 hr1 hr3 h13)
      (hXne x1 x4 hr1 hr4 h14) (hXne x3 x4 hr3 hr4 h34), h13cast] at hc8
    rw [if_neg (by simp [hXne x1 x2 hr1 hr2 h12, hXne x1 x3 hr1 hr3 h13,
      hXne x1 x4 hr1 hr4 h14]), add_zero, h13cast] at hc9
    have he3 : r3 = 13 := hkey13 r3 hge3 hlt3 hc3
    have he4 : r4 = 13 := hkey13 r4 hge4 hlt4 hc4
    have he5 : r5 = 13 := hkey13 r5 hge5 hlt5 hc5
    have he9 : r9 = 13 := hkey13 r9 hge9 hlt9 hc9
    subst he3 he4 he5 he9
    set c0 : ZMod 17 := ((x0 : Int) : ZMod 17) *
      (((x0 : Int) : ZMod 17) - ((x1 : Int) : ZMod 17))⁻¹ with hcd0
    set c2 : ZMod 17 := ((x2 : Int) : ZMod 17) *
      (((x2 : Int) : ZMod 17) - ((x1 : Int) : ZMod 17))⁻¹ with hcd2
    set c3 : ZMod 17 := ((x3 : Int) : ZMod 17) *
      (((x3 : Int) : ZMod 17) - ((x1 : Int) : ZMod 17))⁻¹ with hcd3
    set c4 : ZMod 17 := ((x4 : Int) : ZMod 17) *
      (((x4 : Int) : ZMod 17) - ((x1 : Int) : ZMod 17))⁻¹ with hcd4
    have hcnz0 : c0 ≠ 0 := by
      rw [hcd0]; exact cfun_ne_zero 17 hp17 _ _ (hX0 x0 hr0) (hXne x0 x1 hr0 hr1 h01)
    have hcnz2 : c2 ≠ 0 := by
      rw [hcd2]; exact cfun_ne_zero 17 hp17 _ _ (hX0 x2 hr2) (hXne x2 x1 hr2 hr1 h21)
    have hcnz3 : c3 ≠ 0 := by
      rw [hcd3]; exact cfun_ne_zero 17 hp17 _ _ (hX0 x3 hr3) (hXne x3 x1 hr3 hr1 h31)
    have hcnz4 : c4 ≠ 0 := by
      rw [hcd4]; exact cfun_ne_zero 17 hp17 _ _ (hX0 x4 hr4) (hXne x4 x1 hr4 hr1 h41)
    have hcne02 : c0 ≠ c2 := by
      rw [hcd0, hcd2]
      intro hcon
      exact (hXne x0 x2 hr0 hr2 h02) (cfun_inj 17 hp17 _ _ _ (hX0 x1 hr1)
        (hXne x0 x1 hr0 hr1 h01) (hXne x2 x1 hr2 hr1 h21) hcon)
    have hcne03 : c0 ≠ c3 := by
      rw [hcd0, hcd3]
      intro hcon
      exact (hXne x0 x3 hr0 hr3 h03) (cfun_inj 17 hp17 _ _ _ (hX0 x1 hr1)
        (hXne x0 x1 hr0 hr1 h01) (hXne x3 x1 hr3 hr1 h31) hcon)
    have hcne04 : c0 ≠ c4 := by
      rw [hcd0, hcd4]
      intro hcon
      exact (hXne x0 x4 hr0 hr4 h04) (cfun_inj 17 hp17 _ _ _ (hX0 x1 hr1)
        (hXne x0 x1 hr0 hr1 h01) (hXne x4 x1 hr4 hr1 h41) hcon)
    have hcne23 : c2 ≠ c3 := by
      rw [hcd2, hcd3]
      intro hcon
      exact (hXne x2 x3 hr2 hr3 h23) (cfun_inj 17 hp17 _ _ _ (hX0 x1 hr1)
        (hXne x2 x1 hr2 hr1 h21) (hXne x3 x1 hr3 hr1 h31) hcon)
    have hcne24 : c2 ≠ c4 := by
      rw [hcd2, hcd4]
      intro hcon
      exact (hXne x2 x4 hr2 hr4 h24) (cfun_inj 17 hp17 _ _ _ (hX0 x1 hr1)
        (hXne x2 x1 hr2 hr1 h21) (hXne x4 x1 hr4 hr1 h41) hcon)
    have hcne34 : c3 ≠ c4 := by
      rw [hcd3, hcd4]
      intro hcon
      exact (hXne x3 x4 hr3 hr4 h34) (cfun_inj 17 hp17 _ _ _ (hX0 x1 hr1)
        (hXne x3 x1 hr3 hr1 h31) (hXne x4 x1 hr4 hr1 h41) hcon)
    have hmul_02_03 : c0 * c2 ≠ c0 * c3 := by
      exact fun hcon => hcne23 (mul_left_cancel₀ hcnz0 hcon)
    have hmul_02_04 : c0 * c2 ≠ c0 * c4 := by
      exact fun hcon => hcne24 (mul_left_cancel₀ hcnz0 hcon)
    have hmul_02_23 : c0 * c2 ≠ c2 * c3 := by
      rw [mul_comm c0 c2]
      exact fun hcon => hcne03 (mul_left_cancel₀ hcnz2 hcon)
    have hmul_02_24 : c0 * c2 ≠ c2 * c4 := by
      rw [mul_comm c0 c2]
      exact fun hcon => hcne04 (mul_left_cancel₀ hcnz2 hcon)
    have hmul_03_04 : c0 * c3 ≠ c0 * c4 := by
      exact fun hcon => hcne34 (mul_left_cancel₀ hcnz0 hcon)
    have hmul_03_23 : c0 * c3 ≠ c2 * c3 := by
      exact fun hcon => hcne02 (mul_right_cancel₀ hcnz3 hcon)
    have hmul_03_34 : c0 * c3 ≠ c3 * c4 := by
      rw [mul_comm c0 c3]
      exact fun hcon => hcne04 (mul_left_cancel₀ hcnz3 hcon)
    have hmul_04_24 : c0 * c4 ≠ c2 * c4 := by
      exact fun hcon => hcne02 (mul_right_cancel₀ hcnz4 hcon)
    have hmul_04_34 : c0 * c4 ≠ c3 * c4 := by
      exact fun hcon => hcne03 (mul_right_cancel₀ hcnz4 hcon)
    have hmul_23_24 : c2 * c3 ≠ c2 * c4 := by
      exact fun hcon => hcne34 (mul_left_cancel₀ hcnz2 hcon)
    have hmul_23_34 : c2 * c3 ≠ c3 * c4 := by
      rw [mul_comm c2 c3]
      exact fun hcon => hcne24 (mul_left_cancel₀ hcnz3 hcon)
    have hmul_24_34 : c2 * c4 ≠ c3 * c4 := by
      exact fun hcon => hcne23 (mul_right_cancel₀ hcnz4 hcon)
    have hkne : ∀ (ra rb : Int) (qa qb : ZMod 17),
        ((ra : Int) : ZMod 17) = ((13 : Int) : ZMod 17) + qa * d →
        ((rb : Int) : ZMod 17) = ((13 : Int) : ZMod 17) + qb * d → qa ≠ qb →
        ¬ ra = rb ∧ ¬ rb = ra := by
      intro ra rb qa qb ha hb hq
      have hne1 : ¬ ra = rb := by
        intro hcon
        apply hq
        apply mul_right_cancel₀ hdne
        have h2 : ((ra : Int) : ZMod 17) = ((rb : Int) : ZMod 17) := by rw [hcon]
        rw [ha, hb] at h2
        exact add_left_cancel h2
      exact ⟨hne1, fun hcon => hne1 hcon.symm⟩
    have hb13 : ∀ (r : Int) (q1 q2 : ZMod 17),
        ((r : Int) : ZMod 17) = ((13 : Int) : ZMod 17) + q1 * q2 * d →
        q1 ≠ 0 → q2 ≠ 0 → ¬ r = 13 ∧ ¬ (13 : Int) = r := by
      intro r q1 q2 hr hq1 hq2
      have hne1 : ¬ r = 13 := by
        intro hcon
        rw [hcon] at hr
        exact (mul_ne_zero (mul_ne_zero hq1 hq2) hdne) (self_eq_add_right.mp hr)
      exact ⟨hne1, fun hcon => hne1 hcon.symm⟩
    have hk01 := hkne r0 r1 (c0 * c2) (c0 * c3) hc0 hc1 hmul_02_03
    have hk02 := hkne r0 r2 (c0 * c2) (c0 * c4) hc0 hc2 hmul_02_04
    have hk06 := hkne r0 r6 (c0 * c2) (c2 * c3) hc0 hc6 hmul_02_23
    have hk07 := hkne r0 r7 (c0 * c2) (c2 * c4) hc0 hc7 hmul_02_24
    have hk12 := hkne r1 r2 (c0 * c3) (c0 * c4) hc1 hc2 hmul_03_04
    have hk16 := hkne r1 r6 (c0 * c3) (c2 * c3) hc1 hc6 hmul_03_23
    have hk18 := hkne r1 r8 (c0 * c3) (c3 * c4) hc1 hc8 hmul_03_34
    have hk27 := hkne r2 r7 (c0 * c4) (c2 * c4) hc2 hc7 hmul_04_24
    have hk28 := hkne r2 r8 (c0 * c4) (c3 * c4) hc2 hc8 hmul_04_34
    have hk67 := hkne r6 r7 (c2 * c3) (c2 * c4) hc6 hc7 hmul_23_24
    have hk68 := hkne r6 r8 (c2 * c3) (c3 * c4) hc6 hc8 hmul_23_34
    have hk78 := hkne r7 r8 (c2 * c4) (c3 * c4) hc7 hc8 hmul_24_34
    have hb0 := hb13 r0 c0 c2 hc0 hcnz0 hcnz2
    have hb1 := hb13 r1 c0 c3 hc1 hcnz0 hcnz3
    have hb2 := hb13 r2 c0 c4 hc2 hcnz0 hcnz4
    have hb6 := hb13 r6 c2 c3 hc6 hcnz2 hcnz3
    have hb7 := hb13 r7 c2 c4 hc7 hcnz2 hcnz4
    have hb8 := hb13 r8 c3 c4 hc8 hcnz3 hcnz4
    rw [h17] at hok0 hok1 hok2 hok3 hok4 hok5 hok6 hok7 hok8 hok9
    have hlen10 : (combos 3 [x0, x1, x2, x3, x4]).length = 10 := rfl
    have hcx : combos 3 [x0, x1, x2, x3, x4] =
        [[x0, x1, x2], [x0, x1, x3], [x0, x1, x4], [x0, x2, x3], [x0, x2, x4], [x0, x3, x4], [x1, x2, x3], [x1, x2, x4], [x1, x3, x4], [x2, x3, x4]] := rfl
    have hcy : combos 3 [g x0, y2, g x2, g x3, g x4] =
        [[g x0, y2, g x2], [g x0, y2, g x3], [g x0, y2, g x4], [g x0, g x2, g x3], [g x0, g x2, g x4], [g x0, g x3, g x4], [y2, g x2, g x3], [y2, g x2, g x4], [y2, g x3, g x4], [g x2, g x3, g x4]] := rfl
    have hK : ∀ i < (combos 3 [x0, x1, x2, x3, x4]).length,
        reconstruct_key 17 3 ((combos 3 [x0, x1, x2, x3, x4]).getD i [])
          ((combos 3 [g x0, y2, g x2, g x3, g x4]).getD i []) =
        .ok ([r0, r1, r2, 13, 13, 13, r6, r7, r8, 13].getD i 0) := by
      intro i hi
      rw [hlen10] at hi
      rw [hcx, hcy]
      interval_cases i
      · exact hok0
      · exact hok1
      · exact hok2
      · exact hok3
      · exact hok4
      · exact hok5
      · exact hok6
      · exact hok7
      · exact hok8
      · exact hok9
    have hE : entriesOf 3 [x0, x1, x2, x3, x4]
        (fun j => [r0, r1, r2, 13, 13, 13, r6, r7, r8, 13].getD j 0) =
        [([x0, x1, x2], r0), ([x0, x1, x3], r1), ([x0, x1, x4], r2), ([x0, x2, x3], 13), ([x0, x2, x4], 13), ([x0, x3, x4], 13), ([x1, x2, x3], r6), ([x1, x2, x4], r7), ([x1, x3, x4], r8), ([x2, x3, x4], 13)] := rfl
    refine ⟨?_, ?_⟩
    · have hdec : decide (∀ i ∈ List.range (combos 3 [x0, x1, x2, x3, x4]).length,
          ([r0, r1, r2, 13, 13, 13, r6, r7, r8, 13] : List Int).getD i 0 =
          ([r0, r1, r2, 13, 13, 13, r6, r7, r8, 13] : List Int).getD 0 0) = false := by
        apply decide_eq_false
        intro hall
        have h6 := hall 3 (List.mem_range.mpr (by rw [hlen10]; norm_num))
        exact hb0.2 h6
      rw [validate_shares_eval 17 3 [x0, x1, x2, x3, x4] [g x0, y2, g x2, g x3, g x4]
        (fun j => [r0, r1, r2, 13, 13, 13, r6, r7, r8, 13].getD j 0) rfl
        (by rw [hlen10]; norm_num) hK]
      exact congrArg Except.ok hdec
    · apply find_defective_resolves 17 3 [x0, x1, x2, x3, x4] [g x0, y2, g x2, g x3, g x4]
        (fun j => [r0, r1, r2, 13, 13, 13, r6, r7, r8, 13].getD j 0) rfl hK 13 x1
        [[x0, x1, x2], [x0, x1, x3], [x0, x1, x4], [x1, x2, x3], [x1, x2, x4], [x1, x3, x4]]
        [x0, x1, x2]
      · rw [hE]
        exact ⟨([x0, x2, x3], 13), by simp, rfl⟩
      · rw [hE]
        have hcnt13 : keyCount
            [([x0, x1, x2], r0), ([x0, x1, x3], r1), ([x0, x1, x4], r2), ([x0, x2, x3], (13 : Int)), ([x0, x2, x4], 13), ([x0, x3, x4], 13), ([x1, x2, x3], r6), ([x1, x2, x4], r7), ([x1, x3, x4], r8), ([x2, x3, x4], 13)] 13 = 4 := by
          simp [keyCount, List.count_cons, hb0.1, hb1.1, hb2.1, hb6.1, hb7.1, hb8.1]
        intro e he hne13
        rw [hcnt13]
        simp only [List.mem_cons, List.not_mem_nil, or_false] at he
        rcases he with rfl | rfl | rfl | rfl | rfl | rfl | rfl | rfl | rfl | rfl
        · simp only [keyCount, List.map_cons, List.map_nil, List.count_cons, List.count_nil,
            beq_iff_eq]
          simp [hk01.2, hk02.2, hk06.2, hk07.2, hb0.2]
          split_ifs <;> omega
        · simp only [keyCount, List.map_cons, List.map_nil, List.count_cons, List.count_nil,
            beq_iff_eq]
          simp [hk01.1, hk12.2, hk16.2, hk18.2, hb1.2]
          split_ifs <;> omega
        · simp only [keyCount, List.map_cons, List.map_nil, List.count_cons, List.count_nil,
            beq_iff_eq]
          simp [hk02.1, hk12.1, hk27.2, hk28.2, hb2.2]
          split_ifs <;> omega
        · exact absurd rfl hne13
        · exact absurd rfl hne13
        · exact absurd rfl hne13
        · simp only [keyCount, List.map_cons, List.map_nil, List.count_cons, List.count_nil,
            beq_iff_eq]
          simp [hk06.1, hk16.1, hk67.2, hk68.2, hb6.2]
          split_ifs <;> omega
        · simp only [keyCount, List.map_cons, List.map_nil, List.count_cons, List.count_nil,
            beq_iff_eq]
          simp [hk07.1, hk27.1, hk67.1, hk78.2, hb7.2]
          split_ifs <;> omega
        · simp only [keyCount, List.map_cons, List.map_nil, List.count_cons, List.count_nil,
            beq_iff_eq]
          simp [hk18.1, hk28.1, hk68.1, hk78.1, hb8.2]
          split_ifs <;> omega
        · exact absurd rfl hne13
      · rw [hE]
        simp [List.filter_cons, hb0.1, hb1.1, hb2.1, hb6.1, hb7.1, hb8.1]
      · simp
      · rfl
      · have hded : ([x0, x1, x2] : List Int).dedup = [x0, x1, x2] := by
          rw [List.dedup_cons_of_not_mem (by simp [h01, h02]),
            List.dedup_cons_of_not_mem (by simp [h12])]
          simp
        rw [hded]
        simp only [List.filter_cons, List.filter_nil, List.all_cons, List.all_nil,
          List.mem_cons, List.not_mem_nil]
        simp [h01, h02, h03, h04, h10, h12, h13, h14, h20, h21, h23, h24, h30, h31, h32, h34, h40, h41, h42, h43]

  · -- pos = 2
    rw [show ([g x0, g x1, g x2, g x3, g x4].set 2 y2) = [g x0, g x1, y2, g x3, g x4] from rfl]
    rw [show ([x0, x1, x2, x3, x4].getD 2 0) = x2 from rfl]
    have hnegx : y2 ≠ g x2 := by simpa using hne
    set d : ZMod 17 := ((y2 : Int) : ZMod 17) - hornerZ 17 cs ((x2 : Int) : ZMod 17) with hddef
    have hdy : ((y2 : Int) : ZMod 17) = hornerZ 17 cs ((x2 : Int) : ZMod 17) +
        (if ((x2 : Int) : ZMod 17) = ((x2 : Int) : ZMod 17) then d else 0) := by
      rw [if_pos rfl, hddef]
      ring
    have hdne : d ≠ 0 := by
      rw [hddef]
      apply sub_ne_zero_of_ne
      intro hcon
      apply hnegx
      apply int_eq_of_zmod_eq ⟨hy2.1, by rw [h17]; exact hy2.2⟩
        ⟨(hgrange x2).1, by rw [h17]; exact (hgrange x2).2⟩
      rw [hcon, hcg x2]
    have hygood : ∀ (z : Int), 0 < z ∧ z < 17 → ¬ z = x2 →
        ((g z : Int) : ZMod 17) = hornerZ 17 cs ((z : Int) : ZMod 17) +
          (if ((z : Int) : ZMod 17) = ((x2 : Int) : ZMod 17) then d else 0) := by
      intro z hz hzx
      rw [if_neg (hXne z x2 hz hr2 hzx), hcg, add_zero]
    obtain ⟨r0, hok0, hge0, hlt0, hc0⟩ := key_of_triple 17 hp17 x0 x1 x2 (g x0) (g x1) y2
      hr0' hr1' hr2' h01 h02 h12 cs hcs3 x2 d
      (hygood x0 hr0 h02) (hygood x1 hr1 h12) hdy
    obtain ⟨r1, hok1, hge1, hlt1, hc1⟩ := key_of_triple 17 hp17 x0 x1 x3 (g x0) (g x1) (g x3)
      hr0' hr1' hr3' h01 h03 h13 cs hcs3 x2 d
      (hygood x0 hr0 h02) (hygood x1 hr1 h12) (hygood x3 hr3 h32)
    obtain ⟨r2, hok2, hge2, hlt2, hc2⟩ := key_of_triple 17 hp17 x0 x1 x4 (g x0) (g x1) (g x4)
      hr0' hr1' hr4' h01 h04 h14 cs hcs3 x2 d
      (hygood x0 hr0 h02) (hygood x1 hr1 h12) (hygood x4 hr4 h42)
    obtain ⟨r3, hok3, hge3, hlt3, hc3⟩ := key_of_triple 17 hp17 x0 x2 x3 (g x0) y2 (g x3)
      hr0' hr2' hr3' h02 h03 h23 cs hcs3 x2 d
      (hygood x0 hr0 h02) hdy (hygood x3 hr3 h32)
    obtain ⟨r4, hok4, hge4, hlt4, hc4⟩ := key_of_triple 17 hp17 x0 x2 x4 (g x0) y2 (g x4)
      hr0' hr2' hr4' h02 h04 h24 cs hcs3 x2 d
      (hygood x0 hr0 h02) hdy (hygood x4 hr4 h42)
    obtain ⟨r5, hok5, hge5, hlt5, hc5⟩ := key_of_triple 17 hp17 x0 x3 x4 (g x0) (g x3) (g x4)
      hr0' hr3' hr4' h03 h04 h34 cs hcs3 x2 d
      (hygood x0 hr0 h02) (hygood x3 hr3 h32) (hygood x4 hr4 h42)
    obtain ⟨r6, hok6, hge6, hlt6, hc6⟩ := key_of_triple 17 hp17 x1 x2 x3 (g x1) y2 (g x3)
      hr1' hr2' hr3' h12 h13 h23 cs hcs3 x2 d
      (hygood x1 hr1 h12) hdy (hygood x3 hr3 h32)
    obtain ⟨r7, hok7, hge7, hlt7, hc7⟩ := key_of_triple 17 hp17 x1 x2 x4 (g x1) y2 (g x4)
      hr1' hr2' hr4' h12 h14 h24 cs hcs3 x2 d
      (hygood x1 hr1 h12) hdy (hygood x4 hr4 h42)
    obtain ⟨r8, hok8, hge8, hlt8, hc8⟩ := key_of_triple 17 hp17 x1 x3 x4 (g x1) (g x3) (g x4)
      hr1' hr3' hr4' h13 h14 h34 cs hcs3 x2 d
      (hygood x1 hr1 h12) (hygood x3 hr3 h32) (hygood x4 hr4 h42)
    obtain ⟨r9, hok9, hge9, hlt9, hc9⟩ := key_of_triple 17 hp17 x2 x3 x4 y2 (g x3) (g x4)
      hr2' hr3' hr4' h23 h24 h34 cs hcs3 x2 d
      hdy (hygood x3 hr3 h32) (hygood x4 hr4 h42)
    rw [if_pos (by simp), triple_comm_last ((x0 : Int) : ZMod 17) ((x1 : Int) : ZMod 17) ((x2 : Int) : ZMod 17),
      wZ_triple 17 _ _ _ (hXne x2 x0 hr2 hr0 h20)
      (hXne x2 x1 hr2 hr1 h21) (hXne x0 x1 hr0 hr1 h01), h13cast] at hc0
    rw [if_neg (by simp [hXne x2 x0 hr2 hr0 h20, hXne x2 x1 hr2 hr1 h21,
      hXne x2 x3 hr2 hr3 h23]), add_zero, h13cast] at hc1
    rw [if_neg (by simp [hXne x2 x0 hr2 hr0 h20, hXne x2 x1 hr2 hr1 h21,
      hXne x2 x4 hr2 hr4 h24]), add_zero, h13cast] at hc2
    rw [if_pos (by simp), triple_comm_mid ((x0 : Int) : ZMod 17) ((x2 : Int) : ZMod 17) ((x3 : Int) : ZMod 17),
      wZ_triple 17 _ _ _ (hXne x2 x0 hr2 hr0 h20)
      (hXne x2 x3 hr2 hr3 h23) (hXne x0 x3 hr0 hr3 h03), h13cast] at hc3
    rw [if_pos (by simp), triple_comm_mid ((x0 : Int) : ZMod 17) ((x2 : Int) : ZMod 17) ((x4 : Int) : ZMod 17),
      wZ_triple 17 _ _ _ (hXne x2 x0 hr2 hr0 h20)
      (hXne x2 x4 hr2 hr4 h24) (hXne x0 x4 hr0 hr4 h04), h13cast] at hc4
    rw [if_neg (by simp [hXne x2 x0 hr2 hr0 h20, hXne x2 x3 hr2 hr3 h23,
      hXne x2 x4 hr2 hr4 h24]), add_zero, h13cast] at hc5
    rw [if_pos (by simp), triple_comm_mid ((x1 : Int) : ZMod 17) ((x2 : Int) : ZMod 17) ((x3 : Int) : ZMod 17),
      wZ_triple 17 _ _ _ (hXne x2 x1 hr2 hr1 h21)
      (hXne x2 x3 hr2 hr3 h23) (hXne x1 x3 hr1 hr3 h13), h13cast] at hc6
    rw [if_pos (by simp), triple_comm_mid ((x1 : Int) : ZMod 17) ((x2 : Int) : ZMod 17) ((x4 : Int) : ZMod 17),
      wZ_triple 17 _ _ _ (hXne x2 x1 hr2 hr1 h21)
      (hXne x2 x4 hr2 hr4 h24) (hXne x1 x4 hr1 hr4 h14), h13cast] at hc7
    rw [if_neg (by simp [hXne x2 x1 hr2 hr1 h21, hXne x2 x3 hr2 hr3 h23,
      hXne x2 x4 hr2 hr4 h24]), add_zero, h13cast] at hc8
    rw [if_pos (by simp), wZ_triple 17 _ _ _ (hXne x2 x3 hr2 hr3 h23)
      (hXne x2 x4 hr2 hr4 h24) (hXne x3 x4 hr3 hr4 h34), h13cast] at hc9
    have he1 : r1 = 13 := hkey13 r1 hge1 hlt1 hc1
    have he2 : r2 = 13 := hkey13 r2 hge2 hlt2 hc2
    have he5 : r5 = 13 := hkey13 r5 hge5 hlt5 hc5
    have he8 : r8 = 13 := hkey13 r8 hge8 hlt8 hc8
    subst he1 he2 he5 he8
    set c0 : ZMod 17 := ((x0 : Int) : ZMod 17) *
      (((x0 : Int) : ZMod 17) - ((x2 : Int) : ZMod 17))⁻¹ with hcd0
    set c1 : ZMod 17 := ((x1 : Int) : ZMod 17) *
      (((x1 : Int) : ZMod 17) - ((x2 : Int) : ZMod 17))⁻¹ with hcd1
    set c3 : ZMod 17 := ((x3 : Int) : ZMod 17) *
      (((x3 : Int) : ZMod 17) - ((x2 : Int) : ZMod 17))⁻¹ with hcd3
    set c4 : ZMod 17 := ((x4 : Int) : ZMod 17) *
      (((x4 : Int) : ZMod 17) - ((x2 : Int) : ZMod 17))⁻¹ with hcd4
    have hcnz0 : c0 ≠ 0 := by
      rw [hcd0]; exact cfun_ne_zero 17 hp17 _ _ (hX0 x0 hr0) (hXne x0 x2 hr0 hr2 h02)
    have hcnz1 : c1 ≠ 0 := by
      rw [hcd1]; exact cfun_ne_zero 17 hp17 _ _ (hX0 x1 hr1) (hXne x1 x2 hr1 hr2 h12)
    have hcnz3 : c3 ≠ 0 := by
      rw [hcd3]; exact cfun_ne_zero 17 hp17 _ _ (hX0 x3 hr3) (hXne x3 x2 hr3 hr2 h32)
    have hcnz4 : c4 ≠ 0 := by
      rw [hcd4]; exact cfun_ne_zero 17 hp17 _ _ (hX0 x4 hr4) (hXne x4 x2 hr4 hr2 h42)
    have hcne01 : c0 ≠ c1 := by
      rw [hcd0, hcd1]
      intro hcon
      exact (hXne x0 x1 hr0 hr1 h01) (cfun_inj 17 hp17 _ _ _ (hX0 x2 hr2)
        (hXne x0 x2 hr0 hr2 h02) (hXne x1 x2 hr1 hr2 h12) hcon)
    have hcne03 : c0 ≠ c3 := by
      rw [hcd0, hcd3]
      intro hcon
      exact (hXne x0 x3 hr0 hr3 h03) (cfun_inj 17 hp17 _ _ _ (hX0 x2 hr2)
        (hXne x0 x2 hr0 hr2 h02) (hXne x3 x2 hr3 hr2 h32) hcon)
    have hcne04 : c0 ≠ c4 := by
      rw [hcd0, hcd4]
      intro hcon
      exact (hXne x0 x4 hr0 hr4 h04) (cfun_inj 17 hp17 _ _ _ (hX0 x2 hr2)
        (hXne x0 x2 hr0 hr2 h02) (hXne x4 x2 hr4 hr2 h42) hcon)
    have hcne13 : c1 ≠ c3 := by
      rw [hcd1, hcd3]
      intro hcon
      exact (hXne x1 x3 hr1 hr3 h13) (cfun_inj 17 hp17 _ _ _ (hX0 x2 hr2)
        (hXne x1 x2 hr1 hr2 h12) (hXne x3 x2 hr3 hr2 h32) hcon)
    have hcne14 : c1 ≠ c4 := by
      rw [hcd1, hcd4]
      intro hcon
      exact (hXne x1 x4 hr1 hr4 h14) (cfun_inj 17 hp17 _ _ _ (hX0 x2 hr2)
        (hXne x1 x2 hr1 hr2 h12) (hXne x4 x2 hr4 hr2 h42) hcon)
    have hcne34 : c3 ≠ c4 := by
      rw [hcd3, hcd4]
      intro hcon
      exact (hXne x3 x4 hr3 hr4 h34) (cfun_inj 17 hp17 _ _ _ (hX0 x2 hr2)
        (hXne x3 x2 hr3 hr2 h32) (hXne x4 x2 hr4 hr2 h42) hcon)
    have hmul_01_03 : c0 * c1 ≠ c0 * c3 := by
      exact fun hcon => hcne13 (mul_left_cancel₀ hcnz0 hcon)
    have hmul_01_04 : c0 * c1 ≠ c0 * c4 := by
      exact fun hcon => hcne14 (mul_left_cancel₀ hcnz0 hcon)
    have hmul_01_13 : c0 * c1 ≠ c1 * c3 := by
      rw [mul_comm c0 c1]
      exact fun hcon => hcne03 (mul_left_cancel₀ hcnz1 hcon)
    have hmul_01_14 : c0 * c1 ≠ c1 * c4 := by
      rw [mul_comm c0 c1]
      exact fun hcon => hcne04 (mul_left_cancel₀ hcnz1 hcon)
    have hmul_03_04 : c0 * c3 ≠ c0 * c4 := by
      exact fun hcon => hcne34 (mul_left_cancel₀ hcnz0 hcon)
    have hmul_03_13 : c0 * c3 ≠ c1 * c3 := by
      exact fun hcon => hcne01 (mul_right_cancel₀ hcnz3 hcon)
    have hmul_03_34 : c0 * c3 ≠ c3 * c4 := by
      rw [mul_comm c0 c3]
      exact fun hcon => hcne04 (mul_left_cancel₀ hcnz3 hcon)
    have hmul_04_14 : c0 * c4 ≠ c1 * c4 := by
      exact fun hcon => hcne01 (mul_right_cancel₀ hcnz4 hcon)
    have hmul_04_34 : c0 * c4 ≠ c3 * c4 := by
      exact fun hcon => hcne03 (mul_right_cancel₀ hcnz4 hcon)
    have hmul_13_14 : c1 * c3 ≠ c1 * c4 := by
      exact fun hcon => hcne34 (mul_left_cancel₀ hcnz1 hcon)
    have hmul_13_34 : c1 * c3 ≠ c3 * c4 := by
      rw [mul_comm c1 c3]
      exact fun hcon => hcne14 (mul_left_cancel₀ hcnz3 hcon)
    have hmul_14_34 : c1 * c4 ≠ c3 * c4 := by
      exact fun hcon => hcne13 (mul_right_cancel₀ hcnz4 hcon)
    have hkne : ∀ (ra rb : Int) (qa qb : ZMod 17),
        ((ra : Int) : ZMod 17) = ((13 : Int) : ZMod 17) + qa * d →
        ((rb : Int) : ZMod 17) = ((13 : Int) : ZMod 17) + qb * d → qa ≠ qb →
        ¬ ra = rb ∧ ¬ rb = ra := by
      intro ra rb qa qb ha hb hq
      have hne1 : ¬ ra = rb := by
        intro hcon
        apply hq
        apply mul_right_cancel₀ hdne
        have h2 : ((ra : Int) : ZMod 17) = ((rb : Int) : ZMod 17) := by rw [hcon]
        rw [ha, hb] at h2
        exact add_left_cancel h2
      exact ⟨hne1, fun hcon => hne1 hcon.symm⟩
    have hb13 : ∀ (r : Int) (q1 q2 : ZMod 17),
        ((r : Int) : ZMod 17) = ((13 : Int) : ZMod 17) + q1 * q2 * d →
        q1 ≠ 0 → q2 ≠ 0 → ¬ r = 13 ∧ ¬ (13 : Int) = r := by
      intro r q1 q2 hr hq1 hq2
      have hne1 : ¬ r = 13 := by
        intro hcon
        rw [hcon] at hr
        exact (mul_ne_zero (mul_ne_zero hq1 hq2) hdne) (self_eq_add_right.mp hr)
      exact ⟨hne1, fun hcon => hne1 hcon.symm⟩
    have hk03 := hkne r0 r3 (c0 * c1) (c0 * c3) hc0 hc3 hmul_01_03
    have hk04 := hkne r0 r4 (c0 * c1) (c0 * c4) hc0 hc4 hmul_01_04
    have hk06 := hkne r0 r6 (c0 * c1) (c1 * c3) hc0 hc6 hmul_01_13
    have hk07 := hkne r0 r7 (c0 * c1) (c1 * c4) hc0 hc7 hmul_01_14
    have hk34 := hkne r3 r4 (c0 * c3) (c0 * c4) hc3 hc4 hmul_03_04
    have hk36 := hkne r3 r6 (c0 * c3) (c1 * c3) hc3 hc6 hmul_03_13
    have hk39 := hkne r3 r9 (c0 * c3) (c3 * c4) hc3 hc9 hmul_03_34
    have hk47 := hkne r4 r7 (c0 * c4) (c1 * c4) hc4 hc7 hmul_04_14
    have hk49 := hkne r4 r9 (c0 * c4) (c3 * c4) hc4 hc9 hmul_04_34
    have hk67 := hkne r6 r7 (c1 * c3) (c1 * c4) hc6 hc7 hmul_13_14
    have hk69 := hkne r6 r9 (c1 * c3) (c3 * c4) hc6 hc9 hmul_13_34
    have hk79 := hkne r7 r9 (c1 * c4) (c3 * c4) hc7 hc9 hmul_14_34
    have hb0 := hb13 r0 c0 c1 hc0 hcnz0 hcnz1
    have hb3 := hb13 r3 c0 c3 hc3 hcnz0 hcnz3
    have hb4 := hb13 r4 c0 c4 hc4 hcnz0 hcnz4
    have hb6 := hb13 r6 c1 c3 hc6 hcnz1 hcnz3
    have hb7 := hb13 r7 c1 c4 hc7 hcnz1 hcnz4
    have hb9 := hb13 r9 c3 c4 hc9 hcnz3 hcnz4
    rw [h17] at hok0 hok1 hok2 hok3 hok4 hok5 hok6 hok7 hok8 hok9
    have hlen10 : (combos 3 [x0, x1, x2, x3, x4]).length = 10 := rfl
    have hcx : combos 3 [x0, x1, x2, x3, x4] =
        [[x0, x1, x2], [x0, x1, x3], [x0, x1, x4], [x0, x2, x3], [x0, x2, x4], [x0, x3, x4], [x1, x2, x3], [x1, x2, x4], [x1, x3, x4], [x2, x3, x4]] := rfl
    have hcy : combos 3 [g x0, g x1, y2, g x3, g x4] =
        [[g x0, g x1, y2], [g x0, g x1, g x3], [g x0, g x1, g x4], [g x0, y2, g x3], [g x0, y2, g x4], [g x0, g x3, g x4], [g x1, y2, g x3], [g x1, y2, g x4], [g x1, g x3, g x4], [y2, g x3, g x4]] := rfl
    have hK : ∀ i < (combos 3 [x0, x1, x2, x3, x4]).length,
        reconstruct_key 17 3 ((combos 3 [x0, x1, x2, x3, x4]).getD i [])
          ((combos 3 [g x0, g x1, y2, g x3, g x4]).getD i []) =
        .ok ([r0, 13, 13, r3, r4, 13, r6, r7, 13, r9].getD i 0) := by
      intro i hi
      rw [hlen10] at hi
      rw [hcx, hcy]
      interval_cases i
      · exact hok0
      · exact hok1
      · exact hok2
      · exact hok3
      · exact hok4
      · exact hok5
      · exact hok6
      · exact hok7
      · exact hok8
      · exact hok9
    have hE : entriesOf 3 [x0, x1, x2, x3, x4]
        (fun j => [r0, 13, 13, r3, r4, 13, r6, r7, 13, r9].getD j 0) =
        [([x0, x1, x2], r0), ([x0, x1, x3], 13), ([x0, x1, x4], 13), ([x0, x2, x3], r3), ([x0, x2, x4], r4), ([x0, x3, x4], 13), ([x1, x2, x3], r6), ([x1, x2, x4], r7), ([x1, x3, x4], 13), ([x2, x3, x4], r9)] := rfl
    refine ⟨?_, ?_⟩
    · have hdec : decide (∀ i ∈ List.range (combos 3 [x0, x1, x2, x3, x4]).length,
          ([r0, 13, 13, r3, r4, 13, r6, r7, 13, r9] : List Int).getD i 0 =
          ([r0, 13, 13, r3, r4, 13, r6, r7, 13, r9] : List Int).getD 0 0) = false := by
        apply decide_eq_false
        intro hall
        have h6 := hall 1 (List.mem_range.mpr (by rw [hlen10]; norm_num))
        exact hb0.2 h6
      rw [validate_shares_eval 17 3 [x0, x1, x2, x3, x4] [g x0, g x1, y2, g x3, g x4]
        (fun j => [r0, 13, 13, r3, r4, 13, r6, r7, 13, r9].getD j 0) rfl
        (by rw [hlen10]; norm_num) hK]
      exact congrArg Except.ok hdec
    · apply find_defective_resolves 17 3 [x0, x1, x2, x3, x4] [g x0, g x1, y2, g x3, g x4]
        (fun j => [r0, 13, 13, r3, r4, 13, r6, r7, 13, r9].getD j 0) rfl hK 13 x2
        [[x0, x1, x2], [x0, x2, x3], [x0, x2, x4], [x1, x2, x3], [x1, x2, x4], [x2, x3, x4]]
        [x0, x1, x2]
      · rw [hE]
        exact ⟨([x0, x1, x3], 13), by simp, rfl⟩
      · rw [hE]
        have hcnt13 : keyCount
            [([x0, x1, x2], r0), ([x0, x1, x3], (13 : Int)), ([x0, x1, x4], 13), ([x0, x2, x3], r3), ([x0, x2, x4], r4), ([x0, x3, x4], 13), ([x1, x2, x3], r6), ([x1, x2, x4], r7), ([x1, x3, x4], 13), ([x2, x3, x4], r9)] 13 = 4 := by
          simp [keyCount, List.count_cons, hb0.1, hb3.1, hb4.1, hb6.1, hb7.1, hb9.1]
        intro e he hne13
        rw [hcnt13]
        simp only [List.mem_cons, List.not_mem_nil, or_false] at he
        rcases he with rfl | rfl | rfl | rfl | rfl | rfl | rfl | rfl | rfl | rfl
        · simp only [keyCount, List.map_cons, List.map_nil, List.count_cons, List.count_nil,
            beq_iff_eq]
          simp [hk03.2, hk04.2, hk06.2, hk07.2, hb0.2]
          split_ifs <;> omega
        · exact absurd rfl hne13
        · exact absurd rfl hne13
        · simp only [keyCount, List.map_cons, List.map_nil, List.count_cons, List.count_nil,
            beq_iff_eq]
          simp [hk03.1, hk34.2, hk36.2, hk39.2, hb3.2]
          split_ifs <;> omega
        · simp only [keyCount, List.map_cons, List.map_nil, List.count_cons, List.count_nil,
            beq_iff_eq]
          simp [hk04.1, hk34.1, hk47.2, hk49.2, hb4.2]
          split_ifs <;> omega
        · exact absurd rfl hne13
        · simp only [keyCount, List.map_cons, List.map_nil, List.count_cons, List.count_nil,
            beq_iff_eq]
          simp [hk06.1, hk36.1, hk67.2, hk69.2, hb6.2]
          split_ifs <;> omega
        · simp only [keyCount, List.map_cons, List.map_nil, List.count_cons, List.count_nil,
            beq_iff_eq]
          simp [hk07.1, hk47.1, hk67.1, hk79.2, hb7.2]
          split_ifs <;> omega
        · exact absurd rfl hne13
        · simp only [keyCount, List.map_cons, List.map_nil, List.count_cons, List.count_nil,
            beq_iff_eq]
          simp [hk39.1, hk49.1, hk69.1, hk79.1, hb9.2]
          split_ifs <;> omega
      · rw [hE]
        simp [List.filter_cons, hb0.1, hb3.1, hb4.1, hb6.1, hb7.1, hb9.1]
      · simp
      · rfl
      · have hded : ([x0, x1, x2] : List Int).dedup = [x0, x1, x2] := by
          rw [List.dedup_cons_of_not_mem (by simp [h01, h02]),
            List.dedup_cons_of_not_mem (by simp [h12])]
          simp
        rw [hded]
        simp only [List.filter_cons, List.filter_nil, List.all_cons, List.all_nil,
          List.mem_cons, List.not_mem_nil]
        simp [h01, h02, h03, h04, h10, h12, h13, h14, h20, h21, h23, h24, h30, h31, h32, h34, h40, h41, h42, h43]

  · -- pos = 3
    rw [show ([g x0, g x1, g x2, g x3, g x4].set 3 y2) = [g x0, g x1, g x2, y2, g x4] from rfl]
    rw [show ([x0, x1, x2, x3, x4].getD 3 0) = x3 from rfl]
    have hnegx : y2 ≠ g x3 := by simpa using hne
    set d : ZMod 17 := ((y2 : Int) : ZMod 17) - hornerZ 17 cs ((x3 : Int) : ZMod 17) with hddef
    have hdy : ((y2 : Int) : ZMod 17) = hornerZ 17 cs ((x3 : Int) : ZMod 17) +
        (if ((x3 : Int) : ZMod 17) = ((x3 : Int) : ZMod 17) then d else 0) := by
      rw [if_pos rfl, hddef]
      ring
    have hdne : d ≠ 0 := by
      rw [hddef]
      apply sub_ne_zero_of_ne
      intro hcon
      apply hnegx
      apply int_eq_of_zmod_eq ⟨hy2.1, by rw [h17]; exact hy2.2⟩
        ⟨(hgrange x3).1, by rw [h17]; exact (hgrange x3).2⟩
      rw [hcon, hcg x3]
    have hygood : ∀ (z : Int), 0 < z ∧ z < 17 → ¬ z = x3 →
        ((g z : Int) : ZMod 17) = hornerZ 17 cs ((z : Int) : ZMod 17) +
          (if ((z : Int) : ZMod 17) = ((x3 : Int) : ZMod 17) then d else 0) := by
      intro z hz hzx
      rw [if_neg (hXne z x3 hz hr3 hzx), hcg, add_zero]
    obtain ⟨r0, hok0, hge0, hlt0, hc0⟩ := key_of_triple 17 hp17 x0 x1 x2 (g x0) (g x1) (g x2)
      hr0' hr1' hr2' h01 h02 h12 cs hcs3 x3 d
      (hygood x0 hr0 h03) (hygood x1 hr1 h13) (hygood x2 hr2 h23)
    obtain ⟨r1, hok1, hge1, hlt1, hc1⟩ := key_of_triple 17 hp17 x0 x1 x3 (g x0) (g x1) y2
      hr0' hr1' hr3' h01 h03 h13 cs hcs3 x3 d
      (hygood x0 hr0 h03) (hygood x1 hr1 h13) hdy
    obtain ⟨r2, hok2, hge2, hlt2, hc2⟩ := key_of_triple 17 hp17 x0 x1 x4 (g x0) (g x1) (g x4)
      hr0' hr1' hr4' h01 h04 h14 cs hcs3 x3 d
      (hygood x0 hr0 h03) (hygood x1 hr1 h13) (hygood x4 hr4 h43)
    obtain ⟨r3, hok3, hge3, hlt3, hc3⟩ := key_of_triple 17 hp17 x0 x2 x3 (g x0) (g x2) y2
      hr0' hr2' hr3' h02 h03 h23 cs hcs3 x3 d
      (hygood x0 hr0 h03) (hygood x2 hr2 h23) hdy
    obtain ⟨r4, hok4, hge4, hlt4, hc4⟩ := key_of_triple 17 hp17 x0 x2 x4 (g x0) (g x2) (g x4)
      hr0' hr2' hr4' h02 h04 h24 cs hcs3 x3 d
      (hygood x0 hr0 h03) (hygood x2 hr2 h23) (hygood x4 hr4 h43)
    obtain ⟨r5, hok5, hge5, hlt5, hc5⟩ := key_of_triple 17 hp17 x0 x3 x4 (g x0) y2 (g x4)
      hr0' hr3' hr4' h03 h04 h34 cs hcs3 x3 d
      (hygood x0 hr0 h03) hdy (hygood x4 hr4 h43)
    obtain ⟨r6, hok6, hge6, hlt6, hc6⟩ := key_of_triple 17 hp17 x1 x2 x3 (g x1) (g x2) y2
      hr1' hr2' hr3' h12 h13 h23 cs hcs3 x3 d
      (hygood x1 hr1 h13) (hygood x2 hr2 h23) hdy
    obtain ⟨r7, hok7, hge7, hlt7, hc7⟩ := key_of_triple 17 hp17 x1 x2 x4 (g x1) (g x2) (g x4)
      hr1' hr2' hr4' h12 h14 h24 cs hcs3 x3 d
      (hygood x1 hr1 h13) (hygood x2 hr2 h23) (hygood x4 hr4 h43)
    obtain ⟨r8, hok8, hge8, hlt8, hc8⟩ := key_of_triple 17 hp17 x1 x3 x4 (g x1) y2 (g x4)
      hr1' hr3' hr4' h13 h14 h34 cs hcs3 x3 d
      (hygood x1 hr1 h13) hdy (hygood x4 hr4 h43)
    obtain ⟨r9, hok9, hge9, hlt9, hc9⟩ := key_of_triple 17 hp17 x2 x3 x4 (g x2) y2 (g x4)
      hr2' hr3' hr4' h23 h24 h34 cs hcs3 x3 d
      (hygood x2 hr2 h23) hdy (hygood x4 hr4 h43)
    rw [if_neg (by simp [hXne x3 x0 hr3 hr0 h30, hXne x3 x1 hr3 hr1 h31,
      hXne x3 x2 hr3 hr2 h32]), add_zero, h13cast] at hc0
    rw [if_pos (by simp), triple_comm_last ((x0 : Int) : ZMod 17) ((x1 : Int) : ZMod 17) ((x3 : Int) : ZMod 17),
      wZ_triple 17 _ _ _ (hXne x3 x0 hr3 hr0 h30)
      (hXne x3 x1 hr3 hr1 h31) (hXne x0 x1 hr0 hr1 h01), h13cast] at hc1
    rw [if_neg (by simp [hXne x3 x0 hr3 hr0 h30, hXne x3 x1 hr3 hr1 h31,
      hXne x3 x4 hr3 hr4 h34]), add_zero, h13cast] at hc2
    rw [if_pos (by simp), triple_comm_last ((x0 : Int) : ZMod 17) ((x2 : Int) : ZMod 17) ((x3 : Int) : ZMod 17),
      wZ_triple 17 _ _ _ (hXne x3 x0 hr3 hr0 h30)
      (hXne x3 x2 hr3 hr2 h32) (hXne x0 x2 hr0 hr2 h02), h13cast] at hc3
    rw [if_neg (by simp [hXne x3 x0 hr3 hr0 h30, hXne x3 x2 hr3 hr2 h32,
      hXne x3 x4 hr3 hr4 h34]), add_zero, h13cast] at hc4
    rw [if_pos (by simp), triple_comm_mid ((x0 : Int) : ZMod 17) ((x3 : Int) : ZMod 17) ((x4 : Int) : ZMod 17),
      wZ_triple 17 _ _ _ (hXne x3 x0 hr3 hr0 h30)
      (hXne x3 x4 hr3 hr4 h34) (hXne x0 x4 hr0 hr4 h04), h13cast] at hc5
    rw [if_pos (by simp), triple_comm_last ((x1 : Int) : ZMod 17) ((x2 : Int) : ZMod 17) ((x3 : Int) : ZMod 17),
      wZ_triple 17 _ _ _ (hXne x3 x1 hr3 hr1 h31)
      (hXne x3 x2 hr3 hr2 h32) (hXne x1 x2 hr1 hr2 h12), h13cast] at hc6
    rw [if_neg (by simp [hXne x3 x1 hr3 hr1 h31, hXne x3 x2 hr3 hr2 h32,
      hXne x3 x4 hr3 hr4 h34]), add_zero, h13cast] at hc7
    rw [if_pos (by simp), triple_comm_mid ((x1 : Int) : ZMod 17) ((x3 : Int) : ZMod 17) ((x4 : Int) : ZMod 17),
      wZ_triple 17 _ _ _ (hXne x3 x1 hr3 hr1 h31)
      (hXne x3 x4 hr3 hr4 h34) (hXne x1 x4 hr1 hr4 h14), h13cast] at hc8
    rw [if_pos (by simp), triple_comm_mid ((x2 : Int) : ZMod 17) ((x3 : Int) : ZMod 17) ((x4 : Int) : ZMod 17),
      wZ_triple 17 _ _ _ (hXne x3 x2 hr3 hr2 h32)
      (hXne x3 x4 hr3 hr4 h34) (hXne x2 x4 hr2 hr4 h24), h13cast] at hc9
    have he0 : r0 = 13 := hkey13 r0 hge0 hlt0 hc0
    have he2 : r2 = 13 := hkey13 r2 hge2 hlt2 hc2
    have he4 : r4 = 13 := hkey13 r4 hge4 hlt4 hc4
    have he7 : r7 = 13 := hkey13 r7 hge7 hlt7 hc7
    subst he0 he2 he4 he7
    set c0 : ZMod 17 := ((x0 : Int) : ZMod 17) *
      (((x0 : Int) : ZMod 17) - ((x3 : Int) : ZMod 17))⁻¹ with hcd0
    set c1 : ZMod 17 := ((x1 : Int) : ZMod 17) *
      (((x1 : Int) : ZMod 17) - ((x3 : Int) : ZMod 17))⁻¹ with hcd1
    set c2 : ZMod 17 := ((x2 : Int) : ZMod 17) *
      (((x2 : Int) : ZMod 17) - ((x3 : Int) : ZMod 17))⁻¹ with hcd2
    set c4 : ZMod 17 := ((x4 : Int) : ZMod 17) *
      (((x4 : Int) : ZMod 17) - ((x3 : Int) : ZMod 17))⁻¹ with hcd4
    have hcnz0 : c0 ≠ 0 := by
      rw [hcd0]; exact cfun_ne_zero 17 hp17 _ _ (hX0 x0 hr0) (hXne x0 x3 hr0 hr3 h03)
    have hcnz1 : c1 ≠ 0 := by
      rw [hcd1]; exact cfun_ne_zero 17 hp17 _ _ (hX0 x1 hr1) (hXne x1 x3 hr1 hr3 h13)
    have hcnz2 : c2 ≠ 0 := by
      rw [hcd2]; exact cfun_ne_zero 17 hp17 _ _ (hX0 x2 hr2) (hXne x2 x3 hr2 hr3 h23)
    have hcnz4 : c4 ≠ 0 := by
      rw [hcd4]; exact cfun_ne_zero 17 hp17 _ _ (hX0 x4 hr4) (hXne x4 x3 hr4 hr3 h43)
    have hcne01 : c0 ≠ c1 := by
      rw [hcd0, hcd1]
      intro hcon
      exact (hXne x0 x1 hr0 hr1 h01) (cfun_inj 17 hp17 _ _ _ (hX0 x3 hr3)
        (hXne x0 x3 hr0 hr3 h03) (hXne x1 x3 hr1 hr3 h13) hcon)
    have hcne02 : c0 ≠ c2 := by
      rw [hcd0, hcd2]
      intro hcon
      exact (hXne x0 x2 hr0 hr2 h02) (cfun_inj 17 hp17 _ _ _ (hX0 x3 hr3)
        (hXne x0 x3 hr0 hr3 h03) (hXne x2 x3 hr2 hr3 h23) hcon)
    have hcne04 : c0 ≠ c4 := by
      rw [hcd0, hcd4]
      intro hcon
      exact (hXne x0 x4 hr0 hr4 h04) (cfun_inj 17 hp17 _ _ _ (hX0 x3 hr3)
        (hXne x0 x3 hr0 hr3 h03) (hXne x4 x3 hr4 hr3 h43) hcon)
    have hcne12 : c1 ≠ c2 := by
      rw [hcd1, hcd2]
      intro hcon
      exact (hXne x1 x2 hr1 hr2 h12) (cfun_inj 17 hp17 _ _ _ (hX0 x3 hr3)
        (hXne x1 x3 hr1 hr3 h13) (hXne x2 x3 hr2 hr3 h23) hcon)
    have hcne14 : c1 ≠ c4 := by
      rw [hcd1, hcd4]
      intro hcon
      exact (hXne x1 x4 hr1 hr4 h14) (cfun_inj 17 hp17 _ _ _ (hX0 x3 hr3)
        (hXne x1 x3 hr1 hr3 h13) (hXne x4 x3 hr4 hr3 h43) hcon)
    have hcne24 : c2 ≠ c4 := by
      rw [hcd2, hcd4]
      intro hcon
      exact (hXne x2 x4 hr2 hr4 h24) (cfun_inj 17 hp17 _ _ _ (hX0 x3 hr3)
        (hXne x2 x3 hr2 hr3 h23) (hXne x4 x3 hr4 hr3 h43) hcon)
    have hmul_01_02 : c0 * c1 ≠ c0 * c2 := by
      exact fun hcon => hcne12 (mul_left_cancel₀ hcnz0 hcon)
    have hmul_01_04 : c0 * c1 ≠ c0 * c4 := by
      exact fun hcon => hcne14 (mul_left_cancel₀ hcnz0 hcon)
    have hmul_01_12 : c0 * c1 ≠ c1 * c2 := by
      rw [mul_comm c0 c1]
      exact fun hcon => hcne02 (mul_left_cancel₀ hcnz1 hcon)
    have hmul_01_14 : c0 * c1 ≠ c1 * c4 := by
      rw [mul_comm c0 c1]
      exact fun hcon => hcne04 (mul_left_cancel₀ hcnz1 hcon)
    have hmul_02_04 : c0 * c2 ≠ c0 * c4 := by
      exact fun hcon => hcne24 (mul_left_cancel₀ hcnz0 hcon)
    have hmul_02_12 : c0 * c2 ≠ c1 * c2 := by
      exact fun hcon => hcne01 (mul_right_cancel₀ hcnz2 hcon)
    have hmul_02_24 : c0 * c2 ≠ c2 * c4 := by
      rw [mul_comm c0 c2]
      exact fun hcon => hcne04 (mul_left_cancel₀ hcnz2 hcon)
    have hmul_04_14 : c0 * c4 ≠ c1 * c4 := by
      exact fun hcon => hcne01 (mul_right_cancel₀ hcnz4 hcon)
    have hmul_04_24 : c0 * c4 ≠ c2 * c4 := by
      exact fun hcon => hcne02 (mul_right_cancel₀ hcnz4 hcon)
    have hmul_12_14 : c1 * c2 ≠ c1 * c4 := by
      exact fun hcon => hcne24 (mul_left_cancel₀ hcnz1 hcon)
    have hmul_12_24 : c1 * c2 ≠ c2 * c4 := by
      rw [mul_comm c1 c2]
      exact fun hcon => hcne14 (mul_left_cancel₀ hcnz2 hcon)
    have hmul_14_24 : c1 * c4 ≠ c2 * c4 := by
      exact fun hcon => hcne12 (mul_right_cancel₀ hcnz4 hcon)
    have hkne : ∀ (ra rb : Int) (qa qb : ZMod 17),
        ((ra : Int) : ZMod 17) = ((13 : Int) : ZMod 17) + qa * d →
        ((rb : Int) : ZMod 17) = ((13 : Int) : ZMod 17) + qb * d → qa ≠ qb →
        ¬ ra = rb ∧ ¬ rb = ra := by
      intro ra rb qa qb ha hb hq
      have hne1 : ¬ ra = rb := by
        intro hcon
        apply hq
        apply mul_right_cancel₀ hdne
        have h2 : ((ra : Int) : ZMod 17) = ((rb : Int) : ZMod 17) := by rw [hcon]
        rw [ha, hb] at h2
        exact add_left_cancel h2
      exact ⟨hne1, fun hcon => hne1 hcon.symm⟩
    have hb13 : ∀ (r : Int) (q1 q2 : ZMod 17),
        ((r : Int) : ZMod 17) = ((13 : Int) : ZMod 17) + q1 * q2 * d →
        q1 ≠ 0 → q2 ≠ 0 → ¬ r = 13 ∧ ¬ (13 : Int) = r := by
      intro r q1 q2 hr hq1 hq2
      have hne1 : ¬ r = 13 := by
        intro hcon
        rw [hcon] at hr
        exact (mul_ne_zero (mul_ne_zero hq1 hq2) hdne) (self_eq_add_right.mp hr)
      exact ⟨hne1, fun hcon => hne1 hcon.symm⟩
    have hk13 := hkne r1 r3 (c0 * c1) (c0 * c2) hc1 hc3 hmul_01_02
    have hk15 := hkne r1 r5 (c0 * c1) (c0 * c4) hc1 hc5 hmul_01_04
    have hk16 := hkne r1 r6 (c0 * c1) (c1 * c2) hc1 hc6 hmul_01_12
    have hk18 := hkne r1 r8 (c0 * c1) (c1 * c4) hc1 hc8 hmul_01_14
    have hk35 := hkne r3 r5 (c0 * c2) (c0 * c4) hc3 hc5 hmul_02_04
    have hk36 := hkne r3 r6 (c0 * c2) (c1 * c2) hc3 hc6 hmul_02_12
    have hk39 := hkne r3 r9 (c0 * c2) (c2 * c4) hc3 hc9 hmul_02_24
    have hk58 := hkne r5 r8 (c0 * c4) (c1 * c4) hc5 hc8 hmul_04_14
    have hk59 := hkne r5 r9 (c0 * c4) (c2 * c4) hc5 hc9 hmul_04_24
    have hk68 := hkne r6 r8 (c1 * c2) (c1 * c4) hc6 hc8 hmul_12_14
    have hk69 := hkne r6 r9 (c1 * c2) (c2 * c4) hc6 hc9 hmul_12_24
    have hk89 := hkne r8 r9 (c1 * c4) (c2 * c4) hc8 hc9 hmul_14_24
    have hb1 := hb13 r1 c0 c1 hc1 hcnz0 hcnz1
    have hb3 := hb13 r3 c0 c2 hc3 hcnz0 hcnz2
    have hb5 := hb13 r5 c0 c4 hc5 hcnz0 hcnz4
    have hb6 := hb13 r6 c1 c2 hc6 hcnz1 hcnz2
    have hb8 := hb13 r8 c1 c4 hc8 hcnz1 hcnz4
    have hb9 := hb13 r9 c2 c4 hc9 hcnz2 hcnz4
    rw [h17] at hok0 hok1 hok2 hok3 hok4 hok5 hok6 hok7 hok8 hok9
    have hlen10 : (combos 3 [x0, x1, x2, x3, x4]).length = 10 := rfl
    have hcx : combos 3 [x0, x1, x2, x3, x4] =
        [[x0, x1, x2], [x0, x1, x3], [x0, x1, x4], [x0, x2, x3], [x0, x2, x4], [x0, x3, x4], [x1, x2, x3], [x1, x2, x4], [x1, x3, x4], [x2, x3, x4]] := rfl
    have hcy : combos 3 [g x0, g x1, g x2, y2, g x4] =
        [[g x0, g x1, g x2], [g x0, g x1, y2], [g x0, g x1, g x4], [g x0, g x2, y2], [g x0, g x2, g x4], [g x0, y2, g x4], [g x1, g x2, y2], [g x1, g x2, g x4], [g x1, y2, g x4], [g x2, y2, g x4]] := rfl
    have hK : ∀ i < (combos 3 [x0, x1, x2, x3, x4]).length,
        reconstruct_key 17 3 ((combos 3 [x0, x1, x2, x3, x4]).getD i [])
          ((combos 3 [g x0, g x1, g x2, y2, g x4]).getD i []) =
        .ok ([13, r1, 13, r3, 13, r5, r6, 13, r8, r9].getD i 0) := by
      intro i hi
      rw [hlen10] at hi
      rw [hcx, hcy]
      interval_cases i
      · exact hok0
      · exact hok1
      · exact hok2
      · exact hok3
      · exact hok4
      · exact hok5
      · exact hok6
      · exact hok7
      · exact hok8
      · exact hok9
    have hE : entriesOf 3 [x0, x1, x2, x3, x4]
        (fun j => [13, r1, 13, r3, 13, r5, r6, 13, r8, r9].getD j 0) =
        [([x0, x1, x2], 13), ([x0, x1, x3], r1), ([x0, x1, x4], 13), ([x0, x2, x3], r3), ([x0, x2, x4], 13), ([x0, x3, x4], r5), ([x1, x2, x3], r6), ([x1, x2, x4], 13), ([x1, x3, x4], r8), ([x2, x3, x4], r9)] := rfl
    refine ⟨?_, ?_⟩
    · have hdec : decide (∀ i ∈ List.range (combos 3 [x0, x1, x2, x3, x4]).length,
          ([13, r1, 13, r3, 13, r5, r6, 13, r8, r9] : List Int).getD i 0 =
          ([13, r1, 13, r3, 13, r5, r6, 13, r8, r9] : List Int).getD 0 0) = false := by
        apply decide_eq_false
        intro hall
        have h6 := hall 1 (List.mem_range.mpr (by rw [hlen10]; norm_num))
        exact hb1.1 h6
      rw [validate_shares_eval 17 3 [x0, x1, x2, x3, x4] [g x0, g x1, g x2, y2, g x4]
        (fun j => [13, r1, 13, r3, 13, r5, r6, 13, r8, r9].getD j 0) rfl
        (by rw [hlen10]; norm_num) hK]
      exact congrArg Except.ok hdec
    · apply find_defective_resolves 17 3 [x0, x1, x2, x3, x4] [g x0, g x1, g x2, y2, g x4]
        (fun j => [13, r1, 13, r3, 13, r5, r6, 13, r8, r9].getD j 0) rfl hK 13 x3
        [[x0, x1, x3], [x0, x2, x3], [x0, x3, x4], [x1, x2, x3], [x1, x3, x4], [x2, x3, x4]]
        [x0, x1, x3]
      · rw [hE]
        exact ⟨([x0, x1, x2], 13), by simp, rfl⟩
      · rw [hE]
        have hcnt13 : keyCount
            [([x0, x1, x2], (13 : Int)), ([x0, x1, x3], r1), ([x0, x1, x4], 13), ([x0, x2, x3], r3), ([x0, x2, x4], 13), ([x0, x3, x4], r5), ([x1, x2, x3], r6), ([x1, x2, x4], 13), ([x1, x3, x4], r8), ([x2, x3, x4], r9)] 13 = 4 := by
          simp [keyCount, List.count_cons, hb1.1, hb3.1, hb5.1, hb6.1, hb8.1, hb9.1]
        intro e he hne13
        rw [hcnt13]
        simp only [List.mem_cons, List.not_mem_nil, or_false] at he
        rcases he with rfl | rfl | rfl | rfl | rfl | rfl | rfl | rfl | rfl | rfl
        · exact absurd rfl hne13
        · simp only [keyCount, List.map_cons, List.map_nil, List.count_cons, List.count_nil,
            beq_iff_eq]
          simp [hk13.2, hk15.2, hk16.2, hk18.2, hb1.2]
          split_ifs <;> omega
        · exact absurd rfl hne13
        · simp only [keyCount, List.map_cons, List.map_nil, List.count_cons, List.count_nil,
            beq_iff_eq]
          simp [hk13.1, hk35.2, hk36.2, hk39.2, hb3.2]
          split_ifs <;> omega
        · exact absurd rfl hne13
        · simp only [keyCount, List.map_cons, List.map_nil, List.count_cons, List.count_nil,
            beq_iff_eq]
          simp [hk15.1, hk35.1, hk58.2, hk59.2, hb5.2]
          split_ifs <;> omega
        · simp only [keyCount, List.map_cons, List.map_nil, List.count_cons, List.count_nil,
            beq_iff_eq]
          simp [hk16.1, hk36.1, hk68.2, hk69.2, hb6.2]
          split_ifs <;> omega
        · exact absurd rfl hne13
        · simp only [keyCount, List.map_cons, List.map_nil, List.count_cons, List.count_nil,
            beq_iff_eq]
          simp [hk18.1, hk58.1, hk68.1, hk89.2, hb8.2]
          split_ifs <;> omega
        · simp only [keyCount, List.map_cons, List.map_nil, List.count_cons, List.count_nil,
            beq_iff_eq]
          simp [hk39.1, hk59.1, hk69.1, hk89.1, hb9.2]
          split_ifs <;> omega
      · rw [hE]
        simp [List.filter_cons, hb1.1, hb3.1, hb5.1, hb6.1, hb8.1, hb9.1]
      · simp
      · rfl
      · have hded : ([x0, x1, x3] : List Int).dedup = [x0, x1, x3] := by
          rw [List.dedup_cons_of_not_mem (by simp [h01, h03]),
            List.dedup_cons_of_not_mem (by simp [h13])]
          simp
        rw [hded]
        simp only [List.filter_cons, List.filter_nil, List.all_cons, List.all_nil,
          List.mem_cons, List.not_mem_nil]
        simp [h01, h02, h03, h04, h10, h12, h13, h14, h20, h21, h23, h24, h30, h31, h32, h34, h40, h41, h42, h43]

  · -- pos = 4
    rw [show ([g x0, g x1, g x2, g x3, g x4].set 4 y2) = [g x0, g x1, g x2, g x3, y2] from rfl]
    rw [show ([x0, x1, x2, x3, x4].getD 4 0) = x4 from rfl]
    have hnegx : y2 ≠ g x4 := by simpa using hne
    set d : ZMod 17 := ((y2 : Int) : ZMod 17) - hornerZ 17 cs ((x4 : Int) : ZMod 17) with hddef
    have hdy : ((y2 : Int) : ZMod 17) = hornerZ 17 cs ((x4 : Int) : ZMod 17) +
        (if ((x4 : Int) : ZMod 17) = ((x4 : Int) : ZMod 17) then d else 0) := by
      rw [if_pos rfl, hddef]
      ring
    have hdne : d ≠ 0 := by
      rw [hddef]
      apply sub_ne_zero_of_ne
      intro hcon
      apply hnegx
      apply int_eq_of_zmod_eq ⟨hy2.1, by rw [h17]; exact hy2.2⟩
        ⟨(hgrange x4).1, by rw [h17]; exact (hgrange x4).2⟩
      rw [hcon, hcg x4]
    have hygood : ∀ (z : Int), 0 < z ∧ z < 17 → ¬ z = x4 →
        ((g z : Int) : ZMod 17) = hornerZ 17 cs ((z : Int) : ZMod 17) +
          (if ((z : Int) : ZMod 17) = ((x4 : Int) : ZMod 17) then d else 0) := by
      intro z hz hzx
      rw [if_neg (hXne z x4 hz hr4 hzx), hcg, add_zero]
    obtain ⟨r0, hok0, hge0, hlt0, hc0⟩ := key_of_triple 17 hp17 x0 x1 x2 (g x0) (g x1) (g x2)
      hr0' hr1' hr2' h01 h02 h12 cs hcs3 x4 d
      (hygood x0 hr0 h04) (hygood x1 hr1 h14) (hygood x2 hr2 h24)
    obtain ⟨r1, hok1, hge1, hlt1, hc1⟩ := key_of_triple 17 hp17 x0 x1 x3 (g x0) (g x1) (g x3)
      hr0' hr1' hr3' h01 h03 h13 cs hcs3 x4 d
      (hygood x0 hr0 h04) (hygood x1 hr1 h14) (hygood x3 hr3 h34)
    obtain ⟨r2, hok2, hge2, hlt2, hc2⟩ := key_of_triple 17 hp17 x0 x1 x4 (g x0) (g x1) y2
      hr0' hr1' hr4' h01 h04 h14 cs hcs3 x4 d
      (hygood x0 hr0 h04) (hygood x1 hr1 h14) hdy
    obtain ⟨r3, hok3, hge3, hlt3, hc3⟩ := key_of_triple 17 hp17 x0 x2 x3 (g x0) (g x2) (g x3)
      hr0' hr2' hr3' h02 h03 h23 cs hcs3 x4 d
      (hygood x0 hr0 h04) (hygood x2 hr2 h24) (hygood x3 hr3 h34)
    obtain ⟨r4, hok4, hge4, hlt4, hc4⟩ := key_of_triple 17 hp17 x0 x2 x4 (g x0) (g x2) y2
      hr0' hr2' hr4' h02 h04 h24 cs hcs3 x4 d
      (hygood x0 hr0 h04) (hygood x2 hr2 h24) hdy
    obtain ⟨r5, hok5, hge5, hlt5, hc5⟩ := key_of_triple 17 hp17 x0 x3 x4 (g x0) (g x3) y2
      hr0' hr3' hr4' h03 h04 h34 cs hcs3 x4 d
      (hygood x0 hr0 h04) (hygood x3 hr3 h34) hdy
    obtain ⟨r6, hok6, hge6, hlt6, hc6⟩ := key_of_triple 17 hp17 x1 x2 x3 (g x1) (g x2) (g x3)
      hr1' hr2' hr3' h12 h13 h23 cs hcs3 x4 d
      (hygood x1 hr1 h14) (hygood x2 hr2 h24) (hygood x3 hr3 h34)
    obtain ⟨r7, hok7, hge7, hlt7, hc7⟩ := key_of_triple 17 hp17 x1 x2 x4 (g x1) (g x2) y2
      hr1' hr2' hr4' h12 h14 h24 cs hcs3 x4 d
      (hygood x1 hr1 h14) (hygood x2 hr2 h24) hdy
    obtain ⟨r8, hok8, hge8, hlt8, hc8⟩ := key_of_triple 17 hp17 x1 x3 x4 (g x1) (g x3) y2
      hr1' hr3' hr4' h13 h14 h34 cs hcs3 x4 d
      (hygood x1 hr1 h14) (hygood x3 hr3 h34) hdy
    obtain ⟨r9, hok9, hge9, hlt9, hc9⟩ := key_of_triple 17 hp17 x2 x3 x4 (g x2) (g x3) y2
      hr2' hr3' hr4' h23 h24 h34 cs hcs3 x4 d
      (hygood x2 hr2 h24) (hygood x3 hr3 h34) hdy
    rw [if_neg (by simp [hXne x4 x0 hr4 hr0 h40, hXne x4 x1 hr4 hr1 h41,
      hXne x4 x2 hr4 hr2 h42]), add_zero, h13cast] at hc0
    rw [if_neg (by simp [hXne x4 x0 hr4 hr0 h40, hXne x4 x1 hr4 hr1 h41,
      hXne x4 x3 hr4 hr3 h43]), add_zero, h13cast] at hc1
    rw [if_pos (by simp), triple_comm_last ((x0 : Int) : ZMod 17) ((x1 : Int) : ZMod 17) ((x4 : Int) : ZMod 17),
      wZ_triple 17 _ _ _ (hXne x4 x0 hr4 hr0 h40)
      (hXne x4 x1 hr4 hr1 h41) (hXne x0 x1 hr0 hr1 h01), h13cast] at hc2
    rw [if_neg (by simp [hXne x4 x0 hr4 hr0 h40, hXne x4 x2 hr4 hr2 h42,
      hXne x4 x3 hr4 hr3 h43]), add_zero, h13cast] at hc3
    rw [if_pos (by simp), triple_comm_last ((x0 : Int) : ZMod 17) ((x2 : Int) : ZMod 17) ((x4 : Int) : ZMod 17),
      wZ_triple 17 _ _ _ (hXne x4 x0 hr4 hr0 h40)
      (hXne x4 x2 hr4 hr2 h42) (hXne x0 x2 hr0 hr2 h02), h13cast] at hc4
    rw [if_pos (by simp), triple_comm_last ((x0 : Int) : ZMod 17) ((x3 : Int) : ZMod 17) ((x4 : Int) : ZMod 17),
      wZ_triple 17 _ _ _ (hXne x4 x0 hr4 hr0 h40)
      (hXne x4 x3 hr4 hr3 h43) (hXne x0 x3 hr0 hr3 h03), h13cast] at hc5
    rw [if_neg (by simp [hXne x4 x1 hr4 hr1 h41, hXne x4 x2 hr4 hr2 h42,
      hXne x4 x3 hr4 hr3 h43]), add_zero, h13cast] at hc6
    rw [if_pos (by simp), triple_comm_last ((x1 : Int) : ZMod 17) ((x2 : Int) : ZMod 17) ((x4 : Int) : ZMod 17),
      wZ_triple 17 _ _ _ (hXne x4 x1 hr4 hr1 h41)
      (hXne x4 x2 hr4 hr2 h42) (hXne x1 x2 hr1 hr2 h12), h13cast] at hc7
    rw [if_pos (by simp), triple_comm_last ((x1 : Int) : ZMod 17) ((x3 : Int) : ZMod 17) ((x4 : Int) : ZMod 17),
      wZ_triple 17 _ _ _ (hXne x4 x1 hr4 hr1 h41)
      (hXne x4 x3 hr4 hr3 h43) (hXne x1 x3 hr1 hr3 h13), h13cast] at hc8
    rw [if_pos (by simp), triple_comm_last ((x2 : Int) : ZMod 17) ((x3 : Int) : ZMod 17) ((x4 : Int) : ZMod 17),
      wZ_triple 17 _ _ _ (hXne x4 x2 hr4 hr2 h42)
      (hXne x4 x3 hr4 hr3 h43) (hXne x2 x3 hr2 hr3 h23), h13cast] at hc9
    have he0 : r0 = 13 := hkey13 r0 hge0 hlt0 hc0
    have he1 : r1 = 13 := hkey13 r1 hge1 hlt1 hc1
    have he3 : r3 = 13 := hkey13 r3 hge3 hlt3 hc3
    have he6 : r6 = 13 := hkey13 r6 hge6 hlt6 hc6
    subst he0 he1 he3 he6
    set c0 : ZMod 17 := ((x0 : Int) : ZMod 17) *
      (((x0 : Int) : ZMod 17) - ((x4 : Int) : ZMod 17))⁻¹ with hcd0
    set c1 : ZMod 17 := ((x1 : Int) : ZMod 17) *
      (((x1 : Int) : ZMod 17) - ((x4 : Int) : ZMod 17))⁻¹ with hcd1
    set c2 : ZMod 17 := ((x2 : Int) : ZMod 17) *
      (((x2 : Int) : ZMod 17) - ((x4 : Int) : ZMod 17))⁻¹ with hcd2
    set c3 : ZMod 17 := ((x3 : Int) : ZMod 17) *
      (((x3 : Int) : ZMod 17) - ((x4 : Int) : ZMod 17))⁻¹ with hcd3
    have hcnz0 : c0 ≠ 0 := by
      rw [hcd0]; exact cfun_ne_zero 17 hp17 _ _ (hX0 x0 hr0) (hXne x0 x4 hr0 hr4 h04)
    have hcnz1 : c1 ≠ 0 := by
      rw [hcd1]; exact cfun_ne_zero 17 hp17 _ _ (hX0 x1 hr1) (hXne x1 x4 hr1 hr4 h14)
    have hcnz2 : c2 ≠ 0 := by
      rw [hcd2]; exact cfun_ne_zero 17 hp17 _ _ (hX0 x2 hr2) (hXne x2 x4 hr2 hr4 h24)
    have hcnz3 : c3 ≠ 0 := by
      rw [hcd3]; exact cfun_ne_zero 17 hp17 _ _ (hX0 x3 hr3) (hXne x3 x4 hr3 hr4 h34)
    have hcne01 : c0 ≠ c1 := by
      rw [hcd0, hcd1]
      intro hcon
      exact (hXne x0 x1 hr0 hr1 h01) (cfun_inj 17 hp17 _ _ _ (hX0 x4 hr4)
        (hXne x0 x4 hr0 hr4 h04) (hXne x1 x4 hr1 hr4 h14) hcon)
    have hcne02 : c0 ≠ c2 := by
      rw [hcd0, hcd2]
      intro hcon
      exact (hXne x0 x2 hr0 hr2 h02) (cfun_inj 17 hp17 _ _ _ (hX0 x4 hr4)
        (hXne x0 x4 hr0 hr4 h04) (hXne x2 x4 hr2 hr4 h24) hcon)
    have hcne03 : c0 ≠ c3 := by
      rw [hcd0, hcd3]
      intro hcon
      exact (hXne x0 x3 hr0 hr3 h03) (cfun_inj 17 hp17 _ _ _ (hX0 x4 hr4)
        (hXne x0 x4 hr0 hr4 h04) (hXne x3 x4 hr3 hr4 h34) hcon)
    have hcne12 : c1 ≠ c2 := by
      rw [hcd1, hcd2]
      intro hcon
      exact (hXne x1 x2 hr1 hr2 h12) (cfun_inj 17 hp17 _ _ _ (hX0 x4 hr4)
        (hXne x1 x4 hr1 hr4 h14) (hXne x2 x4 hr2 hr4 h24) hcon)
    have hcne13 : c1 ≠ c3 := by
      rw [hcd1, hcd3]
      intro hcon
      exact (hXne x1 x3 hr1 hr3 h13) (cfun_inj 17 hp17 _ _ _ (hX0 x4 hr4)
        (hXne x1 x4 hr1 hr4 h14) (hXne x3 x4 hr3 hr4 h34) hcon)
    have hcne23 : c2 ≠ c3 := by
      rw [hcd2, hcd3]
      intro hcon
      exact (hXne x2 x3 hr2 hr3 h23) (cfun_inj 17 hp17 _ _ _ (hX0 x4 hr4)
        (hXne x2 x4 hr2 hr4 h24) (hXne x3 x4 hr3 hr4 h34) hcon)
    have hmul_01_02 : c0 * c1 ≠ c0 * c2 := by
      exact fun hcon => hcne12 (mul_left_cancel₀ hcnz0 hcon)
    have hmul_01_03 : c0 * c1 ≠ c0 * c3 := by
      exact fun hcon => hcne13 (mul_left_cancel₀ hcnz0 hcon)
    have hmul_01_12 : c0 * c1 ≠ c1 * c2 := by
      rw [mul_comm c0 c1]
      exact fun hcon => hcne02 (mul_left_cancel₀ hcnz1 hcon)
    have hmul_01_13 : c0 * c1 ≠ c1 * c3 := by
      rw [mul_comm c0 c1]
      exact fun hcon => hcne03 (mul_left_cancel₀ hcnz1 hcon)
    have hmul_02_03 : c0 * c2 ≠ c0 * c3 := by
      exact fun hcon => hcne23 (mul_left_cancel₀ hcnz0 hcon)
    have hmul_02_12 : c0 * c2 ≠ c1 * c2 := by
      exact fun hcon => hcne01 (mul_right_cancel₀ hcnz2 hcon)
    have hmul_02_23 : c0 * c2 ≠ c2 * c3 := by
      rw [mul_comm c0 c2]
      exact fun hcon => hcne03 (mul_left_cancel₀ hcnz2 hcon)
    have hmul_03_13 : c0 * c3 ≠ c1 * c3 := by
      exact fun hcon => hcne01 (mul_right_cancel₀ hcnz3 hcon)
    have hmul_03_23 : c0 * c3 ≠ c2 * c3 := by
      exact fun hcon => hcne02 (mul_right_cancel₀ hcnz3 hcon)
    have hmul_12_13 : c1 * c2 ≠ c1 * c3 := by
      exact fun hcon => hcne23 (mul_left_cancel₀ hcnz1 hcon)
    have hmul_12_23 : c1 * c2 ≠ c2 * c3 := by
      rw [mul_comm c1 c2]
      exact fun hcon => hcne13 (mul_left_cancel₀ hcnz2 hcon)
    have hmul_13_23 : c1 * c3 ≠ c2 * c3 := by
      exact fun hcon => hcne12 (mul_right_cancel₀ hcnz3 hcon)
    have hkne : ∀ (ra rb : Int) (qa qb : ZMod 17),
        ((ra : Int) : ZMod 17) = ((13 : Int) : ZMod 17) + qa * d →
        ((rb : Int) : ZMod 17) = ((13 : Int) : ZMod 17) + qb * d → qa ≠ qb →
        ¬ ra = rb ∧ ¬ rb = ra := by
      intro ra rb qa qb ha hb hq
      have hne1 : ¬ ra = rb := by
        intro hcon
        apply hq
        apply mul_right_cancel₀ hdne
        have h2 : ((ra : Int) : ZMod 17) = ((rb : Int) : ZMod 17) := by rw [hcon]
        rw [ha, hb] at h2
        exact add_left_cancel h2
      exact ⟨hne1, fun hcon => hne1 hcon.symm⟩
    have hb13 : ∀ (r : Int) (q1 q2 : ZMod 17),
        ((r : Int) : ZMod 17) = ((13 : Int) : ZMod 17) + q1 * q2 * d →
        q1 ≠ 0 → q2 ≠ 0 → ¬ r = 13 ∧ ¬ (13 : Int) = r := by
      intro r q1 q2 hr hq1 hq2
      have hne1 : ¬ r = 13 := by
        intro hcon
        rw [hcon] at hr
        exact (mul_ne_zero (mul_ne_zero hq1 hq2) hdne) (self_eq_add_right.mp hr)
      exact ⟨hne1, fun hcon => hne1 hcon.symm⟩
    have hk24 := hkne r2 r4 (c0 * c1) (c0 * c2) hc2 hc4 hmul_01_02
    have hk25 := hkne r2 r5 (c0 * c1) (c0 * c3) hc2 hc5 hmul_01_03
    have hk27 := hkne r2 r7 (c0 * c1) (c1 * c2) hc2 hc7 hmul_01_12
    have hk28 := hkne r2 r8 (c0 * c1) (c1 * c3) hc2 hc8 hmul_01_13
    have hk45 := hkne r4 r5 (c0 * c2) (c0 * c3) hc4 hc5 hmul_02_03
    have hk47 := hkne r4 r7 (c0 * c2) (c1 * c2) hc4 hc7 hmul_02_12
    have hk49 := hkne r4 r9 (c0 * c2) (c2 * c3) hc4 hc9 hmul_02_23
    have hk58 := hkne r5 r8 (c0 * c3) (c1 * c3) hc5 hc8 hmul_03_13
    have hk59 := hkne r5 r9 (c0 * c3) (c2 * c3) hc5 hc9 hmul_03_23
    have hk78 := hkne r7 r8 (c1 * c2) (c1 * c3) hc7 hc8 hmul_12_13
    have hk79 := hkne r7 r9 (c1 * c2) (c2 * c3) hc7 hc9 hmul_12_23
    have hk89 := hkne r8 r9 (c1 * c3) (c2 * c3) hc8 hc9 hmul_13_23
    have hb2 := hb13 r2 c0 c1 hc2 hcnz0 hcnz1
    have hb4 := hb13 r4 c0 c2 hc4 hcnz0 hcnz2
    have hb5 := hb13 r5 c0 c3 hc5 hcnz0 hcnz3
    have hb7 := hb13 r7 c1 c2 hc7 hcnz1 hcnz2
    have hb8 := hb13 r8 c1 c3 hc8 hcnz1 hcnz3
    have hb9 := hb13 r9 c2 c3 hc9 hcnz2 hcnz3
    rw [h17] at hok0 hok1 hok2 hok3 hok4 hok5 hok6 hok7 hok8 hok9
    have hlen10 : (combos 3 [x0, x1, x2, x3, x4]).length = 10 := rfl
    have hcx : combos 3 [x0, x1, x2, x3, x4] =
        [[x0, x1, x2], [x0, x1, x3], [x0, x1, x4], [x0, x2, x3], [x0, x2, x4], [x0, x3, x4], [x1, x2, x3], [x1, x2, x4], [x1, x3, x4], [x2, x3, x4]] := rfl
    have hcy : combos 3 [g x0, g x1, g x2, g x3, y2] =
        [[g x0, g x1, g x2], [g x0, g x1, g x3], [g x0, g x1, y2], [g x0, g x2, g x3], [g x0, g x2, y2], [g x0, g x3, y2], [g x1, g x2, g x3], [g x1, g x2, y2], [g x1, g x3, y2], [g x2, g x3, y2]] := rfl
    have hK : ∀ i < (combos 3 [x0, x1, x2, x3, x4]).length,
        reconstruct_key 17 3 ((combos 3 [x0, x1, x2, x3, x4]).getD i [])
          ((combos 3 [g x0, g x1, g x2, g x3, y2]).getD i []) =
        .ok ([13, 13, r2, 13, r4, r5, 13, r7, r8, r9].getD i 0) := by
      intro i hi
      rw [hlen10] at hi
      rw [hcx, hcy]
      interval_cases i
      · exact hok0
      · exact hok1
      · exact hok2
      · exact hok3
      · exact hok4
      · exact hok5
      · exact hok6
      · exact hok7
      · exact hok8
      · exact hok9
    have hE : entriesOf 3 [x0, x1, x2, x3, x4]
        (fun j => [13, 13, r2, 13, r4, r5, 13, r7, r8, r9].getD j 0) =
        [([x0, x1, x2], 13), ([x0, x1, x3], 13), ([x0, x1, x4], r2), ([x0, x2, x3], 13), ([x0, x2, x4], r4), ([x0, x3, x4], r5), ([x1, x2, x3], 13), ([x1, x2, x4], r7), ([x1, x3, x4], r8), ([x2, x3, x4], r9)] := rfl
    refine ⟨?_, ?_⟩
    · have hdec : decide (∀ i ∈ List.range (combos 3 [x0, x1, x2, x3, x4]).length,
          ([13, 13, r2, 13, r4, r5, 13, r7, r8, r9] : List Int).getD i 0 =
          ([13, 13, r2, 13, r4, r5, 13, r7, r8, r9] : List Int).getD 0 0) = false := by
        apply decide_eq_false
        intro hall
        have h6 := hall 2 (List.mem_range.mpr (by rw [hlen10]; norm_num))
        exact hb2.1 h6
      rw [validate_shares_eval 17 3 [x0, x1, x2, x3, x4] [g x0, g x1, g x2, g x3, y2]
        (fun j => [13, 13, r2, 13, r4, r5, 13, r7, r8, r9].getD j 0) rfl
        (by rw [hlen10]; norm_num) hK]
      exact congrArg Except.ok hdec
    · apply find_defective_resolves 17 3 [x0, x1, x2, x3, x4] [g x0, g x1, g x2, g x3, y2]
        (fun j => [13, 13, r2, 13, r4, r5, 13, r7, r8, r9].getD j 0) rfl hK 13 x4
        [[x0, x1, x4], [x0, x2, x4], [x0, x3, x4], [x1, x2, x4], [x1, x3, x4], [x2, x3, x4]]
        [x0, x1, x4]
      · rw [hE]
        exact ⟨([x0, x1, x2], 13), by simp, rfl⟩
      · rw [hE]
        have hcnt13 : keyCount
            [([x0, x1, x2], (13 : Int)), ([x0, x1, x3], 13), ([x0, x1, x4], r2), ([x0, x2, x3], 13), ([x0, x2, x4], r4), ([x0, x3, x4], r5), ([x1, x2, x3], 13), ([x1, x2, x4], r7), ([x1, x3, x4], r8), ([x2, x3, x4], r9)] 13 = 4 := by
          simp [keyCount, List.count_cons, hb2.1, hb4.1, hb5.1, hb7.1, hb8.1, hb9.1]
        intro e he hne13
        rw [hcnt13]
        simp only [List.mem_cons, List.not_mem_nil, or_false] at he
        rcases he with rfl | rfl | rfl | rfl | rfl | rfl | rfl | rfl | rfl | rfl
        · exact absurd rfl hne13
        · exact absurd rfl hne13
        · simp only [keyCount, List.map_cons, List.map_nil, List.count_cons, List.count_nil,
            beq_iff_eq]
          simp [hk24.2, hk25.2, hk27.2, hk28.2, hb2.2]
          split_ifs <;> omega
        · exact absurd rfl hne13
        · simp only [keyCount, List.map_cons, List.map_nil, List.count_cons, List.count_nil,
            beq_iff_eq]
          simp [hk24.1, hk45.2, hk47.2, hk49.2, hb4.2]
          split_ifs <;> omega
        · simp only [keyCount, List.map_cons, List.map_nil, List.count_cons, List.count_nil,
            beq_iff_eq]
          simp [hk25.1, hk45.1, hk58.2, hk59.2, hb5.2]
          split_ifs <;> omega
        · exact absurd rfl hne13
        · simp only [keyCount, List.map_cons, List.map_nil, List.count_cons, List.count_nil,
            beq_iff_eq]
          simp [hk27.1, hk47.1, hk78.2, hk79.2, hb7.2]
          split_ifs <;> omega
        · simp only [keyCount, List.map_cons, List.map_nil, List.count_cons, List.count_nil,
            beq_iff_eq]
          simp [hk28.1, hk58.1, hk78.1, hk89.2, hb8.2]
          split_ifs <;> omega
        · simp only [keyCount, List.map_cons, List.map_nil, List.count_cons, List.count_nil,
            beq_iff_eq]
          simp [hk49.1, hk59.1, hk79.1, hk89.1, hb9.2]
          split_ifs <;> omega
      · rw [hE]
        simp [List.filter_cons, hb2.1, hb4.1, hb5.1, hb7.1, hb8.1, hb9.1]
      · simp
      · rfl
      · have hded : ([x0, x1, x4] : List Int).dedup = [x0, x1, x4] := by
          rw [List.dedup_cons_of_not_mem (by simp [h01, h04]),
            List.dedup_cons_of_not_mem (by simp [h14])]
          simp
        rw [hded]
        simp only [List.filter_cons, List.filter_nil, List.all_cons, List.all_nil,
          List.mem_cons, List.not_mem_nil]
        simp [h01, h02, h03, h04, h10, h12, h13, h14, h20, h21, h23, h24, h30, h31, h32, h34, h40, h41, h42, h43]

theorem defective_share_detection_witness :
    validate_shares 17 3 [1, 2, 3, 4, 5] ([(13 : Int), 13, 13, 13, 13].set 0 0) = .ok false ∧
    find_defective_share 17 3 [1, 2, 3, 4, 5] ([(13 : Int), 13, 13, 13, 13].set 0 0) =
      .ok ([(1 : Int), 2, 3, 4, 5].getD 0 0) :=
  defective_share_detection [1, 2, 3, 4, 5] [0, 0] [13, 13, 13, 13, 13]
    ⟨13, 17, 5, 3, some [0, 0], some [1, 2, 3, 4, 5], some [13, 13, 13, 13, 13]⟩
    (by decide) (by decide) (by decide) (by decide) (by rfl) 0 (by decide) 0
    (by decide) (by decide)
